import Mathlib

/-!
Shallow embedding of the kruise StatefulSet control loop
(`pkg/controller/statefulset/stateful_set_control.go`) and proofs about it.

The pod/set data model mirrors the fields the control loop reads.  Helper
predicates of the repository that are not part of the given source file
(`isHealthy`, `getOrdinal`, `getPodRevision`, `identityMatches`,
`storageMatches`, `shouldUpdateInPlaceReady`, `checkInPlaceUpdateCompleted`,
`shouldDoInPlaceUpdate`, `newVersionedStatefulSetPod`, `allowsBurst`,
`isInPlaceOnly`, `newRevision`, `nextRevision`, and the k8s helpers
`FindEqualRevisions`, `EqualRevision`, `GetValueFromIntOrPercent`) are
modelled from the specification, as noted in their doc comments.
Collaborator writes (Pod Controller, Revision Store, Status Updater) are
modelled by an environment that decides whether each call succeeds; a pass
produces a trace of issued calls.
-/

namespace Kruise

/-- A pod, as observed by the control loop.  The fields `ord`, `revision`,
`created`, `terminating`, `runningAndReady`, `failedPhase` are the results of
the repository helpers `getOrdinal`, `getPodRevision`, `isCreated`,
`isTerminating`, `isRunningAndReady`, `isFailed` (modelled from the spec:
`ord` is the parse of the trailing `-<N>` of the pod name, `-1` when
unparseable).  `inPlaceGateOK` models the in-place readiness-gate conjunct of
*healthy*; `inPlaceIncomplete` models `checkInPlaceUpdateCompleted` returning
a non-nil error; `condUpdateNeeded` models `shouldUpdateInPlaceReady`;
`identityOK`/`storageOK` model `identityMatches`/`storageMatches`.  `uid`
stands for object identity (pointer identity in the source). -/
structure Pod where
  uid : Nat
  ord : Int
  revision : String
  created : Bool
  terminating : Bool
  runningAndReady : Bool
  failedPhase : Bool
  inPlaceGateOK : Bool
  inPlaceIncomplete : Bool
  condUpdateNeeded : Bool
  identityOK : Bool
  storageOK : Bool
deriving DecidableEq, Repr

/-- `isCreated` (source helper, modelled from the spec: non-empty resource
version). -/
def isCreated (p : Pod) : Bool := p.created

/-- `isTerminating` (modelled from the spec: deletionTimestamp set). -/
def isTerminating (p : Pod) : Bool := p.terminating

/-- `isRunningAndReady` (modelled from the spec: phase Running and Ready
condition True). -/
def isRunningAndReady (p : Pod) : Bool := p.runningAndReady

/-- `isFailed` (modelled from the spec: phase Failed). -/
def isFailed (p : Pod) : Bool := p.failedPhase

/-- `isHealthy` (modelled from the spec: created, not terminating, running
and ready, and the declared in-place readiness gate is True). -/
def isHealthy (p : Pod) : Bool :=
  p.created && !p.terminating && p.runningAndReady && p.inPlaceGateOK

/-- `getPodRevision` (modelled from the spec: the revision label). -/
def getPodRevision (p : Pod) : String := p.revision

/-- `getOrdinal` (modelled from the spec: trailing `-<N>` of the name,
`-1` when unparseable). -/
def getOrdinal (p : Pod) : Int := p.ord

/-- A ControllerRevision: `revision` is the monotonic Revision number,
`payload` the captured template content (content equality of payloads is
`EqualRevision`). -/
structure ControllerRevision where
  name : String
  revision : Int
  payload : Nat
deriving DecidableEq, Repr

/-- `history.EqualRevision` (modelled from the spec: structural equality of
the captured template payload, ignoring `Revision` number and name). -/
def equalRevision (a b : ControllerRevision) : Bool := a.payload == b.payload

/-- `history.FindEqualRevisions` (modelled from the spec: all revisions whose
payload equals the candidate's, in list order). -/
def findEqualRevisions (revisions : List ControllerRevision)
    (needle : ControllerRevision) : List ControllerRevision :=
  revisions.filter (fun r => equalRevision r needle)

/-- Ordering of revisions by Revision number, used by
`history.SortControllerRevisions`. -/
def revLE (a b : ControllerRevision) : Prop := a.revision ≤ b.revision

instance : DecidableRel revLE := fun a b => by unfold revLE; infer_instance

instance : IsTotal ControllerRevision revLE :=
  ⟨fun a b => Int.le_total a.revision b.revision⟩

instance : IsTrans ControllerRevision revLE :=
  ⟨fun _ _ _ hab hbc => le_trans hab hbc⟩

/-- `history.SortControllerRevisions`: sort ascending by Revision number. -/
def sortRevisions (revisions : List ControllerRevision) :
    List ControllerRevision :=
  revisions.insertionSort revLE

/-- Ordering of pods by ordinal, the `ascendingOrdinal` comparator. -/
def podOrdLE (a b : Pod) : Prop := a.ord ≤ b.ord

instance : DecidableRel podOrdLE := fun a b => by unfold podOrdLE; infer_instance

instance : IsTotal Pod podOrdLE := ⟨fun a b => Int.le_total a.ord b.ord⟩

instance : IsTrans Pod podOrdLE := ⟨fun _ _ _ hab hbc => le_trans hab hbc⟩

/-- `sort.Sort(ascendingOrdinal(condemned))`: sort pods ascending by
ordinal. -/
def sortPodsByOrdinal (pods : List Pod) : List Pod :=
  pods.insertionSort podOrdLE

/-- `intstr.IntOrString`: an int value or a percentage string (a
non-percent or unparseable string is `malformed`). -/
inductive IntOrString where
  | intVal (v : Int)
  | percentVal (v : Int)
  | malformed
deriving DecidableEq, Repr

/-- `intstrutil.ValueOrDefault`. -/
def valueOrDefault (v : Option IntOrString) (d : IntOrString) : IntOrString :=
  match v with
  | none => d
  | some x => x

/-- `intstrutil.GetValueFromIntOrPercent` with `roundUp = false` (modelled
from the k8s utility: an int is returned as is, a percentage resolves to
`floor(p * total / 100)`, anything else is an error). -/
def getValueFromIntOrPercent (v : IntOrString) (total : Nat) :
    Except Unit Int :=
  match v with
  | .intVal n => .ok n
  | .percentVal p => .ok (Int.fdiv (p * (total : Int)) 100)
  | .malformed => .error ()

inductive PodManagementPolicyType where
  | orderedReady
  | parallelPolicy
deriving DecidableEq, Repr

inductive PodUpdatePolicyType where
  | recreate
  | inPlaceIfPossible
  | inPlaceOnly
deriving DecidableEq, Repr

inductive UpdateStrategyType where
  | rollingUpdate
  | onDelete
deriving DecidableEq, Repr

/-- `RollingUpdateStatefulSetStrategy`: `partition` and `maxUnavailable` are
pointers in the source, hence `Option`. -/
structure RollingUpdateStrategy where
  partition : Option Int
  maxUnavailable : Option IntOrString
  podUpdatePolicy : PodUpdatePolicyType
deriving DecidableEq, Repr

structure UpdateStrategy where
  type : UpdateStrategyType
  rollingUpdate : Option RollingUpdateStrategy
deriving DecidableEq, Repr

/-- The spec fields read by the control loop; `replicas` and
`revisionHistoryLimit` are pointers in the source, hence `Option`.
`templateHash` stands for the pod template content captured into revisions
(modelled from the spec: revisions are content-addressed snapshots of the
template). -/
structure StatefulSetSpec where
  replicas : Option Int
  revisionHistoryLimit : Option Int
  podManagementPolicy : PodManagementPolicyType
  updateStrategy : UpdateStrategy
  templateHash : Nat
deriving DecidableEq, Repr

/-- The status fields of a StatefulSet owned by the control loop. -/
structure StatefulSetStatus where
  observedGeneration : Int
  replicas : Int
  readyReplicas : Int
  currentReplicas : Int
  updatedReplicas : Int
  currentRevision : String
  updateRevision : String
  collisionCount : Int
deriving DecidableEq, Repr

/-- The persisted status of the set as read by the control loop;
`collisionCount` is a pointer in the source (nil-checked at read). -/
structure StatusIn where
  observedGeneration : Int
  replicas : Int
  readyReplicas : Int
  currentReplicas : Int
  updatedReplicas : Int
  currentRevision : String
  updateRevision : String
  collisionCount : Option Int
deriving DecidableEq, Repr

structure StatefulSet where
  generation : Int
  deletionTimestamp : Option Unit
  spec : StatefulSetSpec
  status : StatusIn
deriving DecidableEq, Repr

/-- `allowsBurst` (modelled from the spec: the Parallel pod management
policy allows bursting). -/
def allowsBurst (set : StatefulSet) : Bool :=
  set.spec.podManagementPolicy == .parallelPolicy

/-- `isInPlaceOnly` (modelled from the spec: the rolling-update pod update
policy is InPlaceOnly). -/
def isInPlaceOnly (set : StatefulSet) : Bool :=
  match set.spec.updateStrategy.rollingUpdate with
  | none => false
  | some ru => ru.podUpdatePolicy == .inPlaceOnly

/-- A collaborator call issued by the control loop.  Pod calls carry the pod
object handed to the Pod Controller; revision calls carry the revision name
(and the new Revision number for a bump); `updateStatus` is the Status
Updater write. -/
inductive Call where
  | createPod (p : Pod)
  | deletePod (p : Pod)
  | updatePod (p : Pod)
  | updateCondition (p : Pod) (statusTrue : Bool)
  | inPlaceUpdate (p : Pod)
  | createRev (name : String)
  | updateRev (name : String) (n : Int)
  | deleteRev (name : String)
  | updateStatus
deriving DecidableEq, Repr

/-- The pod referenced by a call, when any. -/
def callPod : Call → Option Pod
  | .createPod p => some p
  | .deletePod p => some p
  | .updatePod p => some p
  | .updateCondition p _ => some p
  | .inPlaceUpdate p => some p
  | _ => none

/-- Calls issued inside the in-place update path (`inPlaceUpdatePod`): the
condition update to False and the in-place patch. -/
def inPlacePathCall : Call → Bool
  | .updateCondition _ false => true
  | .inPlaceUpdate _ => true
  | _ => false

/-- An error surfaced by a reconcile pass: a failed collaborator call, or a
failure to resolve `maxUnavailable`. -/
inductive PassErr where
  | callFailed (c : Call)
  | intstrErr
deriving DecidableEq, Repr

/-- The collaborator environment: which calls succeed, the decision of
`shouldDoInPlaceUpdate` (modelled from the spec: whether the delta between
the pod's revision and the update revision is in-place eligible, keyed here
by the pod's revision label), and the content of the revision store. -/
structure Env where
  callOK : Call → Bool
  shouldDoInPlace : String → Bool
  revisionsList : List ControllerRevision

/-- `newVersionedStatefulSetPod` (modelled from the spec: render a fresh,
not-yet-created pod at ordinal `ord`, labelled with the current revision for
ordinals below the partition and with the update revision otherwise). -/
def newVersionedStatefulSetPod (set : StatefulSet)
    (currentName updateName : String) (ord : Nat) : Pod :=
  let partitionVal : Int :=
    match set.spec.updateStrategy.rollingUpdate with
    | none => 0
    | some ru => (ru.partition).getD 0
  { uid := ord
    ord := (ord : Int)
    revision := if (ord : Int) < partitionVal then currentName else updateName
    created := false
    terminating := false
    runningAndReady := false
    failedPhase := false
    inPlaceGateOK := true
    inPlaceIncomplete := false
    condUpdateNeeded := false
    identityOK := true
    storageOK := true }

/-- The status-counting part of one pod-partitioning step (source lines
292-307): count the pod into `replicas`, `readyReplicas`,
`currentReplicas`, `updatedReplicas`. -/
def statusCountStep (currentName updateName : String)
    (st0 : StatefulSetStatus) (p : Pod) : StatefulSetStatus :=
  let st1 := { st0 with replicas := st0.replicas + 1 }
  let st2 :=
    if isRunningAndReady p then
      { st1 with readyReplicas := st1.readyReplicas + 1 }
    else st1
  if isCreated p && !isTerminating p then
    let stc :=
      if getPodRevision p == currentName then
        { st2 with currentReplicas := st2.currentReplicas + 1 }
      else st2
    if getPodRevision p == updateName then
      { stc with updatedReplicas := stc.updatedReplicas + 1 }
    else stc
  else st2

/-- One step of the pod-partitioning loop (source lines 291-319): count the
pod into the status, then place it at its ordinal slot, condemn it, or
ignore it. -/
def partitionStep (currentName updateName : String) (replicaCount : Nat)
    (acc : StatefulSetStatus × List (Option Pod) × List Pod) (p : Pod) :
    StatefulSetStatus × List (Option Pod) × List Pod :=
  let reps := acc.2.1
  let cond := acc.2.2
  let st3 := statusCountStep currentName updateName acc.1 p
  if 0 ≤ getOrdinal p ∧ getOrdinal p < (replicaCount : Int) then
    (st3, reps.set (getOrdinal p).toNat (some p), cond)
  else if (replicaCount : Int) ≤ getOrdinal p then
    (st3, reps, cond ++ [p])
  else
    (st3, reps, cond)

/-- The pod-partitioning loop: fold `partitionStep` over the snapshot,
starting from an all-empty `replicas` array and empty `condemned` list. -/
def partitionPods (currentName updateName : String) (replicaCount : Nat)
    (status0 : StatefulSetStatus) (pods : List Pod) :
    StatefulSetStatus × List (Option Pod) × List Pod :=
  pods.foldl (partitionStep currentName updateName replicaCount)
    (status0, List.replicate replicaCount none, [])

/-- Fill every empty slot of `replicas` with a freshly rendered pod (source
lines 322-330); `i` is the ordinal of the first slot. -/
def fillReplicas (set : StatefulSet) (currentName updateName : String) :
    List (Option Pod) → Nat → List Pod
  | [], _ => []
  | none :: rest, i =>
      newVersionedStatefulSetPod set currentName updateName i ::
        fillReplicas set currentName updateName rest (i + 1)
  | some p :: rest, i =>
      p :: fillReplicas set currentName updateName rest (i + 1)

/-- One step of the first-unhealthy scan (source lines 336-354): keep the
not-healthy pod of strictly smallest ordinal, first seen wins ties. -/
def firstUnhealthyStep (acc : Option (Int × Pod)) (p : Pod) :
    Option (Int × Pod) :=
  if isHealthy p then acc
  else
    match acc with
    | none => some (getOrdinal p, p)
    | some (o, q) =>
        if getOrdinal p < o then some (getOrdinal p, p) else some (o, q)

/-- The first-unhealthy scan over `replicas` then `condemned`. -/
def findFirstUnhealthy (replicas condemned : List Pod) : Option Pod :=
  ((replicas ++ condemned).foldl firstUnhealthyStep none).map Prod.snd

/-- Outcome of one of the pass's loops: the loop ran to completion (`done`),
returned the status early with no error (`ret`), or aborted with an error
(`err`).  `calls` are the collaborator calls issued by the loop itself; `a`
is loop-specific data. -/
inductive SweepOut (α : Type) where
  | done (st : StatefulSetStatus) (calls : List Call) (a : α)
  | ret (st : StatefulSetStatus) (calls : List Call) (a : α)
  | err (st : StatefulSetStatus) (calls : List Call) (e : PassErr) (a : α)
deriving Repr

/-- The calls issued by a loop. -/
def SweepOut.calls : SweepOut α → List Call
  | .done _ cs _ => cs
  | .ret _ cs _ => cs
  | .err _ cs _ _ => cs

/-- The error of a loop outcome, when any. -/
def SweepOut.errOpt : SweepOut α → Option PassErr
  | .done _ _ _ => none
  | .ret _ _ _ => none
  | .err _ _ e _ => some e

/-- The loop-specific data of an outcome. -/
def SweepOut.payload : SweepOut α → α
  | .done _ _ a => a
  | .ret _ _ a => a
  | .err _ _ _ a => a

/-- Whether the loop returned early (the `return &status, nil` case). -/
def SweepOut.isRet : SweepOut α → Bool
  | .ret _ _ _ => true
  | _ => false

/-- Whether the loop ran to completion. -/
def SweepOut.isDone : SweepOut α → Bool
  | .done _ _ _ => true
  | _ => false

/-- Result of processing one replica in the forward sweep: move on to the
next ordinal (with the possibly replaced pod), return early, or abort. -/
inductive StepRes where
  | proceed (st : StatefulSetStatus) (calls : List Call) (p : Pod)
  | stop (st : StatefulSetStatus) (calls : List Call)
  | fail (st : StatefulSetStatus) (calls : List Call) (e : PassErr)
deriving Repr

/-- Counter adjustments after deleting a failed replica (source lines
384-390). -/
def adjustAfterFailedDelete (st : StatefulSetStatus) (p : Pod)
    (currentName updateName : String) : StatefulSetStatus :=
  let st1 :=
    if getPodRevision p == currentName then
      { st with currentReplicas := st.currentReplicas - 1 }
    else st
  let st2 :=
    if getPodRevision p == updateName then
      { st1 with updatedReplicas := st1.updatedReplicas - 1 }
    else st1
  { st2 with replicas := st2.replicas - 1 }

/-- Counter adjustments after creating a replica (source lines 403-409). -/
def adjustAfterCreate (st : StatefulSetStatus) (p : Pod)
    (currentName updateName : String) : StatefulSetStatus :=
  let st0 := { st with replicas := st.replicas + 1 }
  let st1 :=
    if getPodRevision p == currentName then
      { st0 with currentReplicas := st0.currentReplicas + 1 }
    else st0
  let st2 :=
    if getPodRevision p == updateName then
      { st1 with updatedReplicas := st1.updatedReplicas + 1 }
    else st1
  st2

/-- Tail of the forward-sweep body once the pod is known to be created and
(under the monotonic policy) not terminating: the `InPlaceUpdateReady`
condition update (source lines 428-441), the running-and-ready wait (445),
and the identity/storage repair (454-461). -/
def forwardStepReady (env : Env) (monotonic : Bool)
    (p : Pod) (st : StatefulSetStatus) (cs : List Call) : StepRes :=
  if !isRunningAndReady p && monotonic then .stop st cs
  else if p.identityOK && p.storageOK then .proceed st cs p
  else
    let c := Call.updatePod p
    if env.callOK c then .proceed st (cs ++ [c]) p
    else .fail st (cs ++ [c]) (.callFailed c)

/-- Middle of the forward-sweep body: the create of an uncreated pod (source
lines 399-417) and the terminating wait (420-427), then the condition update
gate before `forwardStepReady`. -/
def forwardStepCreated (env : Env)
    (currentName updateName : String) (monotonic : Bool)
    (p : Pod) (st : StatefulSetStatus) (cs : List Call) : StepRes :=
  if !isCreated p then
    let c := Call.createPod p
    if env.callOK c then
      let st1 := adjustAfterCreate st p currentName updateName
      if monotonic then .stop st1 (cs ++ [c])
      else .proceed st1 (cs ++ [c]) p
    else .fail st (cs ++ [c]) (.callFailed c)
  else if isTerminating p && monotonic then .stop st cs
  else if p.condUpdateNeeded then
    let c := Call.updateCondition p true
    if env.callOK c then forwardStepReady env monotonic p st (cs ++ [c])
    else .fail st (cs ++ [c]) (.callFailed c)
  else forwardStepReady env monotonic p st cs

/-- The full forward-sweep body for the replica at ordinal `i` (source lines
373-462), starting with the failed-pod recreate (375-397). -/
def forwardStep (env : Env) (set : StatefulSet)
    (currentName updateName : String) (monotonic : Bool) (i : Nat)
    (p : Pod) (st : StatefulSetStatus) : StepRes :=
  if isFailed p then
    let c := Call.deletePod p
    if env.callOK c then
      let st1 := adjustAfterFailedDelete st p currentName updateName
      let p1 := newVersionedStatefulSetPod set currentName updateName i
      forwardStepCreated env currentName updateName monotonic p1 st1 [c]
    else .fail st [c] (.callFailed c)
  else forwardStepCreated env currentName updateName monotonic p st []

/-- The forward sweep over `replicas[0..N)` (source lines 373-462).  The
payload is the processed prefix of the replicas array (with failed pods
replaced), as the source mutates `replicas[i]` in place. -/
def forwardSweep (env : Env) (set : StatefulSet)
    (currentName updateName : String) (monotonic : Bool) :
    List Pod → Nat → StatefulSetStatus → SweepOut (List Pod)
  | [], _, st => .done st [] []
  | p :: rest, i, st =>
    match forwardStep env set currentName updateName monotonic i p st with
    | .stop st1 cs => .ret st1 cs []
    | .fail st1 cs e => .err st1 cs e []
    | .proceed st1 cs p1 =>
      match forwardSweep env set currentName updateName monotonic rest
          (i + 1) st1 with
      | .done st2 cs2 ps => .done st2 (cs ++ cs2) (p1 :: ps)
      | .ret st2 cs2 ps => .ret st2 (cs ++ cs2) (p1 :: ps)
      | .err st2 cs2 e ps => .err st2 (cs ++ cs2) e (p1 :: ps)

/-- The counter decrements after deleting a condemned pod (source lines
500-505). -/
def condemnedDeleteStatus (currentName updateName : String) (p : Pod)
    (st : StatefulSetStatus) : StatefulSetStatus :=
  let st1 :=
    if getPodRevision p == currentName then
      { st with currentReplicas := st.currentReplicas - 1 }
    else st
  if getPodRevision p == updateName then
    { st1 with updatedReplicas := st1.updatedReplicas - 1 }
  else st1

/-- The body of one scale-down iteration (source lines 471-508): wait on a
terminating pod, refuse to reap while a different pod is unhealthy under the
monotonic policy, otherwise delete and adjust the counters; `stop` is the
early `return &status, nil`, `proceed` continues to the next target. -/
def condemnedStep (env : Env) (currentName updateName : String)
    (monotonic : Bool) (firstUnhealthy : Option Pod) (p : Pod)
    (st : StatefulSetStatus) : StepRes :=
  if isTerminating p then
    if monotonic then .stop st [] else .proceed st [] p
  else if !isRunningAndReady p && monotonic
      && !(firstUnhealthy == some p) then
    .stop st []
  else
    let c := Call.deletePod p
    if env.callOK c then
      let st2 := condemnedDeleteStatus currentName updateName p st
      if monotonic then .stop st2 [c] else .proceed st2 [c] p
    else .fail st [c] (.callFailed c)

/-- The scale-down sweep over the condemned pods (source lines 469-509).
The input list is the condemned list sorted ascending by ordinal and then
reversed, matching the descending `for target` loop. -/
def condemnedSweep (env : Env) (currentName updateName : String)
    (monotonic : Bool) (firstUnhealthy : Option Pod) :
    List Pod → StatefulSetStatus → SweepOut Unit
  | [], st => .done st [] ()
  | p :: rest, st =>
    match condemnedStep env currentName updateName monotonic firstUnhealthy
        p st with
    | .stop st1 cs => .ret st1 cs ()
    | .fail st1 cs e => .err st1 cs e ()
    | .proceed st1 cs _ =>
      match condemnedSweep env currentName updateName monotonic
          firstUnhealthy rest st1 with
      | .done st2 cs2 a => .done st2 (cs ++ cs2) a
      | .ret st2 cs2 a => .ret st2 (cs ++ cs2) a
      | .err st2 cs2 e a => .err st2 (cs ++ cs2) e a

/-- `inPlaceUpdatePod` (source lines 595-623): set `InPlaceUpdateReady` to
False, then issue the in-place patch; the boolean is success. -/
def inPlaceUpdatePod (env : Env) (p : Pod) : List Call × Bool :=
  let c1 := Call.updateCondition p false
  if env.callOK c1 then
    let c2 := Call.inPlaceUpdate p
    if env.callOK c2 then ([c1, c2], true) else ([c1, c2], false)
  else ([c1], false)

/-- Result of the destructive part of one update-sweep iteration. -/
structure UpdStep where
  calls : List Call
  aborted : Bool
  skip : Bool
  decCur : Bool
deriving Repr

/-- The destructive part of one update-sweep iteration (source lines
532-568): for a pod not at the update revision and not terminating, try the
in-place path when eligible (skipping while the last in-place update is
incomplete, falling back to delete on failure unless the policy is
InPlaceOnly), otherwise delete; then decide the `CurrentReplicas`
decrement. -/
def updateStep (env : Env) (set : StatefulSet)
    (currentName updateName : String) (p : Pod) : UpdStep :=
  if getPodRevision p != updateName && !isTerminating p then
    if env.shouldDoInPlace (getPodRevision p) then
      if p.inPlaceIncomplete then
        { calls := [], aborted := false, skip := true, decCur := false }
      else
        let ip := inPlaceUpdatePod env p
        if !ip.2 && !isInPlaceOnly set then
          let c := Call.deletePod p
          if env.callOK c then
            { calls := ip.1 ++ [c], aborted := false, skip := false
              decCur := getPodRevision p == currentName }
          else
            { calls := ip.1 ++ [c], aborted := true, skip := false
              decCur := false }
        else
          { calls := ip.1, aborted := false, skip := false
            decCur := getPodRevision p == currentName }
    else
      let c := Call.deletePod p
      if env.callOK c then
        { calls := [c], aborted := false, skip := false
          decCur := getPodRevision p == currentName }
      else
        { calls := [c], aborted := true, skip := false, decCur := false }
  else
    { calls := [], aborted := false, skip := false, decCur := false }

/-- Whether the update sweep counts the pod as unavailable (source lines
570-579): not at the update revision, or not healthy, or its last in-place
update is incomplete. -/
def unavailPred (updateName : String) (p : Pod) : Bool :=
  getPodRevision p != updateName || !isHealthy p || p.inPlaceIncomplete

/-- The `CurrentReplicas` decrement of one update-sweep iteration (source
lines 565-567). -/
def updateSweepStatus (s : UpdStep) (st : StatefulSetStatus) :
    StatefulSetStatus :=
  if s.decCur then { st with currentReplicas := st.currentReplicas - 1 }
  else st

/-- The `unavailablePods` append of one update-sweep iteration (source lines
570-579). -/
def updateSweepUnav (updateName : String) (p : Pod) (unav : List Pod) :
    List Pod :=
  if unavailPred updateName p then unav ++ [p] else unav

/-- The update sweep (source lines 526-591) over the targets
`(index, replicas[index])` for `index` from `replicas-1` down to
`updateMin`.  The payload is the `unavailablePods` list. -/
def updateSweepGo (env : Env) (set : StatefulSet)
    (currentName updateName : String) (maxUnavailable : Int) :
    List (Nat × Pod) → StatefulSetStatus → List Pod → SweepOut (List Pod)
  | [], st, unav => .done st [] unav
  | (_, p) :: rest, st, unav =>
    let s := updateStep env set currentName updateName p
    if s.aborted then
      .err st s.calls (.callFailed (Call.deletePod p)) unav
    else
      let st1 := updateSweepStatus s st
      let unav1 := updateSweepUnav updateName p unav
      if maxUnavailable ≤ (unav1.length : Int) then .ret st1 s.calls unav1
      else
        match updateSweepGo env set currentName updateName maxUnavailable
            rest st1 unav1 with
        | .done st2 cs2 u => .done st2 (s.calls ++ cs2) u
        | .ret st2 cs2 u => .ret st2 (s.calls ++ cs2) u
        | .err st2 cs2 e u => .err st2 (s.calls ++ cs2) e u

/-- Resolution of `updateMin` and `maxUnavailable` (source lines 517-525).
`none` models the nil-pointer panic when a RollingUpdate block is present
but its `Partition` pointer is nil; `Except.error` is the
`GetValueFromIntOrPercent` error return. -/
def updateMinMax (set : StatefulSet) (replicaCount : Nat) :
    Option (Except PassErr (Int × Int)) :=
  match set.spec.updateStrategy.rollingUpdate with
  | none => some (.ok (0, 1))
  | some ru =>
    match ru.partition with
    | none => none
    | some part =>
      match getValueFromIntOrPercent
          (valueOrDefault ru.maxUnavailable (.intVal 1)) replicaCount with
      | .error _ => some (.error .intstrErr)
      | .ok mu => some (.ok (part, mu))

/-- The update-sweep targets: indices of the replicas array at or above
`updateMin`, in descending order (`partition` is validated non-negative by
the API). -/
def buildTargets (replicas : List Pod) (updateMin : Int) :
    List (Nat × Pod) :=
  (replicas.enum.filter (fun ip => updateMin ≤ (ip.1 : Int))).reverse

/-- Result of one reconcile pass of `updateStatefulSet`: the computed
status, the trace of collaborator calls, and the surfaced error, if any. -/
structure PassResult where
  status : StatefulSetStatus
  calls : List Call
  err : Option PassErr
deriving Repr

/-- `updateStatefulSet` (source lines 256-593), one reconcile pass: seed the
status, partition the snapshot, fill empty ordinals, sort the condemned
pods, find the first unhealthy pod, exit early on a deletion timestamp, run
the forward sweep, the scale-down sweep, and (unless the strategy is
OnDelete) the rolling-update sweep.  `none` models the nil-pointer panic on
`*set.Spec.Replicas` (and, inside `updateMinMax`, on
`*...RollingUpdate.Partition`).  `ApplyRevision` only re-overlays the
captured template, so the rendered current/update sets are represented by
the two revision names. -/
def updateStatefulSet (env : Env) (set : StatefulSet)
    (currentRevision updateRevision : ControllerRevision)
    (collisionCount : Int) (pods : List Pod) : Option PassResult :=
  match set.spec.replicas with
  | none => none
  | some rc =>
    let replicaCount := rc.toNat
    let cn := currentRevision.name
    let un := updateRevision.name
    let status0 : StatefulSetStatus :=
      { observedGeneration := set.generation
        replicas := 0, readyReplicas := 0
        currentReplicas := 0, updatedReplicas := 0
        currentRevision := cn, updateRevision := un
        collisionCount := collisionCount }
    let parted := partitionPods cn un replicaCount status0 pods
    let st1 := parted.1
    let replicas0 := fillReplicas set cn un parted.2.1 0
    let condemned := sortPodsByOrdinal parted.2.2
    let firstUnhealthy := findFirstUnhealthy replicas0 condemned
    if set.deletionTimestamp.isSome then some ⟨st1, [], none⟩
    else
      let monotonic := !allowsBurst set
      match forwardSweep env set cn un monotonic replicas0 0 st1 with
      | .err st cs e _ => some ⟨st, cs, some e⟩
      | .ret st cs _ => some ⟨st, cs, none⟩
      | .done st2 cs2 replicas1 =>
        match condemnedSweep env cn un monotonic firstUnhealthy
            condemned.reverse st2 with
        | .err st cs e _ => some ⟨st, cs2 ++ cs, some e⟩
        | .ret st cs _ => some ⟨st, cs2 ++ cs, none⟩
        | .done st3 cs3 _ =>
          if set.spec.updateStrategy.type == .onDelete then
            some ⟨st3, cs2 ++ cs3, none⟩
          else
            match updateMinMax set replicaCount with
            | none => none
            | some (.error e) => some ⟨st3, cs2 ++ cs3, some e⟩
            | some (.ok (updateMin, maxUnavailable)) =>
              let targets := buildTargets replicas1 updateMin
              match updateSweepGo env set cn un maxUnavailable targets
                  st3 [] with
              | .err st cs e _ => some ⟨st, cs2 ++ cs3 ++ cs, some e⟩
              | .ret st cs _ => some ⟨st, cs2 ++ cs3 ++ cs, none⟩
              | .done st cs _ => some ⟨st, cs2 ++ cs3 ++ cs, none⟩

/-- `nextRevision` (modelled from the spec: one greater than the Revision of
the last element of the sorted revision list, or 1 when the list is
empty). -/
def nextRevision (revisions : List ControllerRevision) : Int :=
  match revisions.getLast? with
  | none => 1
  | some r => r.revision + 1

/-- `newRevision` (modelled from the spec: build a candidate revision
snapshotting the set's template, with a stable hash-derived name that
includes the collision count). -/
def newRevision (set : StatefulSet) (revisionNumber : Int)
    (collisionCount : Int) : ControllerRevision :=
  { name := "rev-" ++ toString set.spec.templateHash ++ "-"
      ++ toString collisionCount
    revision := revisionNumber
    payload := set.spec.templateHash }

/-- The candidate update revision built from the set's current template
(source lines 195-203): Revision number `nextRevision` of the sorted
history, name keyed by template hash and collision count. -/
def candidateRevision (set : StatefulSet)
    (revisions : List ControllerRevision) : ControllerRevision :=
  newRevision set (nextRevision (sortRevisions revisions))
    ((set.status.collisionCount).getD 0)

/-- The current-revision lookup of `getStatefulSetRevisions` (source lines
232-242): the last revision whose name matches the persisted
`Status.CurrentRevision`, defaulting to the update revision. -/
def pickCurrentRevision (set : StatefulSet)
    (sorted : List ControllerRevision) (upd : ControllerRevision) :
    ControllerRevision :=
  match (sorted.filter
      (fun r => r.name == set.status.currentRevision)).getLast? with
  | some r => r
  | none => upd

/-- `getStatefulSetRevisions` (source lines 187-245): build the candidate
update revision, reuse the newest existing revision when it is equal, bump
the newest equal revision on a rollback, create a new revision otherwise;
then find the current revision by name, defaulting to the update
revision.  Returns the issued revision-store calls and either an error or
`(currentRevision, updateRevision, collisionCount)`. -/
def getStatefulSetRevisions (env : Env) (set : StatefulSet)
    (revisions : List ControllerRevision) :
    List Call ×
      Except PassErr (ControllerRevision × ControllerRevision × Int) :=
  let sorted := sortRevisions revisions
  let collisionCount := (set.status.collisionCount).getD 0
  let cand := candidateRevision set revisions
  let equal := findEqualRevisions sorted cand
  let pickCurrent := pickCurrentRevision set sorted
  match equal.getLast? with
  | none =>
    let c := Call.createRev cand.name
    if env.callOK c then ([c], .ok (pickCurrent cand, cand, collisionCount))
    else ([c], .error (.callFailed c))
  | some lastEq =>
    match sorted.getLast? with
    | none => ([], .error (.callFailed (Call.createRev cand.name)))
    | some lastRev =>
      if equalRevision lastRev lastEq then
        ([], .ok (pickCurrent lastRev, lastRev, collisionCount))
      else
        let c := Call.updateRev lastEq.name cand.revision
        if env.callOK c then
          let bumped := { lastEq with revision := cand.revision }
          ([c], .ok (pickCurrent bumped, bumped, collisionCount))
        else ([c], .error (.callFailed c))

/-- The revision names marked live by `truncateHistory` (source lines
156-159): the current and update revision names and every pod's revision
label. -/
def liveNames (pods : List Pod) (current update : ControllerRevision) :
    List String :=
  current.name :: update.name :: pods.map getPodRevision

/-- The non-live revisions, in list order (source lines 161-165). -/
def nonLiveRevisions (revisions : List ControllerRevision)
    (live : List String) : List ControllerRevision :=
  revisions.filter (fun r => !live.contains r.name)

/-- The delete loop of `truncateHistory` (source lines 173-177). -/
def deleteRevLoop (env : Env) :
    List ControllerRevision → List Call × Option PassErr
  | [] => ([], none)
  | r :: rest =>
    let c := Call.deleteRev r.name
    if env.callOK c then
      let out := deleteRevLoop env rest
      (c :: out.1, out.2)
    else ([c], some (.callFailed c))

/-- The surplus slice `history[:historyLen - historyLimit]` of the non-live
revisions (source line 172). -/
def truncateSurplus (revisions : List ControllerRevision)
    (live : List String) (hl : Int) : List ControllerRevision :=
  (nonLiveRevisions revisions live).take
    ((((nonLiveRevisions revisions live).length : Int) - hl).toNat)

/-- `truncateHistory` (source lines 148-179): mark the current and update
revision names and every pod's revision label live, collect the non-live
revisions in order, and when they exceed the history limit delete the
oldest surplus.  `none` models the nil-pointer panic on
`*set.Spec.RevisionHistoryLimit`. -/
def truncateHistory (env : Env) (set : StatefulSet) (pods : List Pod)
    (revisions : List ControllerRevision)
    (current update : ControllerRevision) :
    Option (List Call × Option PassErr) :=
  let live := liveNames pods current update
  let hist := nonLiveRevisions revisions live
  match set.spec.revisionHistoryLimit with
  | none => none
  | some hl =>
    if (hist.length : Int) ≤ hl then some ([], none)
    else some (deleteRevLoop env (truncateSurplus revisions live hl))

/-- `completeRollingUpdate` (modelled from the spec: when the rollout has
converged — all replicas updated and ready under a rolling-update strategy —
fold the update revision into the current revision and mirror the
counts). -/
def completeRollingUpdate (set : StatefulSet)
    (status : StatefulSetStatus) : StatefulSetStatus :=
  if set.spec.updateStrategy.type == .rollingUpdate
      && status.updatedReplicas == status.replicas
      && status.readyReplicas == status.replicas then
    { status with
      currentReplicas := status.updatedReplicas
      currentRevision := status.updateRevision }
  else status

/-- `inconsistentStatus` (modelled from the spec: structural inequality of
the status fields the core owns against the set's persisted status). -/
def inconsistentStatus (set : StatefulSet)
    (status : StatefulSetStatus) : Bool :=
  status.observedGeneration > set.status.observedGeneration
    || status.replicas != set.status.replicas
    || status.readyReplicas != set.status.readyReplicas
    || status.currentReplicas != set.status.currentReplicas
    || status.updatedReplicas != set.status.updatedReplicas
    || status.currentRevision != set.status.currentRevision
    || status.updateRevision != set.status.updateRevision

/-- `updateStatefulSetStatus` (source lines 628-647): complete a finished
rolling update, skip the write when the status is consistent, otherwise
write it through the Status Updater. -/
def updateStatefulSetStatus (env : Env) (set : StatefulSet)
    (status : StatefulSetStatus) : List Call × Option PassErr :=
  let status1 := completeRollingUpdate set status
  if inconsistentStatus set status1 then
    if env.callOK .updateStatus then ([Call.updateStatus], none)
    else ([Call.updateStatus], some (.callFailed .updateStatus))
  else ([], none)

/-- Result of a full `UpdateStatefulSet` reconcile: the trace of all
collaborator calls and the returned error, if any. -/
structure TopResult where
  calls : List Call
  err : Option PassErr
deriving Repr

/-- `UpdateStatefulSet` (source lines 77-120): list and sort the revisions,
compute the current and update revisions, run the pass, write the status,
and truncate the history; each step's error aborts the rest.  `none` models
a nil-pointer panic inside the pass or the truncation. -/
def UpdateStatefulSetTop (env : Env) (set : StatefulSet)
    (pods : List Pod) : Option TopResult :=
  let sorted := sortRevisions env.revisionsList
  let rr := getStatefulSetRevisions env set sorted
  match rr.2 with
  | .error e => some ⟨rr.1, some e⟩
  | .ok (cur, upd, collisionCount) =>
    match updateStatefulSet env set cur upd collisionCount pods with
    | none => none
    | some pass =>
      match pass.err with
      | some e => some ⟨rr.1 ++ pass.calls, some e⟩
      | none =>
        let su := updateStatefulSetStatus env set pass.status
        match su.2 with
        | some e => some ⟨rr.1 ++ pass.calls ++ su.1, some e⟩
        | none =>
          match truncateHistory env set pods sorted cur upd with
          | none => none
          | some (tCalls, tErr) =>
            some ⟨rr.1 ++ pass.calls ++ su.1 ++ tCalls, tErr⟩

/-- Whether the partitioning counts the pod into `CurrentReplicas` when
`name` is the current revision's name (and into `UpdatedReplicas` when it is
the update revision's name). -/
def countsAsRevision (name : String) (p : Pod) : Bool :=
  isCreated p && !isTerminating p && (getPodRevision p == name)

lemma statusCountStep_spec (cn un : String) (st : StatefulSetStatus)
    (p : Pod) :
    statusCountStep cn un st p =
      { st with
        replicas := st.replicas + 1
        readyReplicas :=
          st.readyReplicas + (if isRunningAndReady p then 1 else 0)
        currentReplicas :=
          st.currentReplicas + (if countsAsRevision cn p then 1 else 0)
        updatedReplicas :=
          st.updatedReplicas + (if countsAsRevision un p then 1 else 0) } := by
  unfold statusCountStep countsAsRevision
  cases hr : isRunningAndReady p <;>
    cases hc : isCreated p <;>
      cases ht : isTerminating p <;>
        cases hcn : getPodRevision p == cn <;>
          cases hun : getPodRevision p == un <;>
            simp [hr, hc, ht, hcn, hun]

lemma foldl_statusCountStep (cn un : String) (pods : List Pod)
    (st : StatefulSetStatus) :
    pods.foldl (statusCountStep cn un) st =
      { st with
        replicas := st.replicas + pods.length
        readyReplicas :=
          st.readyReplicas + (pods.countP isRunningAndReady : Int)
        currentReplicas :=
          st.currentReplicas + (pods.countP (countsAsRevision cn) : Int)
        updatedReplicas :=
          st.updatedReplicas + (pods.countP (countsAsRevision un) : Int) } := by
  induction pods generalizing st with
  | nil => simp
  | cons p rest ih =>
    rw [List.foldl_cons, ih, statusCountStep_spec]
    cases hr : isRunningAndReady p <;>
      cases hcn : countsAsRevision cn p <;>
        cases hun : countsAsRevision un p <;>
          simp [hr, hcn, hun, List.countP_cons] <;> omega

lemma partitionStep_fst (cn un : String) (N : Nat)
    (acc : StatefulSetStatus × List (Option Pod) × List Pod) (p : Pod) :
    (partitionStep cn un N acc p).1 = statusCountStep cn un acc.1 p := by
  unfold partitionStep
  split
  · rfl
  · split <;> rfl

lemma partitionFold_fst (cn un : String) (N : Nat) (pods : List Pod)
    (acc : StatefulSetStatus × List (Option Pod) × List Pod) :
    (pods.foldl (partitionStep cn un N) acc).1 =
      pods.foldl (statusCountStep cn un) acc.1 := by
  induction pods generalizing acc with
  | nil => rfl
  | cons p rest ih =>
    rw [List.foldl_cons, List.foldl_cons, ih, partitionStep_fst]

lemma partitionPods_status (cn un : String) (N : Nat)
    (st0 : StatefulSetStatus) (pods : List Pod) :
    (partitionPods cn un N st0 pods).1 =
      { st0 with
        replicas := st0.replicas + pods.length
        readyReplicas :=
          st0.readyReplicas + (pods.countP isRunningAndReady : Int)
        currentReplicas :=
          st0.currentReplicas + (pods.countP (countsAsRevision cn) : Int)
        updatedReplicas :=
          st0.updatedReplicas + (pods.countP (countsAsRevision un) : Int) } := by
  unfold partitionPods
  rw [partitionFold_fst, foldl_statusCountStep]

/-- C9: with a deletion timestamp set, `updateStatefulSet` returns the
seeded status — observed generation, both revision names, the collision
count, and the four replica counters computed from the snapshot — without
issuing any Pod Controller call. -/
theorem c9_deletion_timestamp_early_exit (env : Env) (set : StatefulSet)
    (cur upd : ControllerRevision) (collisionCount : Int) (pods : List Pod)
    (rc : Int) (hrep : set.spec.replicas = some rc)
    (hdel : set.deletionTimestamp = some ()) :
    updateStatefulSet env set cur upd collisionCount pods =
      some
        { status :=
            { observedGeneration := set.generation
              replicas := (pods.length : Int)
              readyReplicas := (pods.countP isRunningAndReady : Int)
              currentReplicas :=
                (pods.countP (countsAsRevision cur.name) : Int)
              updatedReplicas :=
                (pods.countP (countsAsRevision upd.name) : Int)
              currentRevision := cur.name
              updateRevision := upd.name
              collisionCount := collisionCount }
          calls := []
          err := none } := by
  unfold updateStatefulSet
  rw [hrep]
  simp only [hdel, Option.isSome_some, if_true]
  rw [partitionPods_status]
  simp

/-- Witness for C9 at a concrete set and snapshot. -/
theorem c9_witness :
    (let set : StatefulSet :=
      ⟨7, some (), ⟨some 2, some 10, .orderedReady,
        ⟨.rollingUpdate, some ⟨some 0, none, .recreate⟩⟩, 42⟩,
        ⟨0, 0, 0, 0, 0, "v1", "v1", some 0⟩⟩
    set.spec.replicas = some 2 ∧ set.deletionTimestamp = some () ∧
      updateStatefulSet ⟨fun _ => true, fun _ => false, []⟩ set
          ⟨"v1", 1, 1⟩ ⟨"v2", 2, 2⟩ 0 [] =
        some
          { status :=
              { observedGeneration := 7, replicas := 0, readyReplicas := 0
                currentReplicas := 0, updatedReplicas := 0
                currentRevision := "v1", updateRevision := "v2"
                collisionCount := 0 }
            calls := []
            err := none }) :=
  ⟨rfl, rfl,
    c9_deletion_timestamp_early_exit ⟨fun _ => true, fun _ => false, []⟩ _
      ⟨"v1", 1, 1⟩ ⟨"v2", 2, 2⟩ 0 [] 2 rfl rfl⟩

lemma updateMinMax_isSome (set : StatefulSet) (N : Nat)
    (hpart : ∀ ru, set.spec.updateStrategy.rollingUpdate = some ru →
      (ru.partition).isSome = true) :
    (updateMinMax set N).isSome = true := by
  cases hru : set.spec.updateStrategy.rollingUpdate with
  | none => simp [updateMinMax, hru]
  | some ru =>
    have h := hpart ru hru
    cases hp : ru.partition with
    | none => rw [hp] at h; simp at h
    | some part =>
      cases hv : getValueFromIntOrPercent
          (valueOrDefault ru.maxUnavailable (.intVal 1)) N <;>
        simp [updateMinMax, hru, hp, hv]

lemma updateStatefulSet_isSome (env : Env) (set : StatefulSet)
    (cur upd : ControllerRevision) (collisionCount : Int) (pods : List Pod)
    (rc : Int) (hrep : set.spec.replicas = some rc)
    (hpart : ∀ ru, set.spec.updateStrategy.rollingUpdate = some ru →
      (ru.partition).isSome = true) :
    (updateStatefulSet env set cur upd collisionCount pods).isSome = true := by
  unfold updateStatefulSet
  rw [hrep]
  simp only
  split
  · rfl
  · split
    · rfl
    · rfl
    · split
      · rfl
      · rfl
      · split
        · rfl
        · have h := updateMinMax_isSome set rc.toNat hpart
          obtain ⟨v, hmm⟩ := Option.isSome_iff_exists.mp h
          rw [hmm]
          cases v with
          | error e => rfl
          | ok mm =>
            obtain ⟨um, mu⟩ := mm
            dsimp only
            split <;> rfl

lemma truncateHistory_isSome (env : Env) (set : StatefulSet)
    (pods : List Pod) (revisions : List ControllerRevision)
    (cur upd : ControllerRevision) (hl : Int)
    (hhl : set.spec.revisionHistoryLimit = some hl) :
    (truncateHistory env set pods revisions cur upd).isSome = true := by
  simp only [truncateHistory, hhl]
  split <;> rfl

/-- C10: `updateStatefulSet` dereferences `set.Spec.Replicas`,
`truncateHistory` dereferences `set.Spec.RevisionHistoryLimit`, and the
update sweep dereferences the RollingUpdate `Partition` (whenever a
RollingUpdate block is present) without nil checks — each nil field makes
the corresponding function panic (modelled as `none`); and when all three
are non-nil the full `UpdateStatefulSet` reconcile never hits a nil-pointer
dereference (`isSome`). -/
theorem c10_nil_pointer_preconditions :
    (∀ (env : Env) (set : StatefulSet) (cur upd : ControllerRevision)
        (cc : Int) (pods : List Pod), set.spec.replicas = none →
        updateStatefulSet env set cur upd cc pods = none) ∧
    (∀ (env : Env) (set : StatefulSet) (pods : List Pod)
        (revisions : List ControllerRevision)
        (cur upd : ControllerRevision),
        set.spec.revisionHistoryLimit = none →
        truncateHistory env set pods revisions cur upd = none) ∧
    (∀ (set : StatefulSet) (N : Nat) (ru : RollingUpdateStrategy),
        set.spec.updateStrategy.rollingUpdate = some ru →
        ru.partition = none → updateMinMax set N = none) ∧
    (∀ (env : Env) (set : StatefulSet) (pods : List Pod) (rc hl : Int),
        set.spec.replicas = some rc →
        set.spec.revisionHistoryLimit = some hl →
        (∀ ru, set.spec.updateStrategy.rollingUpdate = some ru →
          (ru.partition).isSome = true) →
        (UpdateStatefulSetTop env set pods).isSome = true) := by
  refine ⟨?_, ?_, ?_, ?_⟩
  · intro env set cur upd cc pods h
    unfold updateStatefulSet
    rw [h]
  · intro env set pods revisions cur upd h
    unfold truncateHistory
    rw [h]
  · intro set N ru hru hp
    simp only [updateMinMax, hru, hp]
  · intro env set pods rc hl hrep hhl hpart
    unfold UpdateStatefulSetTop
    simp only
    split
    · rfl
    · rename_i res cur upd cc heq
      have h1 := updateStatefulSet_isSome env set cur upd cc pods rc
        hrep hpart
      cases hup : updateStatefulSet env set cur upd cc pods with
      | none => rw [hup] at h1; simp at h1
      | some pass =>
        simp only
        split
        · rfl
        · split
          · rfl
          · have h2 := truncateHistory_isSome env set pods
              (sortRevisions env.revisionsList) cur upd hl hhl
            cases htr : truncateHistory env set pods
                (sortRevisions env.revisionsList) cur upd with
            | none => rw [htr] at h2; simp at h2
            | some out => cases out; rfl

/-- Witness for C10's conditional parts at a concrete set. -/
theorem c10_witness :
    (let set : StatefulSet :=
      ⟨7, none, ⟨some 2, some 10, .orderedReady,
        ⟨.rollingUpdate, some ⟨some 0, none, .recreate⟩⟩, 42⟩,
        ⟨0, 0, 0, 0, 0, "v1", "v1", some 0⟩⟩
    (UpdateStatefulSetTop ⟨fun _ => true, fun _ => false, []⟩ set
      []).isSome = true) := by
  exact c10_nil_pointer_preconditions.2.2.2
    ⟨fun _ => true, fun _ => false, []⟩ _ [] 2 10 rfl rfl
    (by intro ru hru; cases hru; rfl)

lemma deleteRevLoop_all_ok (env : Env) (l : List ControllerRevision)
    (h : ∀ r ∈ l, env.callOK (Call.deleteRev r.name) = true) :
    deleteRevLoop env l = (l.map (fun r => Call.deleteRev r.name), none) := by
  induction l with
  | nil => rfl
  | cons r rest ih =>
    have hr := h r (List.mem_cons_self r rest)
    unfold deleteRevLoop
    dsimp only
    rw [hr]
    simp only [if_true]
    rw [ih (fun q hq => h q (List.mem_cons_of_mem r hq))]
    rfl

lemma deleteRevLoop_calls_mem (env : Env) (l : List ControllerRevision) :
    ∀ c ∈ (deleteRevLoop env l).1, ∃ r ∈ l, c = Call.deleteRev r.name := by
  induction l with
  | nil => intro c hc; simp [deleteRevLoop] at hc
  | cons r rest ih =>
    intro c hc
    unfold deleteRevLoop at hc
    dsimp only at hc
    by_cases hr : env.callOK (Call.deleteRev r.name) = true
    · rw [hr] at hc
      simp only [if_true, List.mem_cons] at hc
      rcases hc with hc | hc
      · exact ⟨r, List.mem_cons_self r rest, hc⟩
      · obtain ⟨q, hq, hcq⟩ := ih c hc
        exact ⟨q, List.mem_cons_of_mem r hq, hcq⟩
    · rw [Bool.not_eq_true] at hr
      rw [hr] at hc
      simp only [Bool.false_eq_true, if_false, List.mem_singleton] at hc
      exact ⟨r, List.mem_cons_self r rest, hc⟩

/-- C7: with a non-nil history limit `hl`: when at most `hl` revisions are
non-live, `truncateHistory` returns with no delete; every delete it ever
issues names a non-live revision (never the current or update revision's
name or a pod's revision label); on the success path it deletes exactly the
surplus prefix of the non-live revisions; and when the revision list is
sorted by Revision, every deleted revision's number is at most every
retained non-live revision's number (oldest first). -/
theorem c7_truncate_history (env : Env) (set : StatefulSet)
    (pods : List Pod) (revisions : List ControllerRevision)
    (cur upd : ControllerRevision) (hl : Int)
    (hhl : set.spec.revisionHistoryLimit = some hl) :
    (((nonLiveRevisions revisions (liveNames pods cur upd)).length : Int)
        ≤ hl →
      truncateHistory env set pods revisions cur upd = some ([], none)) ∧
    (∀ calls errOpt,
      truncateHistory env set pods revisions cur upd =
          some (calls, errOpt) →
        ∀ n, Call.deleteRev n ∈ calls →
          (liveNames pods cur upd).contains n = false) ∧
    ((∀ r ∈ truncateSurplus revisions (liveNames pods cur upd) hl,
        env.callOK (Call.deleteRev r.name) = true) →
      ¬ ((nonLiveRevisions revisions (liveNames pods cur upd)).length : Int)
          ≤ hl →
      truncateHistory env set pods revisions cur upd =
        some ((truncateSurplus revisions (liveNames pods cur upd) hl).map
          (fun r => Call.deleteRev r.name), none)) ∧
    (revisions.Pairwise revLE →
      ∀ r ∈ truncateSurplus revisions (liveNames pods cur upd) hl,
        ∀ q ∈ (nonLiveRevisions revisions (liveNames pods cur upd)).drop
          ((((nonLiveRevisions revisions
              (liveNames pods cur upd)).length : Int) - hl).toNat),
          r.revision ≤ q.revision) := by
  refine ⟨?_, ?_, ?_, ?_⟩
  · intro hle
    simp only [truncateHistory, hhl]
    rw [if_pos hle]
  · intro calls errOpt hout n hn
    simp only [truncateHistory, hhl] at hout
    by_cases hle :
        ((nonLiveRevisions revisions (liveNames pods cur upd)).length : Int)
          ≤ hl
    · rw [if_pos hle] at hout
      injection hout with hout
      injection hout with h1 h2
      subst h1
      simp at hn
    · rw [if_neg hle] at hout
      injection hout with hout
      have hcalls : calls =
          (deleteRevLoop env
            (truncateSurplus revisions (liveNames pods cur upd) hl)).1 := by
        rw [hout]
      rw [hcalls] at hn
      obtain ⟨r, hr, hcr⟩ := deleteRevLoop_calls_mem env _ _ hn
      have hrn : r ∈ nonLiveRevisions revisions (liveNames pods cur upd) :=
        List.take_subset _ _ hr
      have := List.of_mem_filter hrn
      injection hcr with hn1
      rw [hn1]
      simpa using this
  · intro hok hgt
    simp only [truncateHistory, hhl]
    rw [if_neg hgt, deleteRevLoop_all_ok env _ hok]
  · intro hpw r hr q hq
    have hpw2 : (nonLiveRevisions revisions
        (liveNames pods cur upd)).Pairwise revLE := List.Pairwise.filter _ hpw
    set hist := nonLiveRevisions revisions (liveNames pods cur upd) with hh
    set k := (((hist.length : Int) - hl).toNat) with hk
    have hsplit := List.take_append_drop k hist
    have hpw3 : (hist.take k ++ hist.drop k).Pairwise revLE := by
      rw [hsplit]; exact hpw2
    have := (List.pairwise_append.mp hpw3).2.2
    exact this r hr q hq

/-- Witness for C7 at a concrete set, revisions and environment. -/
theorem c7_witness :
    (let set : StatefulSet :=
      ⟨7, none, ⟨some 2, some 0, .orderedReady,
        ⟨.rollingUpdate, some ⟨some 0, none, .recreate⟩⟩, 42⟩,
        ⟨0, 0, 0, 0, 0, "v2", "v2", some 0⟩⟩
    let env : Env := ⟨fun _ => true, fun _ => false, []⟩
    set.spec.revisionHistoryLimit = some 0 ∧
      truncateHistory env set [] [⟨"v1", 1, 1⟩, ⟨"v2", 2, 2⟩]
          ⟨"v2", 2, 2⟩ ⟨"v2", 2, 2⟩ =
        some ([Call.deleteRev "v1"], none)) := by
  refine ⟨rfl, ?_⟩
  have h := (c7_truncate_history ⟨fun _ => true, fun _ => false, []⟩
    ⟨7, none, ⟨some 2, some 0, .orderedReady,
      ⟨.rollingUpdate, some ⟨some 0, none, .recreate⟩⟩, 42⟩,
      ⟨0, 0, 0, 0, 0, "v2", "v2", some 0⟩⟩
    [] [⟨"v1", 1, 1⟩, ⟨"v2", 2, 2⟩] ⟨"v2", 2, 2⟩ ⟨"v2", 2, 2⟩ 0
    rfl).2.2.1 (by decide) (by decide)
  exact h

lemma mem_of_getLast? {α : Type} {l : List α} {a : α}
    (h : l.getLast? = some a) : a ∈ l := by
  have h2 : l ≠ [] := by intro he; rw [he] at h; simp at h
  rw [List.getLast?_eq_getLast l h2] at h
  injection h with h
  rw [← h]
  exact List.getLast_mem h2

lemma ne_nil_of_getLast? {α : Type} {l : List α} {a : α}
    (h : l.getLast? = some a) : l ≠ [] := by
  intro he; rw [he] at h; simp at h

lemma getLast?_cons_of_ne_nil {α : Type} {l : List α} (a : α)
    (h : l ≠ []) : (a :: l).getLast? = l.getLast? := by
  cases l with
  | nil => exact absurd rfl h
  | cons b t => exact List.getLast?_cons_cons

lemma getLast?_filter {α : Type} (p : α → Bool) (l : List α) (x : α)
    (hx : l.getLast? = some x) (hp : p x = true) :
    (l.filter p).getLast? = some x := by
  induction l with
  | nil => simp at hx
  | cons a t ih =>
    cases t with
    | nil =>
      simp only [List.getLast?_singleton] at hx
      injection hx with hx
      subst hx
      simp [List.filter, hp]
    | cons b t2 =>
      rw [List.getLast?_cons_cons] at hx
      have h2 := ih hx
      have hne : (b :: t2).filter p ≠ [] := ne_nil_of_getLast? h2
      by_cases ha : p a = true
      · rw [List.filter_cons_of_pos ha, getLast?_cons_of_ne_nil a hne]
        exact h2
      · rw [Bool.not_eq_true] at ha
        rw [List.filter_cons_of_neg (by simp [ha])]
        exact h2

lemma sorted_rev_le_getLast (l : List ControllerRevision)
    (x : ControllerRevision) (hs : l.Sorted revLE)
    (hx : l.getLast? = some x) : ∀ r ∈ l, r.revision ≤ x.revision := by
  induction l with
  | nil => simp at hx
  | cons a t ih =>
    intro r hr
    cases t with
    | nil =>
      simp only [List.getLast?_singleton] at hx
      injection hx with hx
      subst hx
      simp only [List.mem_singleton] at hr
      subst hr
      exact le_refl _
    | cons b t2 =>
      rw [List.getLast?_cons_cons] at hx
      rcases List.mem_cons.mp hr with hr | hr
      · subst hr
        have hxm : x ∈ b :: t2 := mem_of_getLast? hx
        exact (List.pairwise_cons.mp hs).1 x hxm
      · exact ih (List.Sorted.of_cons hs) hx r hr

lemma sortRevisions_sorted (l : List ControllerRevision) :
    (sortRevisions l).Sorted revLE := List.sorted_insertionSort revLE l

lemma mem_sortRevisions (l : List ControllerRevision)
    (r : ControllerRevision) : r ∈ sortRevisions l ↔ r ∈ l :=
  (List.perm_insertionSort revLE l).mem_iff

/-- C4: with candidate revision `cand` built from the set's template: when
the newest sorted revision equals `cand`, it is reused as the update
revision with no store write; when some existing revision equals `cand` but
the newest does not, the newest equal revision is bumped via
`UpdateControllerRevision` to `cand`'s number — one greater than the largest
existing Revision — and the bumped object is returned, with no revision
created; and when no existing revision equals `cand` a new revision is
created. -/
theorem c4_revision_reuse_bump_create (env : Env) (set : StatefulSet)
    (revisions : List ControllerRevision) :
    (∀ lastRev, (sortRevisions revisions).getLast? = some lastRev →
      equalRevision lastRev (candidateRevision set revisions) = true →
      ∃ cur, getStatefulSetRevisions env set revisions =
        ([], .ok (cur, lastRev, (set.status.collisionCount).getD 0))) ∧
    (∀ lastRev, (sortRevisions revisions).getLast? = some lastRev →
      equalRevision lastRev (candidateRevision set revisions) = false →
      (∃ r ∈ revisions,
        equalRevision r (candidateRevision set revisions) = true) →
      ∃ eqLast,
        (findEqualRevisions (sortRevisions revisions)
          (candidateRevision set revisions)).getLast? = some eqLast ∧
        equalRevision eqLast (candidateRevision set revisions) = true ∧
        (candidateRevision set revisions).revision = lastRev.revision + 1 ∧
        (∀ r ∈ revisions, r.revision ≤ lastRev.revision) ∧
        (env.callOK (Call.updateRev eqLast.name
            (candidateRevision set revisions).revision) = true →
          ∃ cur, getStatefulSetRevisions env set revisions =
            ([Call.updateRev eqLast.name
                (candidateRevision set revisions).revision],
              .ok (cur,
                { eqLast with
                  revision := (candidateRevision set revisions).revision },
                (set.status.collisionCount).getD 0)))) ∧
    ((∀ r ∈ revisions,
        equalRevision r (candidateRevision set revisions) = false) →
      env.callOK (Call.createRev (candidateRevision set revisions).name) =
          true →
      ∃ cur, getStatefulSetRevisions env set revisions =
        ([Call.createRev (candidateRevision set revisions).name],
          .ok (cur, candidateRevision set revisions,
            (set.status.collisionCount).getD 0))) := by
  refine ⟨?_, ?_, ?_⟩
  · intro lastRev hlast heq
    have hfl : (findEqualRevisions (sortRevisions revisions)
        (candidateRevision set revisions)).getLast? = some lastRev :=
      getLast?_filter _ _ _ hlast heq
    refine ⟨pickCurrentRevision set (sortRevisions revisions) lastRev, ?_⟩
    simp only [getStatefulSetRevisions, findEqualRevisions] at hfl ⊢
    rw [hfl, hlast]
    have hself : equalRevision lastRev lastRev = true := by
      simp [equalRevision]
    dsimp only
    rw [if_pos hself]
  · intro lastRev hlast heq ⟨r, hr, hrEq⟩
    have hrs : r ∈ sortRevisions revisions :=
      (mem_sortRevisions revisions r).mpr hr
    have hrf : r ∈ findEqualRevisions (sortRevisions revisions)
        (candidateRevision set revisions) := by
      unfold findEqualRevisions
      exact List.mem_filter.mpr ⟨hrs, hrEq⟩
    have hne : findEqualRevisions (sortRevisions revisions)
        (candidateRevision set revisions) ≠ [] := by
      intro he; rw [he] at hrf; simp at hrf
    obtain ⟨eqLast, heqLast⟩ :
        ∃ x, (findEqualRevisions (sortRevisions revisions)
          (candidateRevision set revisions)).getLast? = some x := by
      cases hgl : (findEqualRevisions (sortRevisions revisions)
          (candidateRevision set revisions)).getLast? with
      | none => exact absurd (List.getLast?_eq_none_iff.mp hgl) hne
      | some x => exact ⟨x, rfl⟩
    have hmem : eqLast ∈ findEqualRevisions (sortRevisions revisions)
        (candidateRevision set revisions) := mem_of_getLast? heqLast
    rw [findEqualRevisions] at hmem
    have heqEq0 := List.of_mem_filter hmem
    have heqEq : equalRevision eqLast (candidateRevision set revisions) =
        true := heqEq0
    have hguard : equalRevision lastRev eqLast = false := by
      cases hg : equalRevision lastRev eqLast with
      | false => rfl
      | true =>
        exfalso
        unfold equalRevision at hg heqEq heq
        rw [beq_iff_eq] at hg heqEq
        rw [hg, heqEq] at heq
        simp at heq
    have hnext : (candidateRevision set revisions).revision =
        lastRev.revision + 1 := by
      unfold candidateRevision newRevision nextRevision
      rw [hlast]
    refine ⟨eqLast, heqLast, heqEq, hnext, ?_, ?_⟩
    · intro q hq
      exact sorted_rev_le_getLast _ _ (sortRevisions_sorted revisions) hlast
        q ((mem_sortRevisions revisions q).mpr hq)
    · intro hok
      refine ⟨pickCurrentRevision set (sortRevisions revisions)
        { eqLast with
          revision := (candidateRevision set revisions).revision }, ?_⟩
      simp only [getStatefulSetRevisions, findEqualRevisions] at heqLast ⊢
      rw [heqLast, hlast]
      dsimp only
      rw [if_neg (by simp [hguard]), if_pos hok]
  · intro hall hok
    have hfl : findEqualRevisions (sortRevisions revisions)
        (candidateRevision set revisions) = [] := by
      unfold findEqualRevisions
      rw [List.filter_eq_nil_iff]
      intro r hrs
      rw [hall r ((mem_sortRevisions revisions r).mp hrs)]
      simp
    refine ⟨pickCurrentRevision set (sortRevisions revisions)
      (candidateRevision set revisions), ?_⟩
    simp only [getStatefulSetRevisions, findEqualRevisions] at hfl ⊢
    rw [hfl]
    simp only [List.getLast?_nil]
    rw [if_pos hok]

/-- Concrete environment for the C4 witness. -/
def c4Env : Env := ⟨fun _ => true, fun _ => false, []⟩

/-- Concrete set for the C4 witness (template hash 42, rolled back to the
shape of the older revision). -/
def c4Set : StatefulSet :=
  ⟨7, none, ⟨some 2, some 10, .orderedReady,
    ⟨.rollingUpdate, some ⟨some 0, none, .recreate⟩⟩, 42⟩,
    ⟨0, 0, 0, 0, 0, "v1", "v1", some 0⟩⟩

/-- Witness for C4: a rollback bump at a concrete history of two
revisions. -/
theorem c4_witness :
    (sortRevisions [⟨"a", 1, 42⟩, ⟨"b", 2, 5⟩]).getLast? =
        some ⟨"b", 2, 5⟩ ∧
    equalRevision ⟨"b", 2, 5⟩
        (candidateRevision c4Set [⟨"a", 1, 42⟩, ⟨"b", 2, 5⟩]) = false ∧
    equalRevision ⟨"a", 1, 42⟩
        (candidateRevision c4Set [⟨"a", 1, 42⟩, ⟨"b", 2, 5⟩]) = true ∧
    getStatefulSetRevisions c4Env c4Set [⟨"a", 1, 42⟩, ⟨"b", 2, 5⟩] =
      ([Call.updateRev "a" 3], .ok (⟨"a", 3, 42⟩, ⟨"a", 3, 42⟩, 0)) := by
  obtain ⟨eqLast, h1, h2, h3, h4, h5⟩ :=
    (c4_revision_reuse_bump_create c4Env c4Set
      [⟨"a", 1, 42⟩, ⟨"b", 2, 5⟩]).2.1 ⟨"b", 2, 5⟩ rfl rfl
      ⟨⟨"a", 1, 42⟩, by simp, rfl⟩
  have heqL : eqLast = ⟨"a", 1, 42⟩ :=
    Option.some.inj (h1.symm.trans (by rfl))
  subst heqL
  obtain ⟨cur, hres⟩ := h5 rfl
  exact ⟨rfl, rfl, rfl, rfl⟩

lemma mem_of_getElem?Some {α : Type} {l : List α} {n : Nat} {a : α}
    (h : l[n]? = some a) : a ∈ l := by
  obtain ⟨hlt, he⟩ := List.getElem?_eq_some.mp h
  exact he ▸ List.getElem_mem hlt

lemma partitionStep_slots_length (cn un : String) (N : Nat)
    (acc : StatefulSetStatus × List (Option Pod) × List Pod) (p : Pod) :
    (partitionStep cn un N acc p).2.1.length = acc.2.1.length := by
  unfold partitionStep
  split
  · simp
  · split <;> rfl

lemma partitionStep_slot_eq (cn un : String) (N : Nat)
    (acc : StatefulSetStatus × List (Option Pod) × List Pod) (p : Pod)
    (o : Nat) (ho : o < N) (hlen : acc.2.1.length = N)
    (hp : getOrdinal p = (o : Int)) :
    (partitionStep cn un N acc p).2.1[o]? = some (some p) := by
  unfold partitionStep
  have hcond : 0 ≤ getOrdinal p ∧ getOrdinal p < (N : Int) := by
    rw [hp]
    constructor
    · exact Int.ofNat_nonneg o
    · exact_mod_cast ho
  rw [if_pos hcond]
  have htn : (getOrdinal p).toNat = o := by rw [hp]; simp
  rw [htn]
  rw [List.getElem?_set]
  simp [hlen, ho]

lemma partitionStep_slot_ne (cn un : String) (N : Nat)
    (acc : StatefulSetStatus × List (Option Pod) × List Pod) (p : Pod)
    (o : Nat) (hp : getOrdinal p ≠ (o : Int)) :
    (partitionStep cn un N acc p).2.1[o]? = acc.2.1[o]? := by
  unfold partitionStep
  split
  · rename_i hcond
    have hne : (getOrdinal p).toNat ≠ o := by
      intro he
      apply hp
      rw [← he]
      exact (Int.toNat_of_nonneg hcond.1).symm
    rw [List.getElem?_set]
    simp [hne]
  · split <;> rfl

lemma partitionFold_slot (cn un : String) (N : Nat) (o : Nat) (ho : o < N)
    (pods : List Pod) :
    ∀ acc : StatefulSetStatus × List (Option Pod) × List Pod,
      acc.2.1.length = N →
      ((pods.foldl (partitionStep cn un N) acc).2.1)[o]? =
        match (pods.filter
            (fun p => getOrdinal p == (o : Int))).getLast? with
        | some p => some (some p)
        | none => acc.2.1[o]? := by
  induction pods with
  | nil => intro acc _; simp
  | cons p rest ih =>
    intro acc hlen
    rw [List.foldl_cons, List.filter_cons]
    have hlen2 : (partitionStep cn un N acc p).2.1.length = N := by
      rw [partitionStep_slots_length]; exact hlen
    by_cases hp : getOrdinal p = (o : Int)
    · have hb : (getOrdinal p == (o : Int)) = true := by
        exact beq_iff_eq.mpr hp
      rw [hb]
      simp only [if_true]
      rw [ih _ hlen2]
      cases hfr : (rest.filter
          (fun q => getOrdinal q == (o : Int))).getLast? with
      | none =>
        have hnil : rest.filter (fun q => getOrdinal q == (o : Int)) = [] :=
          List.getLast?_eq_none_iff.mp hfr
        rw [hnil]
        simp only [List.getLast?_singleton]
        exact partitionStep_slot_eq cn un N acc p o ho hlen hp
      | some q =>
        have hne : rest.filter (fun q => getOrdinal q == (o : Int)) ≠ [] :=
          ne_nil_of_getLast? hfr
        rw [getLast?_cons_of_ne_nil p hne, hfr]
    · have hb : (getOrdinal p == (o : Int)) = false := by
        rw [beq_eq_false_iff_ne]
        exact hp
      rw [hb]
      simp only [Bool.false_eq_true, if_false]
      rw [ih _ hlen2, partitionStep_slot_ne cn un N acc p o hp]

lemma partitionStep_condemned (cn un : String) (N : Nat)
    (acc : StatefulSetStatus × List (Option Pod) × List Pod) (p : Pod) :
    (partitionStep cn un N acc p).2.2 =
      if (N : Int) ≤ getOrdinal p then acc.2.2 ++ [p] else acc.2.2 := by
  unfold partitionStep
  split
  · rename_i hcond
    rw [if_neg]
    omega
  · split <;> rfl

lemma partitionFold_condemned (cn un : String) (N : Nat) (pods : List Pod) :
    ∀ acc : StatefulSetStatus × List (Option Pod) × List Pod,
      (pods.foldl (partitionStep cn un N) acc).2.2 =
        acc.2.2 ++ pods.filter (fun p => (N : Int) ≤ getOrdinal p) := by
  induction pods with
  | nil => intro acc; simp
  | cons p rest ih =>
    intro acc
    rw [List.foldl_cons, ih, partitionStep_condemned, List.filter_cons]
    by_cases hge : (N : Int) ≤ getOrdinal p
    · rw [if_pos hge, if_pos (by exact decide_eq_true hge)]
      simp
    · rw [if_neg hge, if_neg (by simpa using hge)]

lemma partitionFold_slot_entry_ord (cn un : String) (N : Nat)
    (pods : List Pod) :
    ∀ acc : StatefulSetStatus × List (Option Pod) × List Pod,
      (∀ q : Pod, some q ∈ acc.2.1 → 0 ≤ getOrdinal q) →
      ∀ q : Pod, some q ∈ (pods.foldl (partitionStep cn un N) acc).2.1 →
        0 ≤ getOrdinal q := by
  induction pods with
  | nil => intro acc h; exact h
  | cons p rest ih =>
    intro acc h
    rw [List.foldl_cons]
    apply ih
    intro q hq
    unfold partitionStep at hq
    split at hq
    · rename_i hcond
      rcases List.mem_or_eq_of_mem_set hq with hq | hq
      · exact h q hq
      · injection hq with hq
        rw [hq]
        exact hcond.1
    · split at hq <;> exact h q hq

lemma fillReplicas_ord (set : StatefulSet) (cn un : String) :
    ∀ (slots : List (Option Pod)) (i : Nat),
      (∀ q : Pod, some q ∈ slots → 0 ≤ getOrdinal q) →
      ∀ q ∈ fillReplicas set cn un slots i, 0 ≤ getOrdinal q := by
  intro slots
  induction slots with
  | nil => intro i _ q hq; simp [fillReplicas] at hq
  | cons s rest ih =>
    intro i h q hq
    cases s with
    | none =>
      rw [fillReplicas] at hq
      rcases List.mem_cons.mp hq with hq | hq
      · rw [hq]
        exact Int.ofNat_nonneg i
      · exact ih (i + 1) (fun r hr => h r (List.mem_cons_of_mem _ hr)) q hq
    | some p =>
      rw [fillReplicas] at hq
      rcases List.mem_cons.mp hq with hq | hq
      · rw [hq]
        exact h p (List.mem_cons_self _ _)
      · exact ih (i + 1) (fun r hr => h r (List.mem_cons_of_mem _ hr)) q hq

/-- The calls issued by a forward-sweep step. -/
def StepRes.calls : StepRes → List Call
  | .proceed _ cs _ => cs
  | .stop _ cs => cs
  | .fail _ cs _ => cs

lemma forwardStepReady_calls (env : Env) (monotonic : Bool) (p : Pod)
    (st : StatefulSetStatus) (cs : List Call) :
    ∀ c ∈ (forwardStepReady env monotonic p st cs).calls,
      c ∈ cs ∨ callPod c = some p := by
  intro c hc
  unfold forwardStepReady at hc
  dsimp only at hc
  split at hc
  · exact Or.inl hc
  · split at hc
    · exact Or.inl hc
    · split at hc <;>
      · simp only [StepRes.calls, List.mem_append, List.mem_singleton] at hc
        rcases hc with hc | hc
        · exact Or.inl hc
        · rw [hc]; exact Or.inr rfl

lemma forwardStepCreated_calls (env : Env) (cn un : String)
    (monotonic : Bool) (p : Pod) (st : StatefulSetStatus) (cs : List Call) :
    ∀ c ∈ (forwardStepCreated env cn un monotonic p st cs).calls,
      c ∈ cs ∨ callPod c = some p := by
  intro c hc
  unfold forwardStepCreated at hc
  dsimp only at hc
  split at hc
  · split at hc
    · split at hc <;>
      · simp only [StepRes.calls, List.mem_append, List.mem_singleton] at hc
        rcases hc with hc | hc
        · exact Or.inl hc
        · rw [hc]; exact Or.inr rfl
    · simp only [StepRes.calls, List.mem_append, List.mem_singleton] at hc
      rcases hc with hc | hc
      · exact Or.inl hc
      · rw [hc]; exact Or.inr rfl
  · split at hc
    · exact Or.inl hc
    · split at hc
      · split at hc
        · rcases forwardStepReady_calls env monotonic p st _ c hc with h | h
          · simp only [List.mem_append, List.mem_singleton] at h
            rcases h with h | h
            · exact Or.inl h
            · rw [h]; exact Or.inr rfl
          · exact Or.inr h
        · simp only [StepRes.calls, List.mem_append,
            List.mem_singleton] at hc
          rcases hc with hc | hc
          · exact Or.inl hc
          · rw [hc]; exact Or.inr rfl
      · exact forwardStepReady_calls env monotonic p st cs c hc

lemma forwardStep_calls (env : Env) (set : StatefulSet) (cn un : String)
    (monotonic : Bool) (i : Nat) (p : Pod) (st : StatefulSetStatus) :
    ∀ c ∈ (forwardStep env set cn un monotonic i p st).calls,
      callPod c = some p ∨
        callPod c = some (newVersionedStatefulSetPod set cn un i) := by
  intro c hc
  unfold forwardStep at hc
  dsimp only at hc
  split at hc
  · split at hc
    · rcases forwardStepCreated_calls env cn un monotonic _ _ _ c hc
        with h | h
      · simp only [List.mem_singleton] at h
        rw [h]
        exact Or.inl rfl
      · exact Or.inr h
    · simp only [StepRes.calls, List.mem_singleton] at hc
      rw [hc]
      exact Or.inl rfl
  · rcases forwardStepCreated_calls env cn un monotonic p st [] c hc
      with h | h
    · simp at h
    · exact Or.inl h

lemma forwardSweep_calls (env : Env) (set : StatefulSet) (cn un : String)
    (monotonic : Bool) :
    ∀ (l : List Pod) (i : Nat) (st : StatefulSetStatus),
      ∀ c ∈ (forwardSweep env set cn un monotonic l i st).calls,
        ∃ (j : Nat) (p : Pod), l[j]? = some p ∧
          (callPod c = some p ∨
            callPod c = some (newVersionedStatefulSetPod set cn un (i + j))) := by
  intro l
  induction l with
  | nil => intro i st c hc; simp [forwardSweep, SweepOut.calls] at hc
  | cons p rest ih =>
    intro i st c hc
    rw [forwardSweep] at hc
    split at hc
    · rename_i st1 cs hstep
      refine ⟨0, p, by simp, ?_⟩
      have := forwardStep_calls env set cn un monotonic i p st
      rw [hstep] at this
      simpa using this c hc
    · rename_i st1 cs e hstep
      refine ⟨0, p, by simp, ?_⟩
      have := forwardStep_calls env set cn un monotonic i p st
      rw [hstep] at this
      simpa using this c hc
    · rename_i st1 cs p1 hstep
      have hstepc := forwardStep_calls env set cn un monotonic i p st
      rw [hstep] at hstepc
      split at hc <;>
      · rename_i hrec
        simp only [SweepOut.calls, List.mem_append] at hc
        rcases hc with hc | hc
        · exact ⟨0, p, by simp, by simpa using hstepc c hc⟩
        · obtain ⟨j, q, hjq, hcall⟩ := by
            have := ih (i + 1) st1 c
            rw [hrec] at this
            exact this hc
          refine ⟨j + 1, q, by simpa using hjq, ?_⟩
          rwa [show i + 1 + j = i + (j + 1) by omega] at hcall

lemma condemnedStep_calls (env : Env) (cn un : String) (monotonic : Bool)
    (firstUnhealthy : Option Pod) (p : Pod) (st : StatefulSetStatus) :
    ∀ c ∈ (condemnedStep env cn un monotonic firstUnhealthy p st).calls,
      c = Call.deletePod p := by
  intro c hc
  unfold condemnedStep at hc
  dsimp only at hc
  split at hc
  · split at hc <;> simp [StepRes.calls] at hc
  · split at hc
    · simp [StepRes.calls] at hc
    · split at hc
      · split at hc <;>
        · simp only [StepRes.calls, List.mem_singleton] at hc
          exact hc
      · simp only [StepRes.calls, List.mem_singleton] at hc
        exact hc

lemma condemnedSweep_calls (env : Env) (cn un : String) (monotonic : Bool)
    (firstUnhealthy : Option Pod) :
    ∀ (l : List Pod) (st : StatefulSetStatus),
      ∀ c ∈ (condemnedSweep env cn un monotonic firstUnhealthy l st).calls,
        ∃ p ∈ l, c = Call.deletePod p := by
  intro l
  induction l with
  | nil => intro st c hc; simp [condemnedSweep, SweepOut.calls] at hc
  | cons p rest ih =>
    intro st c hc
    rw [condemnedSweep] at hc
    split at hc
    · rename_i st1 cs hstep
      have := condemnedStep_calls env cn un monotonic firstUnhealthy p st
      rw [hstep] at this
      exact ⟨p, List.mem_cons_self p rest, this c hc⟩
    · rename_i st1 cs e hstep
      have := condemnedStep_calls env cn un monotonic firstUnhealthy p st
      rw [hstep] at this
      exact ⟨p, List.mem_cons_self p rest, this c hc⟩
    · rename_i st1 cs q hstep
      have hstepc := condemnedStep_calls env cn un monotonic firstUnhealthy
        p st
      rw [hstep] at hstepc
      split at hc <;>
      · rename_i hrec
        simp only [SweepOut.calls, List.mem_append] at hc
        rcases hc with hc | hc
        · exact ⟨p, List.mem_cons_self p rest, hstepc c hc⟩
        · have hcc : c ∈ (condemnedSweep env cn un monotonic firstUnhealthy
              rest st1).calls := by
            rw [hrec]; exact hc
          obtain ⟨q2, hq2, hcq⟩ := ih _ c hcc
          exact ⟨q2, List.mem_cons_of_mem p hq2, hcq⟩

lemma inPlaceUpdatePod_calls (env : Env) (p : Pod) :
    ∀ c ∈ (inPlaceUpdatePod env p).1, callPod c = some p := by
  intro c hc
  unfold inPlaceUpdatePod at hc
  dsimp only at hc
  split at hc
  · split at hc <;>
    · simp only [List.mem_cons, List.mem_singleton] at hc
      rcases hc with hc | hc | _ <;> first
        | (rw [hc]; rfl)
        | simp_all
  · simp only [List.mem_singleton] at hc
    rw [hc]
    rfl

lemma updateStep_calls (env : Env) (set : StatefulSet) (cn un : String)
    (p : Pod) :
    ∀ c ∈ (updateStep env set cn un p).calls, callPod c = some p := by
  intro c hc
  unfold updateStep at hc
  dsimp only at hc
  split at hc
  · split at hc
    · split at hc
      · simp at hc
      · split at hc
        · split at hc <;>
          · simp only [List.mem_append, List.mem_singleton] at hc
            rcases hc with hc | hc
            · exact inPlaceUpdatePod_calls env p c hc
            · rw [hc]; rfl
        · exact inPlaceUpdatePod_calls env p c hc
    · split at hc <;>
      · simp only [List.mem_singleton] at hc
        rw [hc]
        rfl
  · simp at hc

lemma updateSweepGo_calls (env : Env) (set : StatefulSet) (cn un : String)
    (maxU : Int) :
    ∀ (l : List (Nat × Pod)) (st : StatefulSetStatus) (unav : List Pod),
      ∀ c ∈ (updateSweepGo env set cn un maxU l st unav).calls,
        ∃ ip ∈ l, callPod c = some ip.2 := by
  intro l
  induction l with
  | nil => intro st unav c hc; simp [updateSweepGo, SweepOut.calls] at hc
  | cons ip rest ih =>
    intro st unav c hc
    obtain ⟨i, p⟩ := ip
    rw [updateSweepGo] at hc
    dsimp only at hc
    split at hc
    · simp only [SweepOut.calls] at hc
      exact ⟨(i, p), List.mem_cons_self _ _, updateStep_calls env set cn un p c hc⟩
    · split at hc
      · simp only [SweepOut.calls] at hc
        exact ⟨(i, p), List.mem_cons_self _ _,
          updateStep_calls env set cn un p c hc⟩
      · split at hc <;>
        · rename_i hrec
          simp only [SweepOut.calls, List.mem_append] at hc
          rcases hc with hc | hc
          · exact ⟨(i, p), List.mem_cons_self _ _,
              updateStep_calls env set cn un p c hc⟩
          · have hcc : c ∈ (updateSweepGo env set cn un maxU rest
                (updateSweepStatus (updateStep env set cn un p) st)
                (updateSweepUnav un p unav)).calls := by
              rw [hrec]; exact hc
            obtain ⟨iq, hiq, hcq⟩ := ih _ _ c hcc
            exact ⟨iq, List.mem_cons_of_mem _ hiq, hcq⟩

lemma newVersioned_ord (set : StatefulSet) (cn un : String) (i : Nat) :
    getOrdinal (newVersionedStatefulSetPod set cn un i) = (i : Int) := rfl

lemma forwardStep_proceed_pod (env : Env) (set : StatefulSet)
    (cn un : String) (monotonic : Bool) (i : Nat) (p : Pod)
    (st st1 : StatefulSetStatus) (cs : List Call) (p1 : Pod)
    (h : forwardStep env set cn un monotonic i p st = .proceed st1 cs p1) :
    p1 = p ∨ p1 = newVersionedStatefulSetPod set cn un i := by
  have haux : ∀ (q : Pod) (st2 : StatefulSetStatus) (cs2 : List Call),
      forwardStepCreated env cn un monotonic q st2 cs2 = .proceed st1 cs p1 →
      p1 = q := by
    intro q st2 cs2 hq
    unfold forwardStepCreated forwardStepReady at hq
    dsimp only at hq
    repeat' split at hq
    all_goals first
      | (injection hq with h1 h2 h3; exact h3.symm)
      | exact StepRes.noConfusion hq
  unfold forwardStep at h
  dsimp only at h
  split at h
  · split at h
    · exact Or.inr (haux _ _ _ h)
    · exact StepRes.noConfusion h
  · exact Or.inl (haux _ _ _ h)

lemma forwardSweep_payload_ord (env : Env) (set : StatefulSet)
    (cn un : String) (monotonic : Bool) :
    ∀ (l : List Pod) (i : Nat) (st : StatefulSetStatus),
      (∀ p ∈ l, 0 ≤ getOrdinal p) →
      ∀ q ∈ (forwardSweep env set cn un monotonic l i st).payload,
        0 ≤ getOrdinal q := by
  intro l
  induction l with
  | nil => intro i st _ q hq; simp [forwardSweep, SweepOut.payload] at hq
  | cons p rest ih =>
    intro i st hl q hq
    rw [forwardSweep] at hq
    split at hq
    · simp [SweepOut.payload] at hq
    · simp [SweepOut.payload] at hq
    · rename_i st1 cs p1 hstep
      have hp1 : 0 ≤ getOrdinal p1 := by
        rcases forwardStep_proceed_pod env set cn un monotonic i p st st1
            cs p1 hstep with h | h
        · rw [h]; exact hl p (List.mem_cons_self p rest)
        · rw [h, newVersioned_ord]; exact Int.ofNat_nonneg i
      have hrest : ∀ p2 ∈ rest, 0 ≤ getOrdinal p2 :=
        fun p2 hp2 => hl p2 (List.mem_cons_of_mem p hp2)
      split at hq <;>
      · rename_i hrec
        simp only [SweepOut.payload, List.mem_cons] at hq
        rcases hq with hq | hq
        · rw [hq]; exact hp1
        · have hqq : q ∈ (forwardSweep env set cn un monotonic rest
              (i + 1) st1).payload := by
            rw [hrec]; exact hq
          exact ih (i + 1) st1 hrest q hqq

lemma buildTargets_mem (l : List Pod) (m : Int) (i : Nat) (q : Pod)
    (h : (i, q) ∈ buildTargets l m) : m ≤ (i : Int) ∧ l[i]? = some q := by
  unfold buildTargets at h
  rw [List.mem_reverse] at h
  have h2 := List.mem_filter.mp h
  refine ⟨by simpa using h2.2, ?_⟩
  have h3 := List.mem_enum_iff_getElem?.mp h2.1
  exact h3

lemma replicate_none_entry (N : Nat) :
    ∀ q : Pod, some q ∈ List.replicate N (none : Option Pod) →
      0 ≤ getOrdinal q := by
  intro q hq
  have := List.eq_of_mem_replicate hq
  exact absurd this (by simp)

/-- Every pod-referencing call of a reconcile pass references a pod with a
non-negative ordinal (a pod of the replicas array, a freshly rendered pod,
or a condemned pod). -/
lemma updateStatefulSet_calls_ord (env : Env) (set : StatefulSet)
    (cur upd : ControllerRevision) (cc : Int) (pods : List Pod)
    (r : PassResult) (hr : updateStatefulSet env set cur upd cc pods = some r) :
    ∀ c ∈ r.calls, ∀ q, callPod c = some q → 0 ≤ getOrdinal q := by
  unfold updateStatefulSet at hr
  cases hrep : set.spec.replicas with
  | none => rw [hrep] at hr; exact absurd hr (by simp)
  | some rc =>
    rw [hrep] at hr
    dsimp only at hr
    set st0 : StatefulSetStatus :=
      { observedGeneration := set.generation, replicas := 0,
        readyReplicas := 0, currentReplicas := 0, updatedReplicas := 0,
        currentRevision := cur.name, updateRevision := upd.name,
        collisionCount := cc } with hst0
    set parted := partitionPods cur.name upd.name rc.toNat st0 pods
      with hparted
    set replicas0 := fillReplicas set cur.name upd.name parted.2.1 0
      with hreps0
    set condemnedS := sortPodsByOrdinal parted.2.2 with hcondS
    set fu := findFirstUnhealthy replicas0 condemnedS with hfu
    set mono := !allowsBurst set with hmono
    have hslots : ∀ q : Pod, some q ∈ parted.2.1 → 0 ≤ getOrdinal q := by
      intro q hq
      rw [hparted, partitionPods] at hq
      exact partitionFold_slot_entry_ord cur.name upd.name rc.toNat pods _
        (replicate_none_entry rc.toNat) q hq
    have hfill : ∀ q ∈ replicas0, 0 ≤ getOrdinal q := by
      rw [hreps0]
      exact fillReplicas_ord set cur.name upd.name _ 0 hslots
    have hcond : ∀ q ∈ condemnedS.reverse, 0 ≤ getOrdinal q := by
      intro q hq
      rw [List.mem_reverse, hcondS] at hq
      have hq2 : q ∈ parted.2.2 :=
        (List.perm_insertionSort podOrdLE _).mem_iff.mp hq
      rw [hparted, partitionPods, partitionFold_condemned] at hq2
      simp only [List.nil_append] at hq2
      have := List.of_mem_filter hq2
      have h2 : (rc.toNat : Int) ≤ getOrdinal q := by simpa using this
      have h3 : (0 : Int) ≤ (rc.toNat : Int) := Int.ofNat_nonneg _
      omega
    have hfwdgen : ∀ cs2 : List Call,
        cs2 = (forwardSweep env set cur.name upd.name mono replicas0 0
          parted.1).calls →
        ∀ c ∈ cs2, ∀ q, callPod c = some q → 0 ≤ getOrdinal q := by
      intro cs2 hcs2 c hc q hcq
      rw [hcs2] at hc
      obtain ⟨j, p2, hj, hcall⟩ := forwardSweep_calls env set cur.name
        upd.name mono replicas0 0 parted.1 c hc
      rcases hcall with hcall | hcall
      · rw [hcq] at hcall
        injection hcall with hcall
        rw [hcall]
        exact hfill p2 (mem_of_getElem?Some hj)
      · rw [hcq] at hcall
        injection hcall with hcall
        rw [hcall, newVersioned_ord]
        exact Int.ofNat_nonneg _
    split at hr
    · injection hr with hr
      rw [← hr]
      intro c hc
      simp at hc
    · split at hr
      · rename_i st2 cs2 e a hfwd
        injection hr with hr
        rw [← hr]
        intro c hc
        exact hfwdgen cs2 (by rw [hfwd]; rfl) c hc
      · rename_i st2 cs2 a hfwd
        injection hr with hr
        rw [← hr]
        intro c hc
        exact hfwdgen cs2 (by rw [hfwd]; rfl) c hc
      · rename_i st2 cs2 replicas1 hfwd
        have hfwdcalls := hfwdgen cs2 (by rw [hfwd]; rfl)
        have hrep1 : ∀ q ∈ replicas1, 0 ≤ getOrdinal q := by
          intro q hq
          have hqq : q ∈ (forwardSweep env set cur.name upd.name mono
              replicas0 0 parted.1).payload := by rw [hfwd]; exact hq
          exact forwardSweep_payload_ord env set cur.name upd.name mono
            replicas0 0 parted.1 hfill q hqq
        have hcswgen : ∀ (st : StatefulSetStatus) (cs3 : List Call),
            cs3 = (condemnedSweep env cur.name upd.name mono fu
              condemnedS.reverse st).calls →
            ∀ c ∈ cs3, ∀ q, callPod c = some q → 0 ≤ getOrdinal q := by
          intro st cs3 hcs3 c hc q hcq
          rw [hcs3] at hc
          obtain ⟨p2, hp2, hcp2⟩ := condemnedSweep_calls env cur.name
            upd.name mono fu condemnedS.reverse st c hc
          rw [hcp2] at hcq
          injection hcq with hcq
          rw [← hcq]
          exact hcond p2 hp2
        split at hr
        · rename_i st3 cs3 e a hcsw
          injection hr with hr
          rw [← hr]
          intro c hc q hcq
          simp only [List.mem_append] at hc
          rcases hc with hc | hc
          · exact hfwdcalls c hc q hcq
          · exact hcswgen st2 cs3 (by rw [hcsw]; rfl) c hc q hcq
        · rename_i st3 cs3 a hcsw
          injection hr with hr
          rw [← hr]
          intro c hc q hcq
          simp only [List.mem_append] at hc
          rcases hc with hc | hc
          · exact hfwdcalls c hc q hcq
          · exact hcswgen st2 cs3 (by rw [hcsw]; rfl) c hc q hcq
        · rename_i st3 cs3 a hcsw
          have hcswcalls := hcswgen st2 cs3 (by rw [hcsw]; rfl)
          split at hr
          · injection hr with hr
            rw [← hr]
            intro c hc q hcq
            simp only [List.mem_append] at hc
            rcases hc with hc | hc
            · exact hfwdcalls c hc q hcq
            · exact hcswcalls c hc q hcq
          · split at hr
            · exact absurd hr (by simp)
            · rename_i e hmm
              injection hr with hr
              rw [← hr]
              intro c hc q hcq
              simp only [List.mem_append] at hc
              rcases hc with hc | hc
              · exact hfwdcalls c hc q hcq
              · exact hcswcalls c hc q hcq
            · rename_i um mu hmm
              have hupdgen : ∀ cs4 : List Call,
                  cs4 = (updateSweepGo env set cur.name upd.name mu
                    (buildTargets replicas1 um) st3 []).calls →
                  ∀ c ∈ cs4, ∀ q, callPod c = some q →
                    0 ≤ getOrdinal q := by
                intro cs4 hcs4 c hc q hcq
                rw [hcs4] at hc
                obtain ⟨ip, hip, hcall⟩ := updateSweepGo_calls env set
                  cur.name upd.name mu _ st3 [] c hc
                obtain ⟨i2, q2⟩ := ip
                obtain ⟨_, hq2⟩ := buildTargets_mem replicas1 um i2 q2 hip
                rw [hcq] at hcall
                injection hcall with hcall
                rw [hcall]
                exact hrep1 q2 (mem_of_getElem?Some hq2)
              split at hr <;>
              · rename_i hsw
                injection hr with hr
                rw [← hr]
                intro c hc q hcq
                simp only [List.mem_append] at hc
                rcases hc with (hc | hc) | hc
                · exact hfwdcalls c hc q hcq
                · exact hcswcalls c hc q hcq
                · exact hupdgen _ (by rw [hsw]; rfl) c hc q hcq

/-- First pod of the C5 duplicate-ordinal counterexample (ordinal 0). -/
def c5PodA : Pod :=
  ⟨1, 0, "v1", true, false, true, false, true, false, false, true, true⟩

/-- Second pod of the C5 duplicate-ordinal counterexample (same ordinal 0,
occurring later in the input list). -/
def c5PodB : Pod :=
  ⟨2, 0, "v1", true, false, true, false, true, false, false, true, true⟩

/-- Seed status for the C5 scenarios. -/
def c5St0 : StatefulSetStatus := ⟨0, 0, 0, 0, 0, "v1", "v2", 0⟩

/-- C5 counterexample: with two pods of ordinal 0 in the input, the
partitioning keeps the pod occurring LATER in the input list (uid 2), not
the one already placed (uid 1), refuting "keeps the one already placed". -/
theorem c5_counterexample :
    ((partitionPods "v1" "v2" 1 c5St0 [c5PodA, c5PodB]).2.1)[0]? =
        some (some c5PodB) ∧ c5PodB ≠ c5PodA := by
  exact ⟨rfl, by decide⟩

/-- C5 (amended): when pods share a parseable ordinal `o < replicas`, the
slot `replicas[o]` ends up holding the pod occurring LAST in the input list
(each placement overwrites, with no invariant-violation report); pods whose
ordinal cannot be parsed (`ordinal < 0`) are never placed, never condemned,
and never referenced by a delete call of the pass. -/
theorem c5_duplicate_keeps_later_and_unparseable_ignored :
    (∀ (cn un : String) (N : Nat) (st0 : StatefulSetStatus)
        (pods : List Pod) (o : Nat), o < N →
      ((partitionPods cn un N st0 pods).2.1)[o]? =
        some ((pods.filter
          (fun p => getOrdinal p == (o : Int))).getLast?)) ∧
    (∀ (cn un : String) (N : Nat) (st0 : StatefulSetStatus)
        (pods : List Pod) (p : Pod), getOrdinal p < 0 →
      p ∉ (partitionPods cn un N st0 pods).2.2) ∧
    (∀ (env : Env) (set : StatefulSet) (cur upd : ControllerRevision)
        (cc : Int) (pods : List Pod) (p : Pod) (r : PassResult),
      getOrdinal p < 0 →
      updateStatefulSet env set cur upd cc pods = some r →
      Call.deletePod p ∉ r.calls) := by
  refine ⟨?_, ?_, ?_⟩
  · intro cn un N st0 pods o ho
    rw [partitionPods]
    rw [partitionFold_slot cn un N o ho pods (st0, List.replicate N none, [])
      (by simp)]
    cases hf : (pods.filter (fun p => getOrdinal p == (o : Int))).getLast?
      with
    | none => simp [List.getElem?_replicate, ho]
    | some p => rfl
  · intro cn un N st0 pods p hneg hmem
    rw [partitionPods, partitionFold_condemned] at hmem
    simp only [List.nil_append] at hmem
    have := List.of_mem_filter hmem
    have h2 : (N : Int) ≤ getOrdinal p := by simpa using this
    have h3 : (0 : Int) ≤ (N : Int) := Int.ofNat_nonneg _
    omega
  · intro env set cur upd cc pods p r hneg hr hmem
    have := updateStatefulSet_calls_ord env set cur upd cc pods r hr
      (Call.deletePod p) hmem p rfl
    omega

/-- Witness for C5's amended statement at the duplicate-ordinal input. -/
theorem c5_witness :
    (0 : Nat) < 1 ∧
      ((partitionPods "v1" "v2" 1 c5St0 [c5PodA, c5PodB]).2.1)[0]? =
        some (([c5PodA, c5PodB].filter
          (fun p => getOrdinal p == ((0 : Nat) : Int))).getLast?) :=
  ⟨by decide,
    c5_duplicate_keeps_later_and_unparseable_ignored.1 "v1" "v2" 1 c5St0
      [c5PodA, c5PodB] 0 (by decide)⟩

/-- The pod deleted by a call, when the call is a pod deletion. -/
def deletedPodOf : Call → Option Pod
  | .deletePod p => some p
  | _ => none

lemma condemnedStep_calls_cases (env : Env) (cn un : String)
    (monotonic : Bool) (fu : Option Pod) (p : Pod)
    (st : StatefulSetStatus) :
    (condemnedStep env cn un monotonic fu p st).calls = [] ∨
      (condemnedStep env cn un monotonic fu p st).calls =
        [Call.deletePod p] := by
  unfold condemnedStep
  dsimp only
  repeat' split
  all_goals simp [StepRes.calls]

lemma condemnedStep_delete_conditions (env : Env) (cn un : String)
    (monotonic : Bool) (fu : Option Pod) (p : Pod) (st : StatefulSetStatus)
    (heq : (condemnedStep env cn un monotonic fu p st).calls =
      [Call.deletePod p]) :
    isTerminating p = false ∧
      (monotonic = true → (isRunningAndReady p = true ∨ fu = some p)) := by
  unfold condemnedStep at heq
  dsimp only at heq
  split at heq
  · rename_i hterm
    split at heq <;> simp [StepRes.calls] at heq
  · rename_i hterm
    split at heq
    · simp [StepRes.calls] at heq
    · rename_i hblock
      refine ⟨by simpa using hterm, ?_⟩
      intro hmono
      subst hmono
      by_cases hrr : isRunningAndReady p = true
      · exact Or.inl hrr
      · right
        by_cases hfu : fu = some p
        · exact hfu
        · exfalso
          apply hblock
          have hrr2 : isRunningAndReady p = false := by
            cases h2 : isRunningAndReady p
            · rfl
            · exact absurd h2 hrr
          have hfu2 : (fu == some p) = false := beq_eq_false_iff_ne.mpr hfu
          simp [hrr2, hfu2]

lemma condemnedStep_delete_facts (env : Env) (cn un : String)
    (monotonic : Bool) (fu : Option Pod) (p : Pod)
    (st : StatefulSetStatus) (q : Pod)
    (hq : Call.deletePod q ∈ (condemnedStep env cn un monotonic fu p st).calls) :
    q = p ∧ isTerminating p = false ∧
      (monotonic = true → (isRunningAndReady p = true ∨ fu = some p)) := by
  rcases condemnedStep_calls_cases env cn un monotonic fu p st with h | h
  · rw [h] at hq
    simp at hq
  · have hqp : q = p := by
      rw [h] at hq
      simpa using hq
    obtain ⟨h1, h2⟩ := condemnedStep_delete_conditions env cn un monotonic
      fu p st h
    exact ⟨hqp, h1, h2⟩

lemma condemnedStep_mono_no_proceed (env : Env) (cn un : String)
    (fu : Option Pod) (p : Pod) (st st1 : StatefulSetStatus)
    (cs : List Call) (q : Pod)
    (h : condemnedStep env cn un true fu p st = .proceed st1 cs q) :
    False := by
  unfold condemnedStep at h
  dsimp only at h
  repeat' split at h
  all_goals first
    | exact StepRes.noConfusion h
    | simp_all

lemma condemnedSweep_deletes_sublist (env : Env) (cn un : String)
    (monotonic : Bool) (fu : Option Pod) :
    ∀ (l : List Pod) (st : StatefulSetStatus),
      List.Sublist ((condemnedSweep env cn un monotonic fu l
        st).calls.filterMap deletedPodOf) l := by
  intro l
  induction l with
  | nil => intro st; simp [condemnedSweep, SweepOut.calls]
  | cons p rest ih =>
    intro st
    rw [condemnedSweep]
    split
    · rename_i st1 cs hstep
      have hcs : cs = [] ∨ cs = [Call.deletePod p] := by
        rcases condemnedStep_calls_cases env cn un monotonic fu p st with
          h | h <;> rw [hstep] at h <;> simp only [StepRes.calls] at h
        · exact Or.inl h
        · exact Or.inr h
      rcases hcs with hcs | hcs <;> subst hcs
      · simp [SweepOut.calls]
      · simp only [SweepOut.calls, List.filterMap_cons, deletedPodOf,
          List.filterMap_nil]
        exact List.singleton_sublist.mpr (List.mem_cons_self p rest)
    · rename_i st1 cs e hstep
      have hcs : cs = [] ∨ cs = [Call.deletePod p] := by
        rcases condemnedStep_calls_cases env cn un monotonic fu p st with
          h | h <;> rw [hstep] at h <;> simp only [StepRes.calls] at h
        · exact Or.inl h
        · exact Or.inr h
      rcases hcs with hcs | hcs <;> subst hcs
      · simp [SweepOut.calls]
      · simp only [SweepOut.calls, List.filterMap_cons, deletedPodOf,
          List.filterMap_nil]
        exact List.singleton_sublist.mpr (List.mem_cons_self p rest)
    · rename_i st1 cs q hstep
      have hcs : cs = [] ∨ cs = [Call.deletePod p] := by
        rcases condemnedStep_calls_cases env cn un monotonic fu p st with
          h | h <;> rw [hstep] at h <;> simp only [StepRes.calls] at h
        · exact Or.inl h
        · exact Or.inr h
      split <;>
      · rename_i hrec
        have hrecsub : List.Sublist ((condemnedSweep env cn un monotonic fu
            rest st1).calls.filterMap deletedPodOf) rest := ih st1
        rw [hrec] at hrecsub
        simp only [SweepOut.calls] at hrecsub ⊢
        rw [List.filterMap_append]
        rcases hcs with hcs | hcs <;> subst hcs
        · simpa using List.Sublist.cons p hrecsub
        · simp only [List.filterMap_cons, deletedPodOf, List.filterMap_nil,
            List.nil_append]
          exact List.Sublist.cons₂ p hrecsub

lemma condemnedSweep_delete_props (env : Env) (cn un : String)
    (monotonic : Bool) (fu : Option Pod) :
    ∀ (l : List Pod) (st : StatefulSetStatus) (q : Pod),
      Call.deletePod q ∈ (condemnedSweep env cn un monotonic fu l st).calls →
      isTerminating q = false ∧
        (monotonic = true → (isRunningAndReady q = true ∨ fu = some q)) := by
  intro l
  induction l with
  | nil => intro st q hq; simp [condemnedSweep, SweepOut.calls] at hq
  | cons p rest ih =>
    intro st q hq
    rw [condemnedSweep] at hq
    split at hq
    · rename_i st1 cs hstep
      have h2 : Call.deletePod q ∈
          (condemnedStep env cn un monotonic fu p st).calls := by
        rw [hstep]; exact hq
      obtain ⟨hqp, ht, hm⟩ := condemnedStep_delete_facts env cn un monotonic
        fu p st q h2
      exact ⟨hqp ▸ ht, hqp ▸ hm⟩
    · rename_i st1 cs e hstep
      have h2 : Call.deletePod q ∈
          (condemnedStep env cn un monotonic fu p st).calls := by
        rw [hstep]; exact hq
      obtain ⟨hqp, ht, hm⟩ := condemnedStep_delete_facts env cn un monotonic
        fu p st q h2
      exact ⟨hqp ▸ ht, hqp ▸ hm⟩
    · rename_i st1 cs p1 hstep
      split at hq <;>
      · rename_i hrec
        simp only [SweepOut.calls, List.mem_append] at hq
        rcases hq with hq | hq
        · have h2 : Call.deletePod q ∈
              (condemnedStep env cn un monotonic fu p st).calls := by
            rw [hstep]; exact hq
          obtain ⟨hqp, ht, hm⟩ := condemnedStep_delete_facts env cn un
            monotonic fu p st q h2
          exact ⟨hqp ▸ ht, hqp ▸ hm⟩
        · have h2 : Call.deletePod q ∈ (condemnedSweep env cn un monotonic
              fu rest st1).calls := by
            rw [hrec]; exact hq
          exact ih st1 q h2

lemma condemnedSweep_mono_single (env : Env) (cn un : String)
    (fu : Option Pod) :
    ∀ (l : List Pod) (st : StatefulSetStatus),
      (condemnedSweep env cn un true fu l st).calls.length ≤ 1 ∧
        ∀ q, Call.deletePod q ∈
            (condemnedSweep env cn un true fu l st).calls →
          l.head? = some q := by
  intro l st
  cases l with
  | nil => exact ⟨by simp [condemnedSweep, SweepOut.calls], by
      intro q hq; simp [condemnedSweep, SweepOut.calls] at hq⟩
  | cons p rest =>
    rw [condemnedSweep]
    split
    · rename_i st1 cs hstep
      have hcs : cs = [] ∨ cs = [Call.deletePod p] := by
        rcases condemnedStep_calls_cases env cn un true fu p st with
          h | h <;> rw [hstep] at h <;> simp only [StepRes.calls] at h
        · exact Or.inl h
        · exact Or.inr h
      rcases hcs with hcs | hcs <;> subst hcs
      · exact ⟨by simp [SweepOut.calls], by
          intro q hq; simp [SweepOut.calls] at hq⟩
      · refine ⟨by simp [SweepOut.calls], ?_⟩
        intro q hq
        simp only [SweepOut.calls, List.mem_singleton] at hq
        have : q = p := by simpa using hq
        rw [this]
        rfl
    · rename_i st1 cs e hstep
      have hcs : cs = [] ∨ cs = [Call.deletePod p] := by
        rcases condemnedStep_calls_cases env cn un true fu p st with
          h | h <;> rw [hstep] at h <;> simp only [StepRes.calls] at h
        · exact Or.inl h
        · exact Or.inr h
      rcases hcs with hcs | hcs <;> subst hcs
      · exact ⟨by simp [SweepOut.calls], by
          intro q hq; simp [SweepOut.calls] at hq⟩
      · refine ⟨by simp [SweepOut.calls], ?_⟩
        intro q hq
        simp only [SweepOut.calls, List.mem_singleton] at hq
        have : q = p := by simpa using hq
        rw [this]
        rfl
    · rename_i st1 cs p1 hstep
      exact absurd hstep (fun h =>
        condemnedStep_mono_no_proceed env cn un fu p st st1 cs p1 h)

/-- C6: condemned deletions happen in strictly decreasing ordinal order
(given pairwise-distinct condemned ordinals); no terminating condemned pod
is ever deleted; and under the monotonic (OrderedReady) policy the
scale-down sweep issues at most one call per pass, any deleted pod is the
first examined (largest-ordinal) condemned pod, and a deleted pod is either
running-and-ready or the firstUnhealthyPod. -/
theorem c6_condemned_scale_down (env : Env) (cn un : String)
    (monotonic : Bool) (fu : Option Pod) (condemned : List Pod)
    (st : StatefulSetStatus) :
    (condemned.Pairwise (fun a b => getOrdinal a ≠ getOrdinal b) →
      (((condemnedSweep env cn un monotonic fu
          (sortPodsByOrdinal condemned).reverse st).calls.filterMap
            deletedPodOf).map getOrdinal).Pairwise (· > ·)) ∧
    (∀ q, Call.deletePod q ∈ (condemnedSweep env cn un monotonic fu
        (sortPodsByOrdinal condemned).reverse st).calls →
      isTerminating q = false) ∧
    (monotonic = true →
      (condemnedSweep env cn un monotonic fu
          (sortPodsByOrdinal condemned).reverse st).calls.length ≤ 1 ∧
      ∀ q, Call.deletePod q ∈ (condemnedSweep env cn un monotonic fu
          (sortPodsByOrdinal condemned).reverse st).calls →
        ((sortPodsByOrdinal condemned).reverse.head? = some q ∧
          (isRunningAndReady q = true ∨ fu = some q))) := by
  refine ⟨?_, ?_, ?_⟩
  · intro hdist
    have hsorted : (sortPodsByOrdinal condemned).Pairwise podOrdLE :=
      List.sorted_insertionSort podOrdLE condemned
    have hdist2 : (sortPodsByOrdinal condemned).Pairwise
        (fun a b => getOrdinal a ≠ getOrdinal b) :=
      ((List.perm_insertionSort podOrdLE condemned).pairwise_iff
        (fun h he => h he.symm)).mpr hdist
    have hstrict : (sortPodsByOrdinal condemned).Pairwise
        (fun a b => getOrdinal a < getOrdinal b) := by
      have hand := hsorted.and hdist2
      exact hand.imp (fun h => lt_of_le_of_ne h.1 h.2)
    have hrev : (sortPodsByOrdinal condemned).reverse.Pairwise
        (fun a b => getOrdinal b < getOrdinal a) :=
      List.pairwise_reverse.mpr hstrict
    have hsub := condemnedSweep_deletes_sublist env cn un monotonic fu
      (sortPodsByOrdinal condemned).reverse st
    have hdel := List.Pairwise.sublist hsub hrev
    rw [List.pairwise_map]
    exact hdel
  · intro q hq
    exact (condemnedSweep_delete_props env cn un monotonic fu _ st q hq).1
  · intro hmono
    subst hmono
    obtain ⟨h1, h2⟩ := condemnedSweep_mono_single env cn un fu
      (sortPodsByOrdinal condemned).reverse st
    refine ⟨h1, ?_⟩
    intro q hq
    refine ⟨h2 q hq, ?_⟩
    exact (condemnedSweep_delete_props env cn un true fu _ st q hq).2 rfl

/-- Witness for C6 at a concrete two-pod condemned list under the monotonic
policy. -/
theorem c6_witness :
    (let podFive : Pod :=
      ⟨5, 5, "v1", true, false, true, false, true, false, false, true, true⟩
    let podSix : Pod :=
      ⟨6, 6, "v1", true, false, true, false, true, false, false, true, true⟩
    ([podFive, podSix].Pairwise (fun a b => getOrdinal a ≠ getOrdinal b)) ∧
      ((((condemnedSweep ⟨fun _ => true, fun _ => false, []⟩ "v1" "v2" true
          none (sortPodsByOrdinal [podFive, podSix]).reverse
          c5St0).calls.filterMap deletedPodOf).map getOrdinal).Pairwise
            (· > ·)) ∧
      (condemnedSweep ⟨fun _ => true, fun _ => false, []⟩ "v1" "v2" true
          none (sortPodsByOrdinal [podFive, podSix]).reverse
          c5St0).calls.length ≤ 1) := by
  refine ⟨by decide, ?_, ?_⟩
  · exact (c6_condemned_scale_down ⟨fun _ => true, fun _ => false, []⟩
      "v1" "v2" true none _ c5St0).1 (by decide)
  · exact ((c6_condemned_scale_down ⟨fun _ => true, fun _ => false, []⟩
      "v1" "v2" true none _ c5St0).2.2 rfl).1

/-- Whether a call is a pod creation. -/
def isCreateCall : Call → Bool
  | .createPod _ => true
  | _ => false

/-- A replica that lets the monotonic forward sweep move past it: created,
not failed, not terminating, and running and ready. -/
def goodPod (p : Pod) : Bool :=
  isCreated p && !isFailed p && !isTerminating p && isRunningAndReady p

lemma forwardStepReady_no_create (env : Env) (monotonic : Bool) (p : Pod)
    (st : StatefulSetStatus) (cs : List Call)
    (hcs : ∀ c ∈ cs, isCreateCall c = false) :
    ∀ q, Call.createPod q ∉ (forwardStepReady env monotonic p st cs).calls := by
  intro q hq
  unfold forwardStepReady at hq
  dsimp only at hq
  split at hq
  · exact absurd (hcs _ hq) (by simp [isCreateCall])
  · split at hq
    · exact absurd (hcs _ hq) (by simp [isCreateCall])
    · split at hq <;>
      · simp only [StepRes.calls, List.mem_append, List.mem_singleton] at hq
        rcases hq with hq | hq
        · exact absurd (hcs _ hq) (by simp [isCreateCall])
        · exact Call.noConfusion hq

lemma forwardStepReady_calls_create_free (env : Env) (monotonic : Bool)
    (p : Pod) (st : StatefulSetStatus) (cs : List Call)
    (hcs : ∀ c ∈ cs, isCreateCall c = false) :
    ∀ c ∈ (forwardStepReady env monotonic p st cs).calls,
      isCreateCall c = false := by
  intro c hc
  cases c with
  | createPod q => exact absurd hc (forwardStepReady_no_create env monotonic
      p st cs hcs q)
  | _ => rfl

lemma forwardStepCreated_uncreated_ok (env : Env) (cn un : String)
    (p : Pod) (st : StatefulSetStatus) (cs : List Call)
    (hncr : (!isCreated p) = true)
    (hok : env.callOK (Call.createPod p) = true) :
    forwardStepCreated env cn un true p st cs =
      .stop (adjustAfterCreate st p cn un) (cs ++ [Call.createPod p]) := by
  unfold forwardStepCreated
  rw [if_pos hncr]
  dsimp only
  rw [if_pos hok, if_pos rfl]

lemma forwardStepCreated_uncreated_fail (env : Env) (cn un : String)
    (p : Pod) (st : StatefulSetStatus) (cs : List Call)
    (hncr : (!isCreated p) = true)
    (hok : ¬ env.callOK (Call.createPod p) = true) :
    forwardStepCreated env cn un true p st cs =
      .fail st (cs ++ [Call.createPod p])
        (.callFailed (Call.createPod p)) := by
  unfold forwardStepCreated
  rw [if_pos hncr]
  dsimp only
  rw [if_neg hok]

lemma forwardStepCreated_create (env : Env) (cn un : String) (p : Pod)
    (st : StatefulSetStatus) (cs : List Call)
    (hcs : ∀ c ∈ cs, isCreateCall c = false) (q : Pod)
    (hq : Call.createPod q ∈
      (forwardStepCreated env cn un true p st cs).calls) :
    q = p ∧ isCreated p = false ∧
      (forwardStepCreated env cn un true p st cs).calls.getLast? =
        some (Call.createPod q) ∧
      (∀ st1 cs1 p1,
        forwardStepCreated env cn un true p st cs ≠ .proceed st1 cs1 p1) := by
  by_cases hncr : (!isCreated p) = true
  · by_cases hok : env.callOK (Call.createPod p) = true
    · rw [forwardStepCreated_uncreated_ok env cn un p st cs hncr hok] at hq ⊢
      simp only [StepRes.calls, List.mem_append, List.mem_singleton] at hq
      rcases hq with hq | hq
      · exact absurd (hcs _ hq) (by simp [isCreateCall])
      · injection hq with hq2
        subst hq2
        refine ⟨rfl, by simpa using hncr, ?_, ?_⟩
        · exact List.getLast?_concat _
        · intro st1 cs1 p1
          exact fun h => StepRes.noConfusion h
    · rw [forwardStepCreated_uncreated_fail env cn un p st cs hncr hok]
        at hq ⊢
      simp only [StepRes.calls, List.mem_append, List.mem_singleton] at hq
      rcases hq with hq | hq
      · exact absurd (hcs _ hq) (by simp [isCreateCall])
      · injection hq with hq2
        subst hq2
        refine ⟨rfl, by simpa using hncr, ?_, ?_⟩
        · exact List.getLast?_concat _
        · intro st1 cs1 p1
          exact fun h => StepRes.noConfusion h
  · exfalso
    unfold forwardStepCreated at hq
    rw [if_neg hncr] at hq
    dsimp only at hq
    split at hq
    · exact absurd (hcs _ hq) (by simp [isCreateCall])
    · split at hq
      · split at hq
        · exact forwardStepReady_no_create env true p st _ (by
            intro c hc
            simp only [List.mem_append, List.mem_singleton] at hc
            rcases hc with hc | hc
            · exact hcs c hc
            · rw [hc]; rfl) q hq
        · simp only [StepRes.calls, List.mem_append,
            List.mem_singleton] at hq
          rcases hq with hq | hq
          · exact absurd (hcs _ hq) (by simp [isCreateCall])
          · exact Call.noConfusion hq
      · exact forwardStepReady_no_create env true p st cs hcs q hq

lemma forwardStep_create (env : Env) (set : StatefulSet) (cn un : String)
    (i : Nat) (p : Pod) (st : StatefulSetStatus) (q : Pod)
    (hq : Call.createPod q ∈
      (forwardStep env set cn un true i p st).calls) :
    (q = p ∨ q = newVersionedStatefulSetPod set cn un i) ∧
      isCreated q = false ∧
      (forwardStep env set cn un true i p st).calls.getLast? =
        some (Call.createPod q) ∧
      (∀ st1 cs1 p1,
        forwardStep env set cn un true i p st ≠ .proceed st1 cs1 p1) := by
  by_cases hfail : isFailed p = true
  · by_cases hok : env.callOK (Call.deletePod p) = true
    · have heq : forwardStep env set cn un true i p st =
          forwardStepCreated env cn un true
            (newVersionedStatefulSetPod set cn un i)
            (adjustAfterFailedDelete st p cn un) [Call.deletePod p] := by
        unfold forwardStep
        rw [if_pos hfail]
        dsimp only
        rw [if_pos hok]
      rw [heq] at hq ⊢
      obtain ⟨hqp, hqc, hlast, hnp⟩ := forwardStepCreated_create env cn un _
        _ [Call.deletePod p] (by
          intro c hc
          simp only [List.mem_singleton] at hc
          rw [hc]; rfl) q hq
      exact ⟨Or.inr hqp, hqp ▸ hqc, hlast, hnp⟩
    · have heq : forwardStep env set cn un true i p st =
          .fail st [Call.deletePod p]
            (.callFailed (Call.deletePod p)) := by
        unfold forwardStep
        rw [if_pos hfail]
        dsimp only
        rw [if_neg hok]
      rw [heq] at hq
      simp only [StepRes.calls, List.mem_singleton] at hq
      exact absurd hq (by simp)
  · have heq : forwardStep env set cn un true i p st =
        forwardStepCreated env cn un true p st [] := by
      unfold forwardStep
      rw [if_neg hfail]
    rw [heq] at hq ⊢
    obtain ⟨hqp, hqc, hlast, hnp⟩ := forwardStepCreated_create env cn un p
      st [] (by simp) q hq
    exact ⟨Or.inl hqp, hqp ▸ hqc, hlast, hnp⟩

lemma forwardStep_proceed_good (env : Env) (set : StatefulSet)
    (cn un : String) (i : Nat) (p : Pod) (st st1 : StatefulSetStatus)
    (cs : List Call) (p1 : Pod)
    (h : forwardStep env set cn un true i p st = .proceed st1 cs p1) :
    p1 = p ∧ goodPod p = true ∧ ∀ c ∈ cs, isCreateCall c = false := by
  have haux : ∀ (p0 : Pod) (st0 : StatefulSetStatus) (cs0 : List Call),
      (∀ c ∈ cs0, isCreateCall c = false) →
      forwardStepCreated env cn un true p0 st0 cs0 = .proceed st1 cs p1 →
      p1 = p0 ∧ isCreated p0 = true ∧ isTerminating p0 = false ∧
        isRunningAndReady p0 = true ∧ ∀ c ∈ cs, isCreateCall c = false := by
    intro p0 st0 cs0 hcs0 h0
    unfold forwardStepCreated at h0
    dsimp only at h0
    split at h0
    · rename_i hncr
      split at h0
      · simp only [if_true] at h0
        exact StepRes.noConfusion h0
      · exact StepRes.noConfusion h0
    · rename_i hcr
      split at h0
      · exact StepRes.noConfusion h0
      · rename_i hterm
        have hterm2 : isTerminating p0 = false := by
          by_cases ht : isTerminating p0 = true
          · exfalso; exact hterm (by simp [ht])
          · cases h2 : isTerminating p0
            · rfl
            · exact absurd h2 ht
        have hready : ∀ (cs2 : List Call),
            (∀ c ∈ cs2, isCreateCall c = false) →
            forwardStepReady env true p0 st0 cs2 = .proceed st1 cs p1 →
            p1 = p0 ∧ isRunningAndReady p0 = true ∧
              ∀ c ∈ cs, isCreateCall c = false := by
          intro cs2 hcs2 h2
          unfold forwardStepReady at h2
          dsimp only at h2
          split at h2
          · exact StepRes.noConfusion h2
          · rename_i hnr
            have hrr : isRunningAndReady p0 = true := by
              by_cases hb : isRunningAndReady p0 = true
              · exact hb
              · exfalso
                apply hnr
                have : isRunningAndReady p0 = false := by
                  cases h3 : isRunningAndReady p0
                  · rfl
                  · exact absurd h3 hb
                simp [this]
            split at h2
            · injection h2 with e1 e2 e3
              subst e1
              subst e2
              subst e3
              exact ⟨rfl, hrr, hcs2⟩
            · split at h2
              · injection h2 with e1 e2 e3
                subst e1
                subst e2
                subst e3
                refine ⟨rfl, hrr, ?_⟩
                intro c hc
                simp only [List.mem_append, List.mem_singleton] at hc
                rcases hc with hc | hc
                · exact hcs2 c hc
                · rw [hc]; rfl
              · exact StepRes.noConfusion h2
        split at h0
        · split at h0
          · rename_i hok
            obtain ⟨e1, e2, e3⟩ := hready _ (by
              intro c hc
              simp only [List.mem_append, List.mem_singleton] at hc
              rcases hc with hc | hc
              · exact hcs0 c hc
              · rw [hc]; rfl) h0
            exact ⟨e1, by simpa using hcr, hterm2, e2, e3⟩
          · exact StepRes.noConfusion h0
        · obtain ⟨e1, e2, e3⟩ := hready cs0 hcs0 h0
          exact ⟨e1, by simpa using hcr, hterm2, e2, e3⟩
  unfold forwardStep at h
  dsimp only at h
  split at h
  · rename_i hfail
    split at h
    · obtain ⟨e1, e2, _⟩ := haux _ _ [Call.deletePod p] (by
        intro c hc
        simp only [List.mem_singleton] at hc
        rw [hc]; rfl) h
      exact absurd e2 (by simp [isCreated, newVersionedStatefulSetPod])
    · exact StepRes.noConfusion h
  · rename_i hfail
    obtain ⟨e1, e2, e3, e4, e5⟩ := haux p st [] (by simp) h
    refine ⟨e1, ?_, e5⟩
    unfold goodPod
    have hnf : isFailed p = false := by
      cases h2 : isFailed p
      · rfl
      · exact absurd (by simp [h2]) hfail
    simp [e2, e3, e4, hnf]

lemma filter_create_nil (cs : List Call)
    (hcs : ∀ c ∈ cs, isCreateCall c = false) :
    cs.filter isCreateCall = [] := by
  rw [List.filter_eq_nil_iff]
  intro c hc
  simp [hcs c hc]

lemma forwardStepCreated_create_count (env : Env) (cn un : String)
    (p : Pod) (st : StatefulSetStatus) (cs : List Call)
    (hcs : ∀ c ∈ cs, isCreateCall c = false) :
    ((forwardStepCreated env cn un true p st cs).calls.filter
      isCreateCall).length ≤ 1 := by
  by_cases hncr : (!isCreated p) = true
  · by_cases hok : env.callOK (Call.createPod p) = true
    · rw [forwardStepCreated_uncreated_ok env cn un p st cs hncr hok]
      simp [StepRes.calls, List.filter_append, filter_create_nil cs hcs,
        isCreateCall]
    · rw [forwardStepCreated_uncreated_fail env cn un p st cs hncr hok]
      simp [StepRes.calls, List.filter_append, filter_create_nil cs hcs,
        isCreateCall]
  · have hfree : ∀ c ∈ (forwardStepCreated env cn un true p st cs).calls,
        isCreateCall c = false := by
      intro c hc
      cases c with
      | createPod q =>
        exfalso
        unfold forwardStepCreated at hc
        rw [if_neg hncr] at hc
        dsimp only at hc
        split at hc
        · exact absurd (hcs _ hc) (by simp [isCreateCall])
        · split at hc
          · split at hc
            · exact forwardStepReady_no_create env true p st _ (by
                intro c2 hc2
                simp only [List.mem_append, List.mem_singleton] at hc2
                rcases hc2 with hc2 | hc2
                · exact hcs c2 hc2
                · rw [hc2]; rfl) q hc
            · simp only [StepRes.calls, List.mem_append,
                List.mem_singleton] at hc
              rcases hc with hc | hc
              · exact absurd (hcs _ hc) (by simp [isCreateCall])
              · exact Call.noConfusion hc
          · exact forwardStepReady_no_create env true p st cs hcs q hc
      | _ => rfl
    rw [filter_create_nil _ hfree]
    simp

lemma forwardStep_create_count (env : Env) (set : StatefulSet)
    (cn un : String) (i : Nat) (p : Pod) (st : StatefulSetStatus) :
    ((forwardStep env set cn un true i p st).calls.filter
      isCreateCall).length ≤ 1 := by
  by_cases hfail : isFailed p = true
  · by_cases hok : env.callOK (Call.deletePod p) = true
    · have heq : forwardStep env set cn un true i p st =
          forwardStepCreated env cn un true
            (newVersionedStatefulSetPod set cn un i)
            (adjustAfterFailedDelete st p cn un) [Call.deletePod p] := by
        unfold forwardStep
        rw [if_pos hfail]
        dsimp only
        rw [if_pos hok]
      rw [heq]
      exact forwardStepCreated_create_count env cn un _ _ _ (by
        intro c hc
        simp only [List.mem_singleton] at hc
        rw [hc]; rfl)
    · have heq : forwardStep env set cn un true i p st =
          .fail st [Call.deletePod p]
            (.callFailed (Call.deletePod p)) := by
        unfold forwardStep
        rw [if_pos hfail]
        dsimp only
        rw [if_neg hok]
      rw [heq]
      simp [StepRes.calls, isCreateCall]
  · have heq : forwardStep env set cn un true i p st =
        forwardStepCreated env cn un true p st [] := by
      unfold forwardStep
      rw [if_neg hfail]
    rw [heq]
    exact forwardStepCreated_create_count env cn un p st [] (by simp)

lemma forwardSweep_mono_master (env : Env) (set : StatefulSet)
    (cn un : String) :
    ∀ (l : List Pod) (i : Nat) (st : StatefulSetStatus),
      (((forwardSweep env set cn un true l i st).calls.filter
        isCreateCall).length ≤ 1) ∧
      (∀ q, Call.createPod q ∈
          (forwardSweep env set cn un true l i st).calls →
        (forwardSweep env set cn un true l i st).calls.getLast? =
            some (Call.createPod q) ∧
          (forwardSweep env set cn un true l i st).isDone = false ∧
          ∃ (k : Nat) (p0 : Pod), l[k]? = some p0 ∧
            (q = p0 ∨ q = newVersionedStatefulSetPod set cn un (i + k)) ∧
            ∀ j, j < k → ∀ p2, l[j]? = some p2 → goodPod p2 = true) := by
  intro l
  induction l with
  | nil =>
    intro i st
    exact ⟨by simp [forwardSweep, SweepOut.calls], by
      intro q hq; simp [forwardSweep, SweepOut.calls] at hq⟩
  | cons p rest ih =>
    intro i st
    rw [forwardSweep]
    split
    · rename_i st1 cs hstep
      constructor
      · have := forwardStep_create_count env set cn un i p st
        rw [hstep] at this
        exact this
      · intro q hq
        have hq2 : Call.createPod q ∈
            (forwardStep env set cn un true i p st).calls := by
          rw [hstep]; exact hq
        obtain ⟨hqp, hqc, hlast, _⟩ := forwardStep_create env set cn un i p
          st q hq2
        rw [hstep] at hlast
        refine ⟨hlast, rfl, 0, p, by simp, by simpa using hqp, ?_⟩
        intro j hj
        omega
    · rename_i st1 cs e hstep
      constructor
      · have := forwardStep_create_count env set cn un i p st
        rw [hstep] at this
        exact this
      · intro q hq
        have hq2 : Call.createPod q ∈
            (forwardStep env set cn un true i p st).calls := by
          rw [hstep]; exact hq
        obtain ⟨hqp, hqc, hlast, _⟩ := forwardStep_create env set cn un i p
          st q hq2
        rw [hstep] at hlast
        refine ⟨hlast, rfl, 0, p, by simp, by simpa using hqp, ?_⟩
        intro j hj
        omega
    · rename_i st1 cs p1 hstep
      obtain ⟨hp1, hgood, hfree⟩ := forwardStep_proceed_good env set cn un i
        p st st1 cs p1 hstep
      obtain ⟨ihc, ihm⟩ := ih (i + 1) st1
      have hkstep : ∀ (k : Nat) (p0 : Pod), rest[k]? = some p0 →
          (q : Pod) →
          (q = p0 ∨ q = newVersionedStatefulSetPod set cn un (i + 1 + k)) →
          (q = p0 ∨ q = newVersionedStatefulSetPod set cn un (i + (k + 1)))
          := by
        intro k p0 _ q hq
        rwa [show i + 1 + k = i + (k + 1) by omega] at hq
      have hcount : ∀ cs2 : List Call,
          cs2 = (forwardSweep env set cn un true rest (i + 1) st1).calls →
          (List.filter isCreateCall (cs ++ cs2)).length ≤ 1 := by
        intro cs2 hcs2
        rw [List.filter_append, List.length_append,
          filter_create_nil cs hfree]
        rw [hcs2]
        simpa using ihc
      have hmem : ∀ (cs2 : List Call) (q : Pod),
          cs2 = (forwardSweep env set cn un true rest (i + 1) st1).calls →
          Call.createPod q ∈ cs ++ cs2 →
          ((cs ++ cs2).getLast? = some (Call.createPod q) ∧
            (forwardSweep env set cn un true rest (i + 1) st1).isDone =
              false ∧
            ∃ (k : Nat) (p0 : Pod), (p :: rest)[k]? = some p0 ∧
              (q = p0 ∨ q = newVersionedStatefulSetPod set cn un (i + k)) ∧
              ∀ j, j < k → ∀ p2, (p :: rest)[j]? = some p2 →
                goodPod p2 = true) := by
        intro cs2 q hcs2 hq
        simp only [List.mem_append] at hq
        rcases hq with hq | hq
        · exact absurd (hfree _ hq) (by simp [isCreateCall])
        · have hq2 : Call.createPod q ∈ (forwardSweep env set cn un true
              rest (i + 1) st1).calls := by rw [← hcs2]; exact hq
          obtain ⟨hlast, hdone, k, p0, hk, hqp, hgoodpre⟩ := ihm q hq2
          refine ⟨?_, hdone, k + 1, p0, by simpa using hk,
            hkstep k p0 hk q hqp, ?_⟩
          · rw [List.getLast?_append_of_ne_nil _ (by
              intro hnil
              rw [hnil] at hq
              simp at hq)]
            rw [← hcs2] at hlast
            exact hlast
          · intro j hj p2 hp2
            cases j with
            | zero =>
              simp only [List.getElem?_cons_zero] at hp2
              injection hp2 with hp2
              rw [← hp2]
              exact hgood
            | succ j2 =>
              simp only [List.getElem?_cons_succ] at hp2
              exact hgoodpre j2 (by omega) p2 hp2
      split
      · rename_i st2 cs2 ps hrec
        constructor
        · simp only [SweepOut.calls]
          exact hcount cs2 (by rw [hrec]; rfl)
        · intro q hq
          simp only [SweepOut.calls] at hq
          obtain ⟨_, hdone, _⟩ := hmem cs2 q (by rw [hrec]; rfl) hq
          rw [hrec] at hdone
          simp [SweepOut.isDone] at hdone
      · rename_i st2 cs2 ps hrec
        constructor
        · simp only [SweepOut.calls]
          exact hcount cs2 (by rw [hrec]; rfl)
        · intro q hq
          simp only [SweepOut.calls] at hq
          obtain ⟨hlast, _, hrest⟩ := hmem cs2 q (by rw [hrec]; rfl) hq
          exact ⟨hlast, rfl, hrest⟩
      · rename_i st2 cs2 e ps hrec
        constructor
        · simp only [SweepOut.calls]
          exact hcount cs2 (by rw [hrec]; rfl)
        · intro q hq
          simp only [SweepOut.calls] at hq
          obtain ⟨hlast, _, hrest⟩ := hmem cs2 q (by rw [hrec]; rfl) hq
          exact ⟨hlast, rfl, hrest⟩

/-- C3: under the OrderedReady (monotonic) policy, the forward sweep issues
at most one pod creation per pass; whenever a creation for pod `q` is
issued, it is the last collaborator call of the sweep, the sweep does not
run to completion (it returns the status immediately), and the created pod
sits at a position `k` such that every lower-ordinal replica is created,
not failed, not terminating, and running and ready. -/
theorem c3_forward_sweep_monotonic_create (env : Env) (set : StatefulSet)
    (cn un : String) (l : List Pod) (i : Nat) (st : StatefulSetStatus)
    (hb : allowsBurst set = false) :
    (((forwardSweep env set cn un (!allowsBurst set) l i st).calls.filter
        isCreateCall).length ≤ 1) ∧
    (∀ q, Call.createPod q ∈
        (forwardSweep env set cn un (!allowsBurst set) l i st).calls →
      (forwardSweep env set cn un (!allowsBurst set) l i st).calls.getLast? =
          some (Call.createPod q) ∧
        (forwardSweep env set cn un (!allowsBurst set) l i st).isDone =
          false ∧
        ∃ (k : Nat) (p0 : Pod), l[k]? = some p0 ∧
          (q = p0 ∨ q = newVersionedStatefulSetPod set cn un (i + k)) ∧
          ∀ j, j < k → ∀ p2, l[j]? = some p2 → goodPod p2 = true) := by
  rw [hb]
  exact forwardSweep_mono_master env set cn un l i st

/-- Set for the C3 witness (OrderedReady policy). -/
def c3Set : StatefulSet :=
  ⟨7, none, ⟨some 2, some 10, .orderedReady,
    ⟨.rollingUpdate, some ⟨some 0, none, .recreate⟩⟩, 42⟩,
    ⟨0, 0, 0, 0, 0, "v1", "v1", some 0⟩⟩

/-- Witness for C3 at a one-pod list under the OrderedReady policy. -/
theorem c3_witness :
    allowsBurst c3Set = false ∧
      ((forwardSweep ⟨fun _ => true, fun _ => false, []⟩ c3Set "v1" "v2"
          (!allowsBurst c3Set)
          [⟨9, 0, "v2", false, false, false, false, true, false, false,
            true, true⟩] 0 c5St0).calls.filter isCreateCall).length ≤ 1 :=
  ⟨rfl,
    (c3_forward_sweep_monotonic_create ⟨fun _ => true, fun _ => false, []⟩
      c3Set "v1" "v2"
      [⟨9, 0, "v2", false, false, false, false, true, false, false,
        true, true⟩] 0 c5St0 rfl).1⟩

/-! ### The update sweep: unavailability accounting and examined targets -/

lemma inPlaceUpdatePod_cond_mem (env : Env) (p : Pod) :
    Call.updateCondition p false ∈ (inPlaceUpdatePod env p).1 := by
  unfold inPlaceUpdatePod
  dsimp only
  split
  · split <;> exact List.mem_cons_self _ _
  · exact List.mem_singleton_self _

lemma updateStep_action (env : Env) (set : StatefulSet) (cn un : String)
    (p : Pod) (hrev : (getPodRevision p != un) = true)
    (hterm : isTerminating p = false) :
    Call.deletePod p ∈ (updateStep env set cn un p).calls ∨
      Call.updateCondition p false ∈ (updateStep env set cn un p).calls ∨
      (env.shouldDoInPlace (getPodRevision p) = true ∧
        p.inPlaceIncomplete = true) := by
  unfold updateStep
  rw [if_pos (show (getPodRevision p != un && !isTerminating p) = true by
    rw [hrev, hterm]; rfl)]
  by_cases hip : env.shouldDoInPlace (getPodRevision p) = true
  · rw [if_pos hip]
    by_cases hinc : p.inPlaceIncomplete = true
    · rw [if_pos hinc]
      exact Or.inr (Or.inr ⟨hip, hinc⟩)
    · rw [if_neg hinc]
      dsimp only
      have hmem := inPlaceUpdatePod_cond_mem env p
      split
      · split
        · exact Or.inr (Or.inl (List.mem_append_left _ hmem))
        · exact Or.inr (Or.inl (List.mem_append_left _ hmem))
      · exact Or.inr (Or.inl hmem)
  · rw [if_neg hip]
    dsimp only
    split
    · exact Or.inl (List.mem_singleton_self _)
    · exact Or.inl (List.mem_singleton_self _)

lemma updateSweepGo_nil (env : Env) (set : StatefulSet) (cn un : String)
    (maxU : Int) (st : StatefulSetStatus) (unav : List Pod) :
    updateSweepGo env set cn un maxU [] st unav = .done st [] unav := rfl

lemma updateSweepGo_cons_abort (env : Env) (set : StatefulSet)
    (cn un : String) (maxU : Int) (i : Nat) (p : Pod)
    (rest : List (Nat × Pod)) (st : StatefulSetStatus) (unav : List Pod)
    (hab : (updateStep env set cn un p).aborted = true) :
    updateSweepGo env set cn un maxU ((i, p) :: rest) st unav =
      .err st (updateStep env set cn un p).calls
        (.callFailed (Call.deletePod p)) unav := by
  rw [updateSweepGo]
  dsimp only
  rw [if_pos hab]

lemma updateSweepGo_cons_ret (env : Env) (set : StatefulSet)
    (cn un : String) (maxU : Int) (i : Nat) (p : Pod)
    (rest : List (Nat × Pod)) (st : StatefulSetStatus) (unav : List Pod)
    (hab : (updateStep env set cn un p).aborted = false)
    (hge : maxU ≤ ((updateSweepUnav un p unav).length : Int)) :
    updateSweepGo env set cn un maxU ((i, p) :: rest) st unav =
      .ret (updateSweepStatus (updateStep env set cn un p) st)
        (updateStep env set cn un p).calls (updateSweepUnav un p unav) := by
  rw [updateSweepGo]
  dsimp only
  rw [if_neg (by simp [hab]), if_pos hge]

lemma updateSweepGo_cons_go (env : Env) (set : StatefulSet)
    (cn un : String) (maxU : Int) (i : Nat) (p : Pod)
    (rest : List (Nat × Pod)) (st : StatefulSetStatus) (unav : List Pod)
    (hab : (updateStep env set cn un p).aborted = false)
    (hge : ¬ maxU ≤ ((updateSweepUnav un p unav).length : Int)) :
    updateSweepGo env set cn un maxU ((i, p) :: rest) st unav =
      match updateSweepGo env set cn un maxU rest
          (updateSweepStatus (updateStep env set cn un p) st)
          (updateSweepUnav un p unav) with
      | .done st2 cs2 u =>
        .done st2 ((updateStep env set cn un p).calls ++ cs2) u
      | .ret st2 cs2 u =>
        .ret st2 ((updateStep env set cn un p).calls ++ cs2) u
      | .err st2 cs2 e u =>
        .err st2 ((updateStep env set cn un p).calls ++ cs2) e u := by
  rw [updateSweepGo]
  dsimp only
  rw [if_neg (by simp [hab]), if_neg hge]

lemma updateSweepGo_master (env : Env) (set : StatefulSet) (cn un : String)
    (maxU : Int) :
    ∀ (l : List (Nat × Pod)) (st : StatefulSetStatus) (unav0 : List Pod),
      ((unav0.length : Int) < maxU) →
      ∃ k, k ≤ l.length ∧
        (updateSweepGo env set cn un maxU l st unav0).payload =
          unav0 ++ ((l.take k).map Prod.snd).filter (unavailPred un) ∧
        (((updateSweepGo env set cn un maxU l st unav0).payload.length : Int)
          ≤ maxU) ∧
        ((updateSweepGo env set cn un maxU l st unav0).isRet = true →
          (((updateSweepGo env set cn un maxU l st unav0).payload.length :
            Int) = maxU)) ∧
        ((updateSweepGo env set cn un maxU l st unav0).isDone = true →
          k = l.length ∧
          (((updateSweepGo env set cn un maxU l st unav0).payload.length :
            Int) < maxU)) ∧
        (∀ ip ∈ l.take k,
          (getPodRevision ip.2 != un) = true → isTerminating ip.2 = false →
          Call.deletePod ip.2 ∈
              (updateSweepGo env set cn un maxU l st unav0).calls ∨
            Call.updateCondition ip.2 false ∈
              (updateSweepGo env set cn un maxU l st unav0).calls ∨
            (env.shouldDoInPlace (getPodRevision ip.2) = true ∧
              ip.2.inPlaceIncomplete = true)) := by
  intro l
  induction l with
  | nil =>
    intro st unav0 h0
    refine ⟨0, Nat.le_refl _, ?_, ?_, ?_, ?_, ?_⟩
    · simp [updateSweepGo_nil, SweepOut.payload]
    · simpa [updateSweepGo_nil, SweepOut.payload] using le_of_lt h0
    · intro h
      simp [updateSweepGo_nil, SweepOut.isRet] at h
    · intro _
      exact ⟨rfl, by simpa [updateSweepGo_nil, SweepOut.payload] using h0⟩
    · intro ip hip
      simp at hip
  | cons ip0 rest ih =>
    intro st unav0 h0
    obtain ⟨i, p⟩ := ip0
    by_cases hab : (updateStep env set cn un p).aborted = true
    · have heq := updateSweepGo_cons_abort env set cn un maxU i p rest st
        unav0 hab
      refine ⟨0, Nat.zero_le _, ?_, ?_, ?_, ?_, ?_⟩
      · rw [heq]; simp [SweepOut.payload]
      · rw [heq]; simpa [SweepOut.payload] using le_of_lt h0
      · rw [heq]; intro h; simp [SweepOut.isRet] at h
      · rw [heq]; intro h; simp [SweepOut.isDone] at h
      · intro ip hip; simp at hip
    · rw [Bool.not_eq_true] at hab
      by_cases hge : maxU ≤ ((updateSweepUnav un p unav0).length : Int)
      · have heq := updateSweepGo_cons_ret env set cn un maxU i p rest st
          unav0 hab hge
        have hpred : unavailPred un p = true := by
          by_contra hnp
          rw [Bool.not_eq_true] at hnp
          rw [updateSweepUnav, if_neg (by simp [hnp])] at hge
          omega
        have hu1eq : updateSweepUnav un p unav0 = unav0 ++ [p] := by
          rw [updateSweepUnav, if_pos hpred]
        have hlen : (updateSweepUnav un p unav0).length =
            unav0.length + 1 := by
          rw [hu1eq]; simp
        refine ⟨1, by simp, ?_, ?_, ?_, ?_, ?_⟩
        · rw [heq]
          simp only [SweepOut.payload, List.take_succ_cons, List.take_zero,
            List.map_cons, List.map_nil, List.filter_cons, hpred, if_pos,
            List.filter_nil]
          rw [hu1eq]
        · rw [heq]
          simp only [SweepOut.payload]
          omega
        · intro _
          rw [heq]
          simp only [SweepOut.payload]
          omega
        · rw [heq]; intro h; simp [SweepOut.isDone] at h
        · intro ip hip hrev hterm
          simp only [List.take_succ_cons, List.take_zero,
            List.mem_singleton] at hip
          subst hip
          rw [heq]
          simp only [SweepOut.calls]
          have hact := updateStep_action env set cn un p hrev hterm
          exact hact
      · have hlt1 : ((updateSweepUnav un p unav0).length : Int) < maxU :=
          not_le.mp hge
        obtain ⟨k', hk'le, hpay, hle, hret, hdone, hact⟩ :=
          ih (updateSweepStatus (updateStep env set cn un p) st)
            (updateSweepUnav un p unav0) hlt1
        have heq := updateSweepGo_cons_go env set cn un maxU i p rest st
          unav0 hab hge
        cases hrec : updateSweepGo env set cn un maxU rest
            (updateSweepStatus (updateStep env set cn un p) st)
            (updateSweepUnav un p unav0) with
        | done st2 cs2 u =>
          rw [hrec] at heq hpay hle hret hdone hact
          simp only [SweepOut.payload, SweepOut.isRet, SweepOut.isDone,
            SweepOut.calls] at heq hpay hle hret hdone hact
          refine ⟨k' + 1, by simpa using Nat.succ_le_succ hk'le, ?_, ?_,
            ?_, ?_, ?_⟩
          · rw [heq]
            simp only [SweepOut.payload, List.take_succ_cons,
              List.map_cons, List.filter_cons]
            rw [hpay]
            by_cases hpred : unavailPred un p = true
            · rw [if_pos hpred, updateSweepUnav, if_pos hpred,
                List.append_assoc]
              rfl
            · rw [if_neg hpred, updateSweepUnav,
                if_neg (by simp [Bool.not_eq_true] at hpred; simp [hpred])]
          · rw [heq]
            simpa only [SweepOut.payload] using hle
          · rw [heq]; intro h; simp [SweepOut.isRet] at h
          · rw [heq]; intro _
            obtain ⟨hk, hlt⟩ := hdone trivial
            exact ⟨by simp [hk], by simpa only [SweepOut.payload] using hlt⟩
          · intro ip hip hrev hterm
            rw [heq]
            simp only [SweepOut.calls]
            rw [List.take_succ_cons] at hip
            rcases List.mem_cons.mp hip with hip | hip
            · subst hip
              rcases updateStep_action env set cn un p hrev hterm with
                h | h | h
              · exact Or.inl (List.mem_append_left _ h)
              · exact Or.inr (Or.inl (List.mem_append_left _ h))
              · exact Or.inr (Or.inr h)
            · rcases hact ip hip hrev hterm with h | h | h
              · exact Or.inl (List.mem_append_right _ h)
              · exact Or.inr (Or.inl (List.mem_append_right _ h))
              · exact Or.inr (Or.inr h)
        | ret st2 cs2 u =>
          rw [hrec] at heq hpay hle hret hdone hact
          simp only [SweepOut.payload, SweepOut.isRet, SweepOut.isDone,
            SweepOut.calls] at heq hpay hle hret hdone hact
          refine ⟨k' + 1, by simpa using Nat.succ_le_succ hk'le, ?_, ?_,
            ?_, ?_, ?_⟩
          · rw [heq]
            simp only [SweepOut.payload, List.take_succ_cons,
              List.map_cons, List.filter_cons]
            rw [hpay]
            by_cases hpred : unavailPred un p = true
            · rw [if_pos hpred, updateSweepUnav, if_pos hpred,
                List.append_assoc]
              rfl
            · rw [if_neg hpred, updateSweepUnav,
                if_neg (by simp [Bool.not_eq_true] at hpred; simp [hpred])]
          · rw [heq]
            simpa only [SweepOut.payload] using hle
          · intro _
            rw [heq]
            simpa only [SweepOut.payload] using hret trivial
          · rw [heq]; intro h; simp [SweepOut.isDone] at h
          · intro ip hip hrev hterm
            rw [heq]
            simp only [SweepOut.calls]
            rw [List.take_succ_cons] at hip
            rcases List.mem_cons.mp hip with hip | hip
            · subst hip
              rcases updateStep_action env set cn un p hrev hterm with
                h | h | h
              · exact Or.inl (List.mem_append_left _ h)
              · exact Or.inr (Or.inl (List.mem_append_left _ h))
              · exact Or.inr (Or.inr h)
            · rcases hact ip hip hrev hterm with h | h | h
              · exact Or.inl (List.mem_append_right _ h)
              · exact Or.inr (Or.inl (List.mem_append_right _ h))
              · exact Or.inr (Or.inr h)
        | err st2 cs2 e u =>
          rw [hrec] at heq hpay hle hret hdone hact
          simp only [SweepOut.payload, SweepOut.isRet, SweepOut.isDone,
            SweepOut.calls] at heq hpay hle hret hdone hact
          refine ⟨k' + 1, by simpa using Nat.succ_le_succ hk'le, ?_, ?_,
            ?_, ?_, ?_⟩
          · rw [heq]
            simp only [SweepOut.payload, List.take_succ_cons,
              List.map_cons, List.filter_cons]
            rw [hpay]
            by_cases hpred : unavailPred un p = true
            · rw [if_pos hpred, updateSweepUnav, if_pos hpred,
                List.append_assoc]
              rfl
            · rw [if_neg hpred, updateSweepUnav,
                if_neg (by simp [Bool.not_eq_true] at hpred; simp [hpred])]
          · rw [heq]
            simpa only [SweepOut.payload] using hle
          · rw [heq]; intro h; simp [SweepOut.isRet] at h
          · rw [heq]; intro h; simp [SweepOut.isDone] at h
          · intro ip hip hrev hterm
            rw [heq]
            simp only [SweepOut.calls]
            rw [List.take_succ_cons] at hip
            rcases List.mem_cons.mp hip with hip | hip
            · subst hip
              rcases updateStep_action env set cn un p hrev hterm with
                h | h | h
              · exact Or.inl (List.mem_append_left _ h)
              · exact Or.inr (Or.inl (List.mem_append_left _ h))
              · exact Or.inr (Or.inr h)
            · rcases hact ip hip hrev hterm with h | h | h
              · exact Or.inl (List.mem_append_right _ h)
              · exact Or.inr (Or.inl (List.mem_append_right _ h))
              · exact Or.inr (Or.inr h)

lemma filter_length_le_of_imp {α : Type} (l : List α) (p q : α → Bool)
    (h : ∀ a, p a = true → q a = true) :
    (l.filter p).length ≤ (l.filter q).length :=
  (List.monotone_filter_right l h).length_le

lemma strong_imp_unavail (un : String) (q : Pod)
    (h : ((getPodRevision q != un) && isHealthy q) = true) :
    unavailPred un q = true := by
  rw [unavailPred]
  rw [Bool.and_eq_true] at h
  simp [h.1]

/-- C1 (amended): during the update sweep, the `unavailablePods` list is
exactly the filter of the EXAMINED targets (a prefix of the descending
target list) by "not at the update revision, or unhealthy, or in-place
incomplete"; given `maxUnavailable ≥ 1` its length never exceeds
`maxUnavailable`, the sweep returns early exactly at length
`maxUnavailable`, and hence among the EXAMINED pods at most
`maxUnavailable` are simultaneously not-at-update-revision-and-healthy.
The original claim's bound over the whole ordinal range
`[partition, replicas)` is refuted by `c1_counterexample`: pods beyond the
early-return point are never examined. -/
theorem c1_update_sweep_unavailable_bound (env : Env) (set : StatefulSet)
    (cn un : String) (maxU : Int) (targets : List (Nat × Pod))
    (st : StatefulSetStatus) (hmax : (1 : Int) ≤ maxU) :
    ∃ k ≤ targets.length,
      (updateSweepGo env set cn un maxU targets st []).payload =
        ((targets.take k).map Prod.snd).filter (unavailPred un) ∧
      (((updateSweepGo env set cn un maxU targets st []).payload.length :
        Int) ≤ maxU) ∧
      ((updateSweepGo env set cn un maxU targets st []).isRet = true →
        (((updateSweepGo env set cn un maxU targets st []).payload.length :
          Int) = maxU)) ∧
      ((updateSweepGo env set cn un maxU targets st []).isDone = true →
        k = targets.length) ∧
      (((((targets.take k).map Prod.snd).filter
          (fun q => (getPodRevision q != un) && isHealthy q)).length : Int)
        ≤ maxU) := by
  obtain ⟨k, hkle, hpay, hle, hret, hdone, _⟩ :=
    updateSweepGo_master env set cn un maxU targets st []
      (by simp; omega)
  refine ⟨k, hkle, ?_, hle, hret, fun h => (hdone h).1, ?_⟩
  · simpa using hpay
  · have h1 : (((targets.take k).map Prod.snd).filter
        (fun q => (getPodRevision q != un) && isHealthy q)).length ≤
        (((targets.take k).map Prod.snd).filter (unavailPred un)).length :=
      filter_length_le_of_imp _ _ _ (strong_imp_unavail un)
    have h2 := hle
    rw [hpay] at h2
    simp only [List.nil_append] at h2
    omega

def c1Pod (o : Int) : Pod :=
  { uid := o.toNat, ord := o, revision := "v1", created := true
    terminating := false, runningAndReady := true, failedPhase := false
    inPlaceGateOK := true, inPlaceIncomplete := false
    condUpdateNeeded := false, identityOK := true, storageOK := true }

def c1Pods : List Pod := [c1Pod 0, c1Pod 1, c1Pod 2]

def c1Env : Env := ⟨fun _ => true, fun _ => false, []⟩

def c1Set : StatefulSet :=
  { generation := 1
    deletionTimestamp := none
    spec :=
      { replicas := some 3
        revisionHistoryLimit := some 10
        podManagementPolicy := .parallelPolicy
        updateStrategy :=
          { type := .rollingUpdate
            rollingUpdate := some
              { partition := some 0
                maxUnavailable := some (.intVal 1)
                podUpdatePolicy := .recreate } }
        templateHash := 0 }
    status :=
      { observedGeneration := 0, replicas := 3, readyReplicas := 3
        currentReplicas := 3, updatedReplicas := 0
        currentRevision := "v1", updateRevision := "v2"
        collisionCount := some 0 } }

def c1CurRev : ControllerRevision := ⟨"v1", 1, 0⟩

def c1UpdRev : ControllerRevision := ⟨"v2", 2, 1⟩

/-- C1 (counterexample to the final consequence): with 3 healthy replicas
at the old revision, `partition = 0` and `maxUnavailable = 1`, the pass
deletes one pod and returns without error, leaving TWO pods in the range
`[0, 3)` that are still not-at-update-revision-and-healthy and were never
touched — more than `maxUnavailable = 1`. -/
theorem c1_counterexample :
    ∃ pr, updateStatefulSet c1Env c1Set c1CurRev c1UpdRev 0 c1Pods =
        some pr ∧
      pr.err = none ∧
      updateMinMax c1Set 3 = some (.ok (0, 1)) ∧
      ((c1Pods.filter (fun q => (getPodRevision q != "v2") && isHealthy q &&
          !(pr.calls.contains (Call.deletePod q)) &&
          !(pr.calls.contains (Call.inPlaceUpdate q)))).length : Int) = 2 ∧
      ¬ ((2 : Int) ≤ 1) := by
  refine ⟨_, rfl, ?_, ?_, ?_, ?_⟩
  · rfl
  · rfl
  · decide
  · decide

def c1Targets : List (Nat × Pod) :=
  [(2, c1Pod 2), (1, c1Pod 1), (0, c1Pod 0)]

def c1St : StatefulSetStatus := ⟨1, 3, 3, 3, 0, "v1", "v2", 0⟩

theorem c1_witness :
    (1 : Int) ≤ 1 ∧
    ∃ k ≤ c1Targets.length,
      (updateSweepGo c1Env c1Set "v1" "v2" 1 c1Targets c1St []).payload =
        ((c1Targets.take k).map Prod.snd).filter (unavailPred "v2") ∧
      (((updateSweepGo c1Env c1Set "v1" "v2" 1 c1Targets c1St
        []).payload.length : Int) ≤ 1) ∧
      ((updateSweepGo c1Env c1Set "v1" "v2" 1 c1Targets c1St []).isRet =
          true →
        (((updateSweepGo c1Env c1Set "v1" "v2" 1 c1Targets c1St
          []).payload.length : Int) = 1)) ∧
      ((updateSweepGo c1Env c1Set "v1" "v2" 1 c1Targets c1St []).isDone =
          true →
        k = c1Targets.length) ∧
      (((((c1Targets.take k).map Prod.snd).filter
          (fun q => (getPodRevision q != "v2") && isHealthy q)).length :
        Int) ≤ 1) :=
  ⟨by decide,
    c1_update_sweep_unavailable_bound c1Env c1Set "v1" "v2" 1 c1Targets
      c1St (by decide)⟩

/-- C2: under RollingUpdate the sweep's targets are exactly positions of
the replicas array with ordinal at least `updateMin`, where `updateMin` is
the strategy's Partition (0, with `maxUnavailable` defaulting to 1, when no
RollingUpdate block is present); every call of the sweep touches a pod
stored at or above the partition, so no pod below the partition is deleted
or in-place-updated; and every examined pod not at the update revision and
not terminating is deleted, or enters the in-place path (the
`InPlaceUpdateReady` condition write), or is skipped precisely while its
previous in-place update is incomplete.  The examined prefix `take k` is
pinned to the sweep's behaviour: the sweep's `unavailablePods` payload is
exactly the unavailability filter of `take k`, a completed sweep forces
`k` to cover every target, and an early return happens exactly at payload
length `maxUnavailable`. -/
theorem c2_update_sweep_partition (env : Env) (set : StatefulSet)
    (cn un : String) (N : Nat) (m maxU : Int) (replicas : List Pod)
    (st : StatefulSetStatus)
    (hmm : updateMinMax set N = some (.ok (m, maxU)))
    (hmax : (1 : Int) ≤ maxU) :
    (set.spec.updateStrategy.rollingUpdate = none → m = 0 ∧ maxU = 1) ∧
    (∀ ru, set.spec.updateStrategy.rollingUpdate = some ru →
      ru.partition = some m) ∧
    (∀ ip ∈ buildTargets replicas m,
      m ≤ (ip.1 : Int) ∧ replicas[ip.1]? = some ip.2) ∧
    (∀ c ∈ (updateSweepGo env set cn un maxU (buildTargets replicas m) st
        []).calls,
      ∃ (i : Nat) (q : Pod),
        m ≤ (i : Int) ∧ replicas[i]? = some q ∧ callPod c = some q) ∧
    (∃ k ≤ (buildTargets replicas m).length,
      (updateSweepGo env set cn un maxU (buildTargets replicas m) st
        []).payload =
        (((buildTargets replicas m).take k).map Prod.snd).filter
          (unavailPred un) ∧
      ((updateSweepGo env set cn un maxU (buildTargets replicas m) st
          []).isDone = true → k = (buildTargets replicas m).length) ∧
      ((updateSweepGo env set cn un maxU (buildTargets replicas m) st
          []).isRet = true →
        (((updateSweepGo env set cn un maxU (buildTargets replicas m) st
          []).payload.length : Int) = maxU)) ∧
      ∀ ip ∈ (buildTargets replicas m).take k,
        (getPodRevision ip.2 != un) = true → isTerminating ip.2 = false →
        Call.deletePod ip.2 ∈
            (updateSweepGo env set cn un maxU (buildTargets replicas m) st
              []).calls ∨
          Call.updateCondition ip.2 false ∈
            (updateSweepGo env set cn un maxU (buildTargets replicas m) st
              []).calls ∨
          (env.shouldDoInPlace (getPodRevision ip.2) = true ∧
            ip.2.inPlaceIncomplete = true)) := by
  refine ⟨?_, ?_, ?_, ?_, ?_⟩
  · intro hnone
    rw [updateMinMax, hnone] at hmm
    simp only [Option.some.injEq, Except.ok.injEq, Prod.mk.injEq] at hmm
    exact ⟨hmm.1.symm, hmm.2.symm⟩
  · intro ru hru
    rw [updateMinMax, hru] at hmm
    dsimp only at hmm
    cases hpart : ru.partition with
    | none =>
      rw [hpart] at hmm
      dsimp only at hmm
      simp at hmm
    | some part =>
      rw [hpart] at hmm
      dsimp only at hmm
      cases hval : getValueFromIntOrPercent
          (valueOrDefault ru.maxUnavailable (.intVal 1)) N with
      | error e =>
        rw [hval] at hmm
        dsimp only at hmm
        simp at hmm
      | ok mu =>
        rw [hval] at hmm
        dsimp only at hmm
        simp only [Option.some.injEq, Except.ok.injEq, Prod.mk.injEq] at hmm
        rw [hmm.1]
  · intro ip hip
    obtain ⟨i, q⟩ := ip
    exact buildTargets_mem replicas m i q hip
  · intro c hc
    obtain ⟨ip, hipmem, hcp⟩ :=
      updateSweepGo_calls env set cn un maxU (buildTargets replicas m) st
        [] c hc
    obtain ⟨i, q⟩ := ip
    obtain ⟨h1, h2⟩ := buildTargets_mem replicas m i q hipmem
    exact ⟨i, q, h1, h2, hcp⟩
  · obtain ⟨k, hkle, hpay, hle, hret, hdone, hact⟩ :=
      updateSweepGo_master env set cn un maxU (buildTargets replicas m) st
        [] (by simp; omega)
    refine ⟨k, hkle, ?_, ?_, hret, hact⟩
    · simpa using hpay
    · intro h
      exact (hdone h).1

theorem c2_witness :
    updateMinMax c1Set 3 = some (.ok (0, 1)) ∧ (1 : Int) ≤ 1 ∧
    ((c1Set.spec.updateStrategy.rollingUpdate = none →
        (0 : Int) = 0 ∧ (1 : Int) = 1) ∧
      (∀ ru, c1Set.spec.updateStrategy.rollingUpdate = some ru →
        ru.partition = some 0) ∧
      (∀ ip ∈ buildTargets c1Pods 0,
        (0 : Int) ≤ (ip.1 : Int) ∧ c1Pods[ip.1]? = some ip.2) ∧
      (∀ c ∈ (updateSweepGo c1Env c1Set "v1" "v2" 1 (buildTargets c1Pods 0)
          c1St []).calls,
        ∃ (i : Nat) (q : Pod), (0 : Int) ≤ (i : Int) ∧ c1Pods[i]? = some q ∧
          callPod c = some q) ∧
      (∃ k ≤ (buildTargets c1Pods 0).length,
        (updateSweepGo c1Env c1Set "v1" "v2" 1 (buildTargets c1Pods 0)
          c1St []).payload =
          (((buildTargets c1Pods 0).take k).map Prod.snd).filter
            (unavailPred "v2") ∧
        ((updateSweepGo c1Env c1Set "v1" "v2" 1 (buildTargets c1Pods 0)
            c1St []).isDone = true → k = (buildTargets c1Pods 0).length) ∧
        ((updateSweepGo c1Env c1Set "v1" "v2" 1 (buildTargets c1Pods 0)
            c1St []).isRet = true →
          (((updateSweepGo c1Env c1Set "v1" "v2" 1 (buildTargets c1Pods 0)
            c1St []).payload.length : Int) = 1)) ∧
        ∀ ip ∈ (buildTargets c1Pods 0).take k,
          (getPodRevision ip.2 != "v2") = true →
          isTerminating ip.2 = false →
          Call.deletePod ip.2 ∈
              (updateSweepGo c1Env c1Set "v1" "v2" 1
                (buildTargets c1Pods 0) c1St []).calls ∨
            Call.updateCondition ip.2 false ∈
              (updateSweepGo c1Env c1Set "v1" "v2" 1
                (buildTargets c1Pods 0) c1St []).calls ∨
            (c1Env.shouldDoInPlace (getPodRevision ip.2) = true ∧
              ip.2.inPlaceIncomplete = true))) :=
  ⟨rfl, by decide,
    c2_update_sweep_partition c1Env c1Set "v1" "v2" 3 0 1 c1Pods c1St rfl
      (by decide)⟩

/-! ### Error surfacing: which collaborator failures abort the pass -/

lemma inPlaceUpdatePod_path (env : Env) (p : Pod) :
    ∀ c ∈ (inPlaceUpdatePod env p).1, inPlacePathCall c = true := by
  intro c hc
  unfold inPlaceUpdatePod at hc
  dsimp only at hc
  split at hc
  · split at hc <;>
    · simp only [List.mem_cons, List.mem_singleton] at hc
      rcases hc with hc | hc | hc
      · rw [hc]; rfl
      · rw [hc]; rfl
      · simp at hc
  · simp only [List.mem_singleton] at hc
    rw [hc]
    rfl

lemma forwardStepReady_trace (env : Env) (m : Bool) (p : Pod)
    (st : StatefulSetStatus) (cs : List Call) :
    (∀ st' cs', forwardStepReady env m p st cs = .stop st' cs' →
      ∀ c ∈ cs', c ∈ cs ∨ env.callOK c = true) ∧
    (∀ st' cs' q, forwardStepReady env m p st cs = .proceed st' cs' q →
      ∀ c ∈ cs', c ∈ cs ∨ env.callOK c = true) ∧
    (∀ st' cs' e, forwardStepReady env m p st cs = .fail st' cs' e →
      ∃ c, e = .callFailed c ∧ env.callOK c = false ∧
        cs'.getLast? = some c) := by
  unfold forwardStepReady
  dsimp only
  split
  · refine ⟨?_, ?_, ?_⟩
    · intro st' cs' h
      injection h with h1 h2
      subst h2
      intro c hc
      exact Or.inl hc
    · intro st' cs' q h
      exact StepRes.noConfusion h
    · intro st' cs' e h
      exact StepRes.noConfusion h
  · split
    · refine ⟨?_, ?_, ?_⟩
      · intro st' cs' h
        exact StepRes.noConfusion h
      · intro st' cs' q h
        injection h with h1 h2 h3
        subst h2
        intro c hc
        exact Or.inl hc
      · intro st' cs' e h
        exact StepRes.noConfusion h
    · split
      · rename_i hok
        refine ⟨?_, ?_, ?_⟩
        · intro st' cs' h
          exact StepRes.noConfusion h
        · intro st' cs' q h
          injection h with h1 h2 h3
          subst h2
          intro c hc
          rcases List.mem_append.mp hc with hc | hc
          · exact Or.inl hc
          · rw [List.mem_singleton.mp hc]
            exact Or.inr hok
        · intro st' cs' e h
          exact StepRes.noConfusion h
      · rename_i hok
        rw [Bool.not_eq_true] at hok
        refine ⟨?_, ?_, ?_⟩
        · intro st' cs' h
          exact StepRes.noConfusion h
        · intro st' cs' q h
          exact StepRes.noConfusion h
        · intro st' cs' e h
          injection h with h1 h2 h3
          refine ⟨Call.updatePod p, h3.symm, hok, ?_⟩
          rw [← h2]
          exact List.getLast?_concat _

lemma forwardStepCreated_trace (env : Env) (cn un : String) (m : Bool)
    (p : Pod) (st : StatefulSetStatus) (cs : List Call) :
    (∀ st' cs', forwardStepCreated env cn un m p st cs = .stop st' cs' →
      ∀ c ∈ cs', c ∈ cs ∨ env.callOK c = true) ∧
    (∀ st' cs' q,
      forwardStepCreated env cn un m p st cs = .proceed st' cs' q →
      ∀ c ∈ cs', c ∈ cs ∨ env.callOK c = true) ∧
    (∀ st' cs' e, forwardStepCreated env cn un m p st cs = .fail st' cs' e →
      ∃ c, e = .callFailed c ∧ env.callOK c = false ∧
        cs'.getLast? = some c) := by
  unfold forwardStepCreated
  dsimp only
  split
  · split
    · rename_i hok
      split
      · refine ⟨?_, ?_, ?_⟩
        · intro st' cs' h
          injection h with h1 h2
          subst h2
          intro c hc
          rcases List.mem_append.mp hc with hc | hc
          · exact Or.inl hc
          · rw [List.mem_singleton.mp hc]
            exact Or.inr hok
        · intro st' cs' q h
          exact StepRes.noConfusion h
        · intro st' cs' e h
          exact StepRes.noConfusion h
      · refine ⟨?_, ?_, ?_⟩
        · intro st' cs' h
          exact StepRes.noConfusion h
        · intro st' cs' q h
          injection h with h1 h2 h3
          subst h2
          intro c hc
          rcases List.mem_append.mp hc with hc | hc
          · exact Or.inl hc
          · rw [List.mem_singleton.mp hc]
            exact Or.inr hok
        · intro st' cs' e h
          exact StepRes.noConfusion h
    · rename_i hok
      rw [Bool.not_eq_true] at hok
      refine ⟨?_, ?_, ?_⟩
      · intro st' cs' h
        exact StepRes.noConfusion h
      · intro st' cs' q h
        exact StepRes.noConfusion h
      · intro st' cs' e h
        injection h with h1 h2 h3
        refine ⟨Call.createPod p, h3.symm, hok, ?_⟩
        rw [← h2]
        exact List.getLast?_concat _
  · split
    · refine ⟨?_, ?_, ?_⟩
      · intro st' cs' h
        injection h with h1 h2
        subst h2
        intro c hc
        exact Or.inl hc
      · intro st' cs' q h
        exact StepRes.noConfusion h
      · intro st' cs' e h
        exact StepRes.noConfusion h
    · split
      · split
        · rename_i hok
          refine ⟨?_, ?_, ?_⟩
          · intro st' cs' h
            intro c hc
            rcases (forwardStepReady_trace env m p st
                (cs ++ [Call.updateCondition p true])).1 st' cs' h c hc with
              hm | hm
            · rcases List.mem_append.mp hm with hm | hm
              · exact Or.inl hm
              · rw [List.mem_singleton.mp hm]
                exact Or.inr hok
            · exact Or.inr hm
          · intro st' cs' q h
            intro c hc
            rcases (forwardStepReady_trace env m p st
                (cs ++ [Call.updateCondition p true])).2.1 st' cs' q h c
                hc with hm | hm
            · rcases List.mem_append.mp hm with hm | hm
              · exact Or.inl hm
              · rw [List.mem_singleton.mp hm]
                exact Or.inr hok
            · exact Or.inr hm
          · intro st' cs' e h
            exact (forwardStepReady_trace env m p st
              (cs ++ [Call.updateCondition p true])).2.2 st' cs' e h
        · rename_i hok
          rw [Bool.not_eq_true] at hok
          refine ⟨?_, ?_, ?_⟩
          · intro st' cs' h
            exact StepRes.noConfusion h
          · intro st' cs' q h
            exact StepRes.noConfusion h
          · intro st' cs' e h
            injection h with h1 h2 h3
            refine ⟨Call.updateCondition p true, h3.symm, hok, ?_⟩
            rw [← h2]
            exact List.getLast?_concat _
      · exact forwardStepReady_trace env m p st cs

lemma forwardStep_trace (env : Env) (set : StatefulSet) (cn un : String)
    (m : Bool) (i : Nat) (p : Pod) (st : StatefulSetStatus) :
    (∀ st' cs', forwardStep env set cn un m i p st = .stop st' cs' →
      ∀ c ∈ cs', env.callOK c = true) ∧
    (∀ st' cs' q, forwardStep env set cn un m i p st = .proceed st' cs' q →
      ∀ c ∈ cs', env.callOK c = true) ∧
    (∀ st' cs' e, forwardStep env set cn un m i p st = .fail st' cs' e →
      ∃ c, e = .callFailed c ∧ env.callOK c = false ∧
        cs'.getLast? = some c) := by
  unfold forwardStep
  dsimp only
  split
  · split
    · rename_i hok
      refine ⟨?_, ?_, ?_⟩
      · intro st' cs' h c hc
        rcases (forwardStepCreated_trace env cn un m
            (newVersionedStatefulSetPod set cn un i)
            (adjustAfterFailedDelete st p cn un)
            [Call.deletePod p]).1 st' cs' h c hc with hm | hm
        · rw [List.mem_singleton.mp hm]
          exact hok
        · exact hm
      · intro st' cs' q h c hc
        rcases (forwardStepCreated_trace env cn un m
            (newVersionedStatefulSetPod set cn un i)
            (adjustAfterFailedDelete st p cn un)
            [Call.deletePod p]).2.1 st' cs' q h c hc with hm | hm
        · rw [List.mem_singleton.mp hm]
          exact hok
        · exact hm
      · intro st' cs' e h
        exact (forwardStepCreated_trace env cn un m
          (newVersionedStatefulSetPod set cn un i)
          (adjustAfterFailedDelete st p cn un)
          [Call.deletePod p]).2.2 st' cs' e h
    · rename_i hok
      rw [Bool.not_eq_true] at hok
      refine ⟨?_, ?_, ?_⟩
      · intro st' cs' h
        exact StepRes.noConfusion h
      · intro st' cs' q h
        exact StepRes.noConfusion h
      · intro st' cs' e h
        injection h with h1 h2 h3
        refine ⟨Call.deletePod p, h3.symm, hok, ?_⟩
        rw [← h2]
        rfl
  · refine ⟨?_, ?_, ?_⟩
    · intro st' cs' h c hc
      rcases (forwardStepCreated_trace env cn un m p st []).1 st' cs' h c
          hc with hm | hm
      · simp at hm
      · exact hm
    · intro st' cs' q h c hc
      rcases (forwardStepCreated_trace env cn un m p st []).2.1 st' cs' q h
          c hc with hm | hm
      · simp at hm
      · exact hm
    · intro st' cs' e h
      exact (forwardStepCreated_trace env cn un m p st []).2.2 st' cs' e h

lemma condemnedStep_trace (env : Env) (cn un : String) (m : Bool)
    (fu : Option Pod) (p : Pod) (st : StatefulSetStatus) :
    (∀ st' cs', condemnedStep env cn un m fu p st = .stop st' cs' →
      ∀ c ∈ cs', env.callOK c = true) ∧
    (∀ st' cs' q, condemnedStep env cn un m fu p st = .proceed st' cs' q →
      ∀ c ∈ cs', env.callOK c = true) ∧
    (∀ st' cs' e, condemnedStep env cn un m fu p st = .fail st' cs' e →
      ∃ c, e = .callFailed c ∧ env.callOK c = false ∧
        cs'.getLast? = some c) := by
  unfold condemnedStep
  dsimp only
  split
  · split
    · refine ⟨?_, ?_, ?_⟩
      · intro st' cs' h
        injection h with h1 h2
        subst h2
        intro c hc
        simp at hc
      · intro st' cs' q h
        exact StepRes.noConfusion h
      · intro st' cs' e h
        exact StepRes.noConfusion h
    · refine ⟨?_, ?_, ?_⟩
      · intro st' cs' h
        exact StepRes.noConfusion h
      · intro st' cs' q h
        injection h with h1 h2 h3
        subst h2
        intro c hc
        simp at hc
      · intro st' cs' e h
        exact StepRes.noConfusion h
  · split
    · refine ⟨?_, ?_, ?_⟩
      · intro st' cs' h
        injection h with h1 h2
        subst h2
        intro c hc
        simp at hc
      · intro st' cs' q h
        exact StepRes.noConfusion h
      · intro st' cs' e h
        exact StepRes.noConfusion h
    · split
      · rename_i hok
        split
        · refine ⟨?_, ?_, ?_⟩
          · intro st' cs' h
            injection h with h1 h2
            subst h2
            intro c hc
            rw [List.mem_singleton.mp hc]
            exact hok
          · intro st' cs' q h
            exact StepRes.noConfusion h
          · intro st' cs' e h
            exact StepRes.noConfusion h
        · refine ⟨?_, ?_, ?_⟩
          · intro st' cs' h
            exact StepRes.noConfusion h
          · intro st' cs' q h
            injection h with h1 h2 h3
            subst h2
            intro c hc
            rw [List.mem_singleton.mp hc]
            exact hok
          · intro st' cs' e h
            exact StepRes.noConfusion h
      · rename_i hok
        rw [Bool.not_eq_true] at hok
        refine ⟨?_, ?_, ?_⟩
        · intro st' cs' h
          exact StepRes.noConfusion h
        · intro st' cs' q h
          exact StepRes.noConfusion h
        · intro st' cs' e h
          injection h with h1 h2 h3
          refine ⟨Call.deletePod p, h3.symm, hok, ?_⟩
          rw [← h2]
          rfl

lemma updateStep_trace (env : Env) (set : StatefulSet) (cn un : String)
    (p : Pod) :
    ((updateStep env set cn un p).aborted = false →
      ∀ c ∈ (updateStep env set cn un p).calls,
        inPlacePathCall c = false → env.callOK c = true) ∧
    ((updateStep env set cn un p).aborted = true →
      env.callOK (Call.deletePod p) = false ∧
      (updateStep env set cn un p).calls.getLast? =
        some (Call.deletePod p)) := by
  unfold updateStep
  dsimp only
  split
  · split
    · split
      · constructor
        · intro _ c hc
          simp at hc
        · intro h
          simp at h
      · split
        · split
          · rename_i hok
            constructor
            · intro _ c hc hip
              rcases List.mem_append.mp hc with hc | hc
              · rw [inPlaceUpdatePod_path env p c hc] at hip
                simp at hip
              · rw [List.mem_singleton.mp hc]
                exact hok
            · intro h
              simp at h
          · rename_i hok
            rw [Bool.not_eq_true] at hok
            constructor
            · intro h
              simp at h
            · intro _
              exact ⟨hok, List.getLast?_concat _⟩
        · constructor
          · intro _ c hc hip
            rw [inPlaceUpdatePod_path env p c hc] at hip
            simp at hip
          · intro h
            simp at h
    · split
      · rename_i hok
        constructor
        · intro _ c hc hip
          rw [List.mem_singleton.mp hc]
          exact hok
        · intro h
          simp at h
      · rename_i hok
        rw [Bool.not_eq_true] at hok
        constructor
        · intro h
          simp at h
        · intro _
          exact ⟨hok, rfl⟩
  · constructor
    · intro _ c hc
      simp at hc
    · intro h
      simp at h

lemma forwardSweep_trace (env : Env) (set : StatefulSet) (cn un : String)
    (m : Bool) :
    ∀ (l : List Pod) (i : Nat) (st : StatefulSetStatus),
      ((forwardSweep env set cn un m l i st).errOpt = none →
        ∀ c ∈ (forwardSweep env set cn un m l i st).calls,
          env.callOK c = true) ∧
      (∀ e, (forwardSweep env set cn un m l i st).errOpt = some e →
        ∃ c, e = .callFailed c ∧ env.callOK c = false ∧
          (forwardSweep env set cn un m l i st).calls.getLast? = some c) := by
  intro l
  induction l with
  | nil =>
    intro i st
    constructor
    · intro _ c hc
      simp [forwardSweep, SweepOut.calls] at hc
    · intro e he
      simp [forwardSweep, SweepOut.errOpt] at he
  | cons p rest ih =>
    intro i st
    cases hstep : forwardStep env set cn un m i p st with
    | stop st1 cs =>
      have heq : forwardSweep env set cn un m (p :: rest) i st =
          .ret st1 cs [] := by
        rw [forwardSweep, hstep]
      rw [heq]
      constructor
      · intro _ c hc
        exact (forwardStep_trace env set cn un m i p st).1 st1 cs hstep c hc
      · intro e he
        simp [SweepOut.errOpt] at he
    | fail st1 cs e0 =>
      have heq : forwardSweep env set cn un m (p :: rest) i st =
          .err st1 cs e0 [] := by
        rw [forwardSweep, hstep]
      rw [heq]
      constructor
      · intro hn
        simp [SweepOut.errOpt] at hn
      · intro e he
        simp only [SweepOut.errOpt, Option.some.injEq] at he
        subst he
        exact (forwardStep_trace env set cn un m i p st).2.2 st1 cs e0 hstep
    | proceed st1 cs p1 =>
      cases hrec : forwardSweep env set cn un m rest (i + 1) st1 with
      | done st2 cs2 ps =>
        have heq : forwardSweep env set cn un m (p :: rest) i st =
            .done st2 (cs ++ cs2) (p1 :: ps) := by
          rw [forwardSweep, hstep]
          dsimp only
          rw [hrec]
        rw [heq]
        constructor
        · intro _ c hc
          simp only [SweepOut.calls, List.mem_append] at hc
          rcases hc with hc | hc
          · exact (forwardStep_trace env set cn un m i p st).2.1 st1 cs p1
              hstep c hc
          · have hih := (ih (i + 1) st1).1
            rw [hrec] at hih
            exact hih rfl c hc
        · intro e he
          simp [SweepOut.errOpt] at he
      | ret st2 cs2 ps =>
        have heq : forwardSweep env set cn un m (p :: rest) i st =
            .ret st2 (cs ++ cs2) (p1 :: ps) := by
          rw [forwardSweep, hstep]
          dsimp only
          rw [hrec]
        rw [heq]
        constructor
        · intro _ c hc
          simp only [SweepOut.calls, List.mem_append] at hc
          rcases hc with hc | hc
          · exact (forwardStep_trace env set cn un m i p st).2.1 st1 cs p1
              hstep c hc
          · have hih := (ih (i + 1) st1).1
            rw [hrec] at hih
            exact hih rfl c hc
        · intro e he
          simp [SweepOut.errOpt] at he
      | err st2 cs2 e2 ps =>
        have heq : forwardSweep env set cn un m (p :: rest) i st =
            .err st2 (cs ++ cs2) e2 (p1 :: ps) := by
          rw [forwardSweep, hstep]
          dsimp only
          rw [hrec]
        rw [heq]
        constructor
        · intro hn
          simp [SweepOut.errOpt] at hn
        · intro e he
          simp only [SweepOut.errOpt, Option.some.injEq] at he
          subst he
          have hih := (ih (i + 1) st1).2
          rw [hrec] at hih
          obtain ⟨c, h1, h2, h3⟩ := hih e2 rfl
          refine ⟨c, h1, h2, ?_⟩
          simp only [SweepOut.calls] at h3 ⊢
          rw [List.getLast?_append_of_ne_nil _ (ne_nil_of_getLast? h3)]
          exact h3

lemma condemnedSweep_trace (env : Env) (cn un : String) (m : Bool)
    (fu : Option Pod) :
    ∀ (l : List Pod) (st : StatefulSetStatus),
      ((condemnedSweep env cn un m fu l st).errOpt = none →
        ∀ c ∈ (condemnedSweep env cn un m fu l st).calls,
          env.callOK c = true) ∧
      (∀ e, (condemnedSweep env cn un m fu l st).errOpt = some e →
        ∃ c, e = .callFailed c ∧ env.callOK c = false ∧
          (condemnedSweep env cn un m fu l st).calls.getLast? = some c) := by
  intro l
  induction l with
  | nil =>
    intro st
    constructor
    · intro _ c hc
      simp [condemnedSweep, SweepOut.calls] at hc
    · intro e he
      simp [condemnedSweep, SweepOut.errOpt] at he
  | cons p rest ih =>
    intro st
    cases hstep : condemnedStep env cn un m fu p st with
    | stop st1 cs =>
      have heq : condemnedSweep env cn un m fu (p :: rest) st =
          .ret st1 cs () := by
        rw [condemnedSweep, hstep]
      rw [heq]
      constructor
      · intro _ c hc
        exact (condemnedStep_trace env cn un m fu p st).1 st1 cs hstep c hc
      · intro e he
        simp [SweepOut.errOpt] at he
    | fail st1 cs e0 =>
      have heq : condemnedSweep env cn un m fu (p :: rest) st =
          .err st1 cs e0 () := by
        rw [condemnedSweep, hstep]
      rw [heq]
      constructor
      · intro hn
        simp [SweepOut.errOpt] at hn
      · intro e he
        simp only [SweepOut.errOpt, Option.some.injEq] at he
        subst he
        exact (condemnedStep_trace env cn un m fu p st).2.2 st1 cs e0 hstep
    | proceed st1 cs p1 =>
      cases hrec : condemnedSweep env cn un m fu rest st1 with
      | done st2 cs2 a =>
        have heq : condemnedSweep env cn un m fu (p :: rest) st =
            .done st2 (cs ++ cs2) a := by
          rw [condemnedSweep, hstep]
          dsimp only
          rw [hrec]
        rw [heq]
        constructor
        · intro _ c hc
          simp only [SweepOut.calls, List.mem_append] at hc
          rcases hc with hc | hc
          · exact (condemnedStep_trace env cn un m fu p st).2.1 st1 cs p1
              hstep c hc
          · have hih := (ih st1).1
            rw [hrec] at hih
            exact hih rfl c hc
        · intro e he
          simp [SweepOut.errOpt] at he
      | ret st2 cs2 a =>
        have heq : condemnedSweep env cn un m fu (p :: rest) st =
            .ret st2 (cs ++ cs2) a := by
          rw [condemnedSweep, hstep]
          dsimp only
          rw [hrec]
        rw [heq]
        constructor
        · intro _ c hc
          simp only [SweepOut.calls, List.mem_append] at hc
          rcases hc with hc | hc
          · exact (condemnedStep_trace env cn un m fu p st).2.1 st1 cs p1
              hstep c hc
          · have hih := (ih st1).1
            rw [hrec] at hih
            exact hih rfl c hc
        · intro e he
          simp [SweepOut.errOpt] at he
      | err st2 cs2 e2 a =>
        have heq : condemnedSweep env cn un m fu (p :: rest) st =
            .err st2 (cs ++ cs2) e2 a := by
          rw [condemnedSweep, hstep]
          dsimp only
          rw [hrec]
        rw [heq]
        constructor
        · intro hn
          simp [SweepOut.errOpt] at hn
        · intro e he
          simp only [SweepOut.errOpt, Option.some.injEq] at he
          subst he
          have hih := (ih st1).2
          rw [hrec] at hih
          obtain ⟨c, h1, h2, h3⟩ := hih e2 rfl
          refine ⟨c, h1, h2, ?_⟩
          simp only [SweepOut.calls] at h3 ⊢
          rw [List.getLast?_append_of_ne_nil _ (ne_nil_of_getLast? h3)]
          exact h3

lemma updateSweepGo_trace (env : Env) (set : StatefulSet) (cn un : String)
    (maxU : Int) :
    ∀ (l : List (Nat × Pod)) (st : StatefulSetStatus) (unav : List Pod),
      ((updateSweepGo env set cn un maxU l st unav).errOpt = none →
        ∀ c ∈ (updateSweepGo env set cn un maxU l st unav).calls,
          inPlacePathCall c = false → env.callOK c = true) ∧
      (∀ e, (updateSweepGo env set cn un maxU l st unav).errOpt = some e →
        ∃ c, e = .callFailed c ∧ env.callOK c = false ∧
          (updateSweepGo env set cn un maxU l st unav).calls.getLast? =
            some c) := by
  intro l
  induction l with
  | nil =>
    intro st unav
    constructor
    · intro _ c hc
      simp [updateSweepGo_nil, SweepOut.calls] at hc
    · intro e he
      simp [updateSweepGo_nil, SweepOut.errOpt] at he
  | cons ip0 rest ih =>
    intro st unav
    obtain ⟨i, p⟩ := ip0
    by_cases hab : (updateStep env set cn un p).aborted = true
    · have heq := updateSweepGo_cons_abort env set cn un maxU i p rest st
        unav hab
      rw [heq]
      constructor
      · intro hn
        simp [SweepOut.errOpt] at hn
      · intro e he
        simp only [SweepOut.errOpt, Option.some.injEq] at he
        subst he
        obtain ⟨h1, h2⟩ := (updateStep_trace env set cn un p).2 hab
        exact ⟨Call.deletePod p, rfl, h1, h2⟩
    · rw [Bool.not_eq_true] at hab
      by_cases hge : maxU ≤ ((updateSweepUnav un p unav).length : Int)
      · have heq := updateSweepGo_cons_ret env set cn un maxU i p rest st
          unav hab hge
        rw [heq]
        constructor
        · intro _ c hc
          exact (updateStep_trace env set cn un p).1 hab c hc
        · intro e he
          simp [SweepOut.errOpt] at he
      · have heq := updateSweepGo_cons_go env set cn un maxU i p rest st
          unav hab hge
        cases hrec : updateSweepGo env set cn un maxU rest
            (updateSweepStatus (updateStep env set cn un p) st)
            (updateSweepUnav un p unav) with
        | done st2 cs2 u =>
          rw [hrec] at heq
          rw [heq]
          constructor
          · intro _ c hc
            simp only [SweepOut.calls, List.mem_append] at hc
            rcases hc with hc | hc
            · exact (updateStep_trace env set cn un p).1 hab c hc
            · have hih := (ih (updateSweepStatus (updateStep env set cn un
                p) st) (updateSweepUnav un p unav)).1
              rw [hrec] at hih
              exact hih rfl c hc
          · intro e he
            simp [SweepOut.errOpt] at he
        | ret st2 cs2 u =>
          rw [hrec] at heq
          rw [heq]
          constructor
          · intro _ c hc
            simp only [SweepOut.calls, List.mem_append] at hc
            rcases hc with hc | hc
            · exact (updateStep_trace env set cn un p).1 hab c hc
            · have hih := (ih (updateSweepStatus (updateStep env set cn un
                p) st) (updateSweepUnav un p unav)).1
              rw [hrec] at hih
              exact hih rfl c hc
          · intro e he
            simp [SweepOut.errOpt] at he
        | err st2 cs2 e2 u =>
          rw [hrec] at heq
          rw [heq]
          constructor
          · intro hn
            simp [SweepOut.errOpt] at hn
          · intro e he
            simp only [SweepOut.errOpt, Option.some.injEq] at he
            subst he
            have hih := (ih (updateSweepStatus (updateStep env set cn un p)
              st) (updateSweepUnav un p unav)).2
            rw [hrec] at hih
            obtain ⟨c, h1, h2, h3⟩ := hih e2 rfl
            refine ⟨c, h1, h2, ?_⟩
            simp only [SweepOut.calls] at h3 ⊢
            rw [List.getLast?_append_of_ne_nil _ (ne_nil_of_getLast? h3)]
            exact h3

lemma deleteRevLoop_trace (env : Env) :
    ∀ l : List ControllerRevision,
      ((deleteRevLoop env l).2 = none →
        ∀ c ∈ (deleteRevLoop env l).1, env.callOK c = true) ∧
      (∀ e, (deleteRevLoop env l).2 = some e →
        ∃ c, e = .callFailed c ∧ env.callOK c = false ∧
          (deleteRevLoop env l).1.getLast? = some c) := by
  intro l
  induction l with
  | nil =>
    constructor
    · intro _ c hc
      simp [deleteRevLoop] at hc
    · intro e he
      simp [deleteRevLoop] at he
  | cons r rest ih =>
    by_cases hr : env.callOK (Call.deleteRev r.name) = true
    · have heq : deleteRevLoop env (r :: rest) =
          (Call.deleteRev r.name :: (deleteRevLoop env rest).1,
            (deleteRevLoop env rest).2) := by
        rw [deleteRevLoop]
        dsimp only
        rw [hr]
        simp only [if_true]
      rw [heq]
      constructor
      · intro hn c hc
        rcases List.mem_cons.mp hc with hc | hc
        · rw [hc]
          exact hr
        · exact ih.1 hn c hc
      · intro e he
        obtain ⟨c, h1, h2, h3⟩ := ih.2 e he
        refine ⟨c, h1, h2, ?_⟩
        rw [getLast?_cons_of_ne_nil _ (ne_nil_of_getLast? h3)]
        exact h3
    · rw [Bool.not_eq_true] at hr
      have heq : deleteRevLoop env (r :: rest) =
          ([Call.deleteRev r.name],
            some (.callFailed (Call.deleteRev r.name))) := by
        rw [deleteRevLoop]
        dsimp only
        rw [hr]
        simp
      rw [heq]
      constructor
      · intro hn
        simp at hn
      · intro e he
        simp only [Option.some.injEq] at he
        subst he
        exact ⟨Call.deleteRev r.name, rfl, hr, rfl⟩

lemma truncateHistory_trace (env : Env) (set : StatefulSet)
    (pods : List Pod) (revisions : List ControllerRevision)
    (cur upd : ControllerRevision) :
    ∀ tc te, truncateHistory env set pods revisions cur upd =
        some (tc, te) →
      (te = none → ∀ c ∈ tc, env.callOK c = true) ∧
      (∀ e, te = some e → ∃ c, e = .callFailed c ∧
        env.callOK c = false ∧ tc.getLast? = some c) := by
  intro tc te h
  unfold truncateHistory at h
  dsimp only at h
  split at h
  · exact Option.noConfusion h
  · split at h
    · have h2 := Option.some.inj h
      have htc : ([] : List Call) = tc := congrArg Prod.fst h2
      have hte : (none : Option PassErr) = te := congrArg Prod.snd h2
      constructor
      · intro _ c hc
        rw [← htc] at hc
        simp at hc
      · intro e he
        rw [← hte] at he
        exact Option.noConfusion he
    · have h2 := Option.some.inj h
      have htc := congrArg Prod.fst h2
      have hte := congrArg Prod.snd h2
      dsimp only at htc hte
      constructor
      · intro hn c hc
        rw [← htc] at hc
        exact (deleteRevLoop_trace env _).1 (by rw [hte, hn]) c hc
      · intro e he
        obtain ⟨c, h1, h3, h4⟩ :=
          (deleteRevLoop_trace env _).2 e (by rw [hte, he])
        exact ⟨c, h1, h3, by rw [← htc]; exact h4⟩

lemma updateStatefulSetStatus_trace (env : Env) (set : StatefulSet)
    (status : StatefulSetStatus) :
    ((updateStatefulSetStatus env set status).2 = none →
      ∀ c ∈ (updateStatefulSetStatus env set status).1,
        env.callOK c = true) ∧
    (∀ e, (updateStatefulSetStatus env set status).2 = some e →
      ∃ c, e = .callFailed c ∧ env.callOK c = false ∧
        (updateStatefulSetStatus env set status).1.getLast? = some c) := by
  unfold updateStatefulSetStatus
  dsimp only
  split
  · by_cases hok : env.callOK Call.updateStatus = true
    · rw [if_pos hok]
      constructor
      · intro _ c hc
        rw [List.mem_singleton.mp hc]
        exact hok
      · intro e he
        simp at he
    · rw [Bool.not_eq_true] at hok
      rw [if_neg (by simp [hok])]
      constructor
      · intro hn
        simp at hn
      · intro e he
        simp only [Option.some.injEq] at he
        subst he
        exact ⟨Call.updateStatus, rfl, hok, rfl⟩
  · constructor
    · intro _ c hc
      simp at hc
    · intro e he
      simp at he

lemma getStatefulSetRevisions_trace (env : Env) (set : StatefulSet)
    (revisions : List ControllerRevision) :
    (∀ r, (getStatefulSetRevisions env set revisions).2 = .ok r →
      ∀ c ∈ (getStatefulSetRevisions env set revisions).1,
        env.callOK c = true) ∧
    (∀ e, (getStatefulSetRevisions env set revisions).2 = .error e →
      ∃ c, e = .callFailed c ∧ env.callOK c = false ∧
        (getStatefulSetRevisions env set revisions).1.getLast? =
          some c) := by
  unfold getStatefulSetRevisions
  dsimp only
  split
  · rename_i hlast
    by_cases hok : env.callOK
        (Call.createRev (candidateRevision set revisions).name) = true
    · rw [if_pos hok]
      constructor
      · intro r _ c hc
        rw [List.mem_singleton.mp hc]
        exact hok
      · intro e he
        exact Except.noConfusion he
    · rw [Bool.not_eq_true] at hok
      rw [if_neg (by simp [hok])]
      constructor
      · intro r hr
        exact Except.noConfusion hr
      · intro e he
        injection he with he
        subst he
        exact ⟨_, rfl, hok, rfl⟩
  · rename_i lastEq hlast
    split
    · rename_i hsorted
      have hmem := mem_of_getLast? hlast
      rw [findEqualRevisions] at hmem
      have h3 := (List.mem_filter.mp hmem).1
      rw [List.getLast?_eq_none_iff] at hsorted
      rw [hsorted] at h3
      simp at h3
    · rename_i lastRev hsorted
      split
      · constructor
        · intro r _ c hc
          simp at hc
        · intro e he
          exact Except.noConfusion he
      · by_cases hok : env.callOK
            (Call.updateRev lastEq.name
              (candidateRevision set revisions).revision) = true
        · rw [if_pos hok]
          constructor
          · intro r _ c hc
            rw [List.mem_singleton.mp hc]
            exact hok
          · intro e he
            exact Except.noConfusion he
        · rw [Bool.not_eq_true] at hok
          rw [if_neg (by simp [hok])]
          constructor
          · intro r hr
            exact Except.noConfusion hr
          · intro e he
            injection he with he
            subst he
            exact ⟨_, rfl, hok, rfl⟩

lemma updateMinMax_error (set : StatefulSet) (N : Nat) (e : PassErr)
    (h : updateMinMax set N = some (.error e)) : e = .intstrErr := by
  unfold updateMinMax at h
  split at h
  · simp at h
  · split at h
    · exact Option.noConfusion h
    · split at h
      · have h2 := Option.some.inj h
        injection h2 with h2
        exact h2.symm
      · simp at h

lemma updateStatefulSet_trace (env : Env) (set : StatefulSet)
    (cur upd : ControllerRevision) (cc : Int) (pods : List Pod)
    (r : PassResult)
    (hr : updateStatefulSet env set cur upd cc pods = some r) :
    (r.err = none → ∀ c ∈ r.calls,
      inPlacePathCall c = false → env.callOK c = true) ∧
    (∀ c, r.err = some (.callFailed c) →
      env.callOK c = false ∧ r.calls.getLast? = some c) := by
  unfold updateStatefulSet at hr
  cases hrep : set.spec.replicas with
  | none => rw [hrep] at hr; exact absurd hr (by simp)
  | some rc =>
    rw [hrep] at hr
    dsimp only at hr
    set st0 : StatefulSetStatus :=
      { observedGeneration := set.generation, replicas := 0,
        readyReplicas := 0, currentReplicas := 0, updatedReplicas := 0,
        currentRevision := cur.name, updateRevision := upd.name,
        collisionCount := cc } with hst0
    set parted := partitionPods cur.name upd.name rc.toNat st0 pods
      with hparted
    set replicas0 := fillReplicas set cur.name upd.name parted.2.1 0
      with hreps0
    set condemnedS := sortPodsByOrdinal parted.2.2 with hcondS
    set fu := findFirstUnhealthy replicas0 condemnedS with hfu
    set mono := !allowsBurst set with hmono
    split at hr
    · injection hr with hr
      rw [← hr]
      constructor
      · intro _ c hc
        simp at hc
      · intro c hcE
        simp at hcE
    · split at hr
      · rename_i st2 cs2 e a hfwd
        injection hr with hr
        rw [← hr]
        constructor
        · intro hn
          simp at hn
        · intro c hcE
          have he : e = .callFailed c := Option.some.inj hcE
          obtain ⟨c0, h1, h2, h3⟩ := (forwardSweep_trace env set cur.name
            upd.name mono replicas0 0 parted.1).2 e (by rw [hfwd]; rfl)
          rw [hfwd] at h3
          simp only [SweepOut.calls] at h3
          rw [he] at h1
          injection h1 with h1
          subst h1
          exact ⟨h2, h3⟩
      · rename_i st2 cs2 a hfwd
        injection hr with hr
        rw [← hr]
        constructor
        · intro _ c hc hip
          exact (forwardSweep_trace env set cur.name upd.name mono
            replicas0 0 parted.1).1 (by rw [hfwd]; rfl) c
            (by rw [hfwd]; exact hc)
        · intro c hcE
          simp at hcE
      · rename_i st2 cs2 replicas1 hfwd
        have hfwdOK : ∀ c ∈ cs2, env.callOK c = true := by
          intro c hc
          exact (forwardSweep_trace env set cur.name upd.name mono
            replicas0 0 parted.1).1 (by rw [hfwd]; rfl) c
            (by rw [hfwd]; exact hc)
        split at hr
        · rename_i st3 cs3 e a hcsw
          injection hr with hr
          rw [← hr]
          constructor
          · intro hn
            simp at hn
          · intro c hcE
            have he : e = .callFailed c := Option.some.inj hcE
            obtain ⟨c0, h1, h2, h3⟩ := (condemnedSweep_trace env cur.name
              upd.name mono fu condemnedS.reverse st2).2 e
              (by rw [hcsw]; rfl)
            rw [hcsw] at h3
            simp only [SweepOut.calls] at h3
            rw [he] at h1
            injection h1 with h1
            subst h1
            refine ⟨h2, ?_⟩
            show (cs2 ++ cs3).getLast? = some c
            rw [List.getLast?_append_of_ne_nil _ (ne_nil_of_getLast? h3)]
            exact h3
        · rename_i st3 cs3 a hcsw
          injection hr with hr
          rw [← hr]
          constructor
          · intro _ c hc hip
            rcases List.mem_append.mp hc with hc | hc
            · exact hfwdOK c hc
            · exact (condemnedSweep_trace env cur.name upd.name mono fu
                condemnedS.reverse st2).1 (by rw [hcsw]; rfl) c
                (by rw [hcsw]; exact hc)
          · intro c hcE
            simp at hcE
        · rename_i st3 cs3 a hcsw
          have hcswOK : ∀ c ∈ cs3, env.callOK c = true := by
            intro c hc
            exact (condemnedSweep_trace env cur.name upd.name mono fu
              condemnedS.reverse st2).1 (by rw [hcsw]; rfl) c
              (by rw [hcsw]; exact hc)
          split at hr
          · injection hr with hr
            rw [← hr]
            constructor
            · intro _ c hc hip
              rcases List.mem_append.mp hc with hc | hc
              · exact hfwdOK c hc
              · exact hcswOK c hc
            · intro c hcE
              simp at hcE
          · split at hr
            · exact absurd hr (by simp)
            · rename_i e hmm
              injection hr with hr
              rw [← hr]
              constructor
              · intro hn
                simp at hn
              · intro c hcE
                have he : e = .callFailed c := Option.some.inj hcE
                have he2 := updateMinMax_error set rc.toNat e hmm
                rw [he2] at he
                exact PassErr.noConfusion he
            · rename_i um mu hmm
              split at hr
              · rename_i st4 cs4 e a hsw
                injection hr with hr
                rw [← hr]
                constructor
                · intro hn
                  simp at hn
                · intro c hcE
                  have he : e = .callFailed c := Option.some.inj hcE
                  obtain ⟨c0, h1, h2, h3⟩ := (updateSweepGo_trace env set
                    cur.name upd.name mu (buildTargets replicas1 um) st3
                    []).2 e (by rw [hsw]; rfl)
                  rw [hsw] at h3
                  simp only [SweepOut.calls] at h3
                  rw [he] at h1
                  injection h1 with h1
                  subst h1
                  refine ⟨h2, ?_⟩
                  show (cs2 ++ cs3 ++ cs4).getLast? = some c
                  rw [List.getLast?_append_of_ne_nil _
                    (ne_nil_of_getLast? h3)]
                  exact h3
              · rename_i st4 cs4 a hsw
                injection hr with hr
                rw [← hr]
                constructor
                · intro _ c hc hip
                  rcases List.mem_append.mp hc with hc | hc
                  · rcases List.mem_append.mp hc with hc | hc
                    · exact hfwdOK c hc
                    · exact hcswOK c hc
                  · exact (updateSweepGo_trace env set cur.name upd.name mu
                      (buildTargets replicas1 um) st3 []).1
                      (by rw [hsw]; rfl) c (by rw [hsw]; exact hc) hip
                · intro c hcE
                  simp at hcE
              · rename_i st4 cs4 a hsw
                injection hr with hr
                rw [← hr]
                constructor
                · intro _ c hc hip
                  rcases List.mem_append.mp hc with hc | hc
                  · rcases List.mem_append.mp hc with hc | hc
                    · exact hfwdOK c hc
                    · exact hcswOK c hc
                  · exact (updateSweepGo_trace env set cur.name upd.name mu
                      (buildTargets replicas1 um) st3 []).1
                      (by rw [hsw]; rfl) c (by rw [hsw]; exact hc) hip
                · intro c hcE
                  simp at hcE

/-- C8 (amended): any `callFailed` error returned by a full reconcile names
a call that really failed and is the LAST call issued (the pass aborts at
that point); and when the reconcile returns no error, every issued call
OUTSIDE the in-place update path succeeded.  The original claim is refuted
by `c8_counterexample`: a failure of the in-place patch (or of the
`InPlaceUpdateReady` condition write) never surfaces — under InPlaceOnly it
is swallowed, otherwise the pod is deleted as a fallback. -/
theorem c8_error_surfacing (env : Env) (set : StatefulSet)
    (pods : List Pod) (tr : TopResult)
    (htr : UpdateStatefulSetTop env set pods = some tr) :
    (∀ c, tr.err = some (.callFailed c) →
      env.callOK c = false ∧ tr.calls.getLast? = some c) ∧
    (tr.err = none → ∀ c ∈ tr.calls,
      inPlacePathCall c = false → env.callOK c = true) := by
  unfold UpdateStatefulSetTop at htr
  dsimp only at htr
  set sorted := sortRevisions env.revisionsList with hsorted
  set rr := getStatefulSetRevisions env set sorted with hrr
  split at htr
  · rename_i e hre
    injection htr with htr
    rw [← htr]
    constructor
    · intro c hcE
      have he : e = .callFailed c := Option.some.inj hcE
      have hre' := hre
      rw [hrr] at hre'
      obtain ⟨c0, h1, h2, h3⟩ :=
        (getStatefulSetRevisions_trace env set sorted).2 e hre'
      rw [he] at h1
      injection h1 with h1
      subst h1
      refine ⟨h2, ?_⟩
      rw [hrr]
      exact h3
    · intro hn
      simp at hn
  · rename_i cur upd cc2 hre
    have hre' := hre
    rw [hrr] at hre'
    have hrrOK : ∀ c ∈ rr.1, env.callOK c = true := by
      intro c hc
      rw [hrr] at hc
      exact (getStatefulSetRevisions_trace env set sorted).1 _ hre' c hc
    split at htr
    · exact Option.noConfusion htr
    · rename_i pass hpass
      split at htr
      · rename_i e hperr
        injection htr with htr
        rw [← htr]
        constructor
        · intro c hcE
          have he : e = .callFailed c := Option.some.inj hcE
          obtain ⟨h2, h3⟩ :=
            (updateStatefulSet_trace env set cur upd cc2 pods pass hpass).2
              c (by rw [hperr, he])
          refine ⟨h2, ?_⟩
          show (rr.1 ++ pass.calls).getLast? = some c
          rw [List.getLast?_append_of_ne_nil _ (ne_nil_of_getLast? h3)]
          exact h3
        · intro hn
          simp at hn
      · rename_i hperr
        have hpassOK :=
          (updateStatefulSet_trace env set cur upd cc2 pods pass hpass).1
            hperr
        split at htr
        · rename_i e hsu
          injection htr with htr
          rw [← htr]
          constructor
          · intro c hcE
            have he : e = .callFailed c := Option.some.inj hcE
            obtain ⟨c0, h1, h2, h3⟩ :=
              (updateStatefulSetStatus_trace env set pass.status).2 e hsu
            rw [he] at h1
            injection h1 with h1
            subst h1
            refine ⟨h2, ?_⟩
            show (rr.1 ++ pass.calls ++
              (updateStatefulSetStatus env set pass.status).1).getLast? =
              some c
            rw [List.getLast?_append_of_ne_nil _ (ne_nil_of_getLast? h3)]
            exact h3
          · intro hn
            simp at hn
        · rename_i hsu
          have hsuOK :=
            (updateStatefulSetStatus_trace env set pass.status).1 hsu
          split at htr
          · exact Option.noConfusion htr
          · rename_i tCalls tErr htrunc
            injection htr with htr
            rw [← htr]
            have htt := truncateHistory_trace env set pods sorted cur upd
              tCalls tErr htrunc
            constructor
            · intro c hcE
              obtain ⟨c0, h1, h2, h3⟩ := htt.2 (.callFailed c) hcE
              injection h1 with h1
              subst h1
              refine ⟨h2, ?_⟩
              show (rr.1 ++ pass.calls ++
                (updateStatefulSetStatus env set pass.status).1 ++
                tCalls).getLast? = some c
              rw [List.getLast?_append_of_ne_nil _ (ne_nil_of_getLast? h3)]
              exact h3
            · intro hn c hc hip
              rcases List.mem_append.mp hc with hc | hc
              · rcases List.mem_append.mp hc with hc | hc
                · rcases List.mem_append.mp hc with hc | hc
                  · exact hrrOK c hc
                  · exact hpassOK c hc hip
                · exact hsuOK c hc
              · exact htt.1 hn c hc

def c8Env : Env :=
  ⟨fun c => match c with
    | .inPlaceUpdate _ => false
    | _ => true,
   fun _ => true, []⟩

def c8Pod : Pod :=
  { uid := 0, ord := 0, revision := "v1", created := true
    terminating := false, runningAndReady := true, failedPhase := false
    inPlaceGateOK := true, inPlaceIncomplete := false
    condUpdateNeeded := false, identityOK := true, storageOK := true }

def c8Set : StatefulSet :=
  { generation := 1
    deletionTimestamp := none
    spec :=
      { replicas := some 1
        revisionHistoryLimit := some 10
        podManagementPolicy := .parallelPolicy
        updateStrategy :=
          { type := .rollingUpdate
            rollingUpdate := some
              { partition := some 0
                maxUnavailable := some (.intVal 5)
                podUpdatePolicy := .inPlaceOnly } }
        templateHash := 0 }
    status :=
      { observedGeneration := 0, replicas := 1, readyReplicas := 1
        currentReplicas := 1, updatedReplicas := 0
        currentRevision := "v1", updateRevision := "v2"
        collisionCount := some 0 } }

def c8CurRev : ControllerRevision := ⟨"v1", 1, 0⟩

def c8UpdRev : ControllerRevision := ⟨"v2", 2, 1⟩

/-- C8 (counterexample): with the InPlaceOnly policy and an environment in
which the in-place patch call fails, the pass issues the condition write
and the failing in-place patch, swallows the failure, and returns with NO
error — the in-place update path's error does not surface. -/
theorem c8_counterexample :
    ∃ pr, updateStatefulSet c8Env c8Set c8CurRev c8UpdRev 0 [c8Pod] =
        some pr ∧
      pr.err = none ∧
      Call.updateCondition c8Pod false ∈ pr.calls ∧
      Call.inPlaceUpdate c8Pod ∈ pr.calls ∧
      c8Env.callOK (Call.inPlaceUpdate c8Pod) = false := by
  refine ⟨_, rfl, rfl, ?_, ?_, rfl⟩
  · decide
  · decide

theorem c8_witness :
    ∃ tr, UpdateStatefulSetTop c1Env c1Set c1Pods = some tr ∧
      ((∀ c, tr.err = some (.callFailed c) →
        c1Env.callOK c = false ∧ tr.calls.getLast? = some c) ∧
       (tr.err = none → ∀ c ∈ tr.calls,
        inPlacePathCall c = false → c1Env.callOK c = true)) :=
  ⟨_, rfl, c8_error_surfacing c1Env c1Set c1Pods _ rfl⟩

end Kruise
